import Mathlib

/-!
The job-control state machine of `msh.c`.

A shallow embedding of the three kinds of process of `src/msh.c`: the shell (the
Controller), the liner (the Coordinator) and the worker (the Executor).

* The global variables of a process are the fields of `Proc`.
* Everything a process does to the outside world (signals it sends, lines it
  writes to stderr, children it forks) is appended to the trace `Proc.out`.
* A process that called `exit`, failed an `assert`, or waits in `pause()` for a
  signal that never comes, has `Proc.halted = some _`.
* What the operating system hands to a signal handler (the result of
  `waitpid`, the content of the files in `/tmp`) is the argument
  `Notification` of the handler; what it answers to a worker is a `WorkerEnv`,
  what it answers to one call of `start_worker` is a `WorkerRun`, and what it
  answers during one round of the main loop of the shell is a `LineEnv`.
-/

namespace Msh

/-! ## Constants -/

/-- Values of `process_type_t`. -/
inductive process_type_t where
  | PROCESS_TYPE_NONE
  | PROCESS_TYPE_SHELL
  | PROCESS_TYPE_LINER
  | PROCESS_TYPE_WORKER
  deriving DecidableEq, Repr

/-- Values of `worker_state_t`. -/
inductive worker_state_t where
  | WORKER_STATE_ACTIVE
  | WORKER_STATE_SUSPENDED
  | WORKER_STATE_BACKGROUND
  deriving DecidableEq, Repr

export process_type_t (PROCESS_TYPE_NONE PROCESS_TYPE_SHELL PROCESS_TYPE_LINER PROCESS_TYPE_WORKER)
export worker_state_t (WORKER_STATE_ACTIVE WORKER_STATE_SUSPENDED WORKER_STATE_BACKGROUND)

/-- Record `liner_job_t`: one live liner as the shell sees it. -/
structure liner_job_t where
  pid : Int
  pgid : Int
  state : worker_state_t
  deriving DecidableEq, Repr

/-- Enumerator `MSH_EXIT_ALL` of `worker_exit_code_t`. -/
def MSH_EXIT_ALL : Nat := 4
/-- Enumerator `MSH_EXIT_BG` of `worker_exit_code_t`. -/
def MSH_EXIT_BG : Nat := 5
/-- Constant `EXIT_SUCCESS` of `<stdlib.h>`. -/
def EXIT_SUCCESS : Nat := 0
/-- Constant `EXIT_FAILURE` of `<stdlib.h>`. -/
def EXIT_FAILURE : Nat := 1
/-- Size `MAX_NUM_ARGUMENTS` of the token array (without the closing NULL). -/
def MAX_NUM_ARGUMENTS : Nat := 11
/-- Size `MAX_PIDS_HISTORY_SIZE` of the ring of spawned pids. -/
def MAX_PIDS_HISTORY_SIZE : Nat := 15
/-- Size `MAX_COMMANDS_HISTORY_SIZE` of the ring of command lines. -/
def MAX_COMMANDS_HISTORY_SIZE : Nat := 50
/-- String `SEARCH_PATH_SUFFIX`. -/
def SEARCH_PATH_SUFFIX : List Char := ":/usr/local/bin:/usr/bin:/bin".toList
/-- Value of `ENOENT` in `<errno.h>` (Linux). -/
def ENOENT : Nat := 2

/-- Signal number of `SIGINT` (Linux, `<signal.h>`). -/
def SIGINT : Nat := 2
/-- Signal number of `SIGKILL` (Linux). -/
def SIGKILL : Nat := 9
/-- Signal number of `SIGCHLD` (Linux on x86 and ARM). -/
def SIGCHLD : Nat := 17
/-- Signal number of `SIGCONT` (Linux on x86 and ARM). -/
def SIGCONT : Nat := 18
/-- Signal number of `SIGTSTP` (Linux on x86 and ARM). -/
def SIGTSTP : Nat := 20

/-! ## The wait status, as glibc encodes it (`<bits/waitstatus.h>`)

`child_status` is the `int` that `waitpid` fills in; the handlers look at it
only through these macros. -/

/-- Macro `WEXITSTATUS(status)`: `((status) & 0xff00) >> 8`. -/
def WEXITSTATUS (status : Nat) : Nat := (status &&& 0xff00) >>> 8
/-- Macro `WTERMSIG(status)`: `(status) & 0x7f`. -/
def WTERMSIG (status : Nat) : Nat := status &&& 0x7f
/-- Macro `WSTOPSIG(status)`: the same bits as `WEXITSTATUS`. -/
def WSTOPSIG (status : Nat) : Nat := WEXITSTATUS status
/-- Macro `WIFEXITED(status)`: `WTERMSIG(status) == 0`. -/
def WIFEXITED (status : Nat) : Bool := WTERMSIG status == 0
/-- The C conversion `(signed char) x` of a small non-negative `int`. -/
def signed_char (x : Nat) : Int := if x % 256 < 128 then (x % 256 : Nat) else (x % 256 : Nat) - 256
/-- Macro `WIFSIGNALED(status)`: `((signed char) (((status) & 0x7f) + 1) >> 1) > 0`. -/
def WIFSIGNALED (status : Nat) : Bool := decide (0 < signed_char ((status &&& 0x7f) + 1) >>> 1)
/-- Macro `WIFSTOPPED(status)`: `((status) & 0xff) == 0x7f`. -/
def WIFSTOPPED (status : Nat) : Bool := (status &&& 0xff) == 0x7f
/-- Macro `WIFCONTINUED(status)`: `(status) == 0xffff`. -/
def WIFCONTINUED (status : Nat) : Bool := status == 0xffff

/-- Macro `W_EXITCODE(ret, sig)`: the status of a child that exited with `ret`
(then `sig = 0`) or was killed by signal `sig` (then `ret = 0`). -/
def W_EXITCODE (ret sig : Nat) : Nat := ret <<< 8 ||| sig
/-- Macro `W_STOPCODE(sig)`: the status of a child stopped by signal `sig`. -/
def W_STOPCODE (sig : Nat) : Nat := sig <<< 8 ||| 0x7f
/-- Macro `__W_CONTINUED`: the status of a child resumed by `SIGCONT`. -/
def W_CONTINUED : Nat := 0xffff
/-- Macro `WCOREFLAG`: set in the status of a killed child that dumped core. -/
def WCOREFLAG : Nat := 0x80

/-! ## Process state -/

/-- The lines the program writes to stderr through `ERROR`. -/
inductive Msg where
  /-- Text "Bad format for current working directory". -/
  | bad_cwd_format
  /-- Text "Error with chdir". -/
  | chdir_error
  /-- Text "Not found liner with pid %d". -/
  | not_found_liner (pid : Int)
  /-- Text "Some error when changing liner state %d, Resuming...". -/
  | liner_wait_error
  /-- Text "Did not found any job to continue". -/
  | no_job_to_continue
  /-- Text "Unexpected signal %d to child, killing it... %d". -/
  | unexpected_signal (sig : Nat) (pid : Int)
  /-- Text "Some error when changing worker state %d, Exiting...". -/
  | worker_wait_error
  /-- Text "liner: Too much tokens already". -/
  | too_much_tokens
  /-- Text "Failed to create a separate process group". -/
  | setpgid_failed
  /-- Text "cd: Error occured". -/
  | cd_error
  /-- Text "cd: HOME variable not set". -/
  | cd_home_not_set
  /-- Text "cd: Too many arguments, must be one". -/
  | cd_too_many_arguments
  /-- Text "%s: Command not found.". -/
  | command_not_found (command : List Char)
  /-- Text "Error (%d) while trying to execute command: %s". -/
  | exec_error (errno : Nat) (command : List Char)
  /-- Text "Failed to put PATH variable into environment". -/
  | putenv_failed
  /-- Text "Command not in history". -/
  | command_not_in_history
  deriving DecidableEq, Repr

/-- What a process does to the world outside its own memory. -/
inductive Effect where
  /-- Call `kill( pid, sig )`. -/
  | kill (pid : Int) (sig : Nat)
  /-- Call `tcsetpgrp( STDIN_FILENO, pgid )`. -/
  | tcsetpgrp (pgid : Int)
  /-- A line written with `ERROR`. -/
  | error (m : Msg)
  /-- Call `fork()` in `start_worker`, which returned `result`; the worker it creates
  starts on the token array `tokens`, as it is at that moment. -/
  | fork (tokens : List (List Char)) (result : Int)
  /-- The line `save_worker_pid_with_liner` appends to the pid file. -/
  | save_worker_pid (pid : Int)
  /-- The string `set_cwd` writes into the working-directory file. -/
  | set_cwd (new_cwd : List Char)
  /-- Call `putenv( env_path )`. -/
  | putenv (env_path : List Char)
  /-- Call `execvp( tokens[0], tokens )`. -/
  | execvp (tokens : List (List Char))
  /-- Call `setpgid( pgid, pgid )`. -/
  | setpgid (pgid : Int)
  /-- A line `"%lu: %s\n"` printed by the `history` built-in. -/
  | print_command (number : Nat) (line : List Char)
  /-- A line `"%lu: %d\n"` printed by the `listpids` built-in. -/
  | print_pid (number : Nat) (pid : Int)
  /-- Call `fork()` in `main`, which returned `result`; the liner it creates runs
  the line `cmd_line`. -/
  | fork_liner (cmd_line : List Char) (result : Int)
  deriving DecidableEq, Repr

/-- How a process stopped running the program. -/
inductive Halt where
  /-- The process called `exit( retcode )`. -/
  | exit (retcode : Nat)
  /-- An `assert` failed. -/
  | abort
  /-- The process sits in `pause()` and no further signal arrives, or runs a loop
  whose exit condition can no longer become true. -/
  | hang
  /-- Success of `execvp`: another program runs in the process from here on. -/
  | exec
  deriving DecidableEq, Repr

/-- The global variables of one msh process, the part of the kernel state the
program reads back (`pgrp`), the trace of its effects and whether it halted. -/
structure Proc where
  my_process_type : process_type_t
  /-- The list headed by the global `liner`; the head is the job added last. -/
  liner : List liner_job_t
  last_liner_exited : Bool
  last_worker_exited : Bool
  liner_child_pid : Int
  msh_pgid : Int
  /-- The value `getpgrp()` returns in this process. -/
  pgrp : Int
  pids_history : List Int
  pids_history_finish : Nat
  /-- The rows of `command_history`; an unused row is the empty string. -/
  command_history : List (List Char)
  command_history_finish : Nat
  /-- The entries of `tokens` before the first NULL. -/
  tokens : List (List Char)
  /-- The string `cmd_line`. -/
  cmd_line : List Char
  out : List Effect
  halted : Option Halt
  deriving DecidableEq, Repr

/-- What the operating system reports to one run of a SIGCHLD handler. -/
structure Notification where
  /-- The value returned by `waitpid` / `wait` (`-1` on failure). -/
  child_pid : Int
  /-- The status stored by `waitpid` / `wait`. -/
  child_status : Nat
  /-- In `update_cwd`: `fscanf` read a directory name (`fscanf_result > 0`). -/
  fscanf_ok : Bool
  /-- In `update_cwd`: `chdir` did not return `-1`. -/
  chdir_ok : Bool
  /-- The pids in the pid file of liner `child_pid`; `none` when `fopen` fails. -/
  pid_file : Option (List Int)
  deriving DecidableEq, Repr

/-- Run `k` unless the process has halted. -/
def Proc.andThen (p : Proc) (k : Proc → Proc) : Proc :=
  match p.halted with
  | none => k p
  | some _ => p

/-- Statement `assert( c )` followed by the rest `k` of the function. -/
def c_assert (c : Bool) (p : Proc) (k : Proc → Proc) : Proc :=
  if c then k p else { p with halted := some Halt.abort }

/-- Append one effect to the trace. -/
def Proc.emit (p : Proc) (e : Effect) : Proc := { p with out := p.out ++ [e] }

/-! ## Job table (lines 292-412) -/

/-- Function `add_pid_to_history`. -/
def add_pid_to_history (pid : Int) (p : Proc) : Proc :=
  c_assert (p.my_process_type == PROCESS_TYPE_SHELL) p fun p =>
  { p with
    pids_history := p.pids_history.set p.pids_history_finish pid
    pids_history_finish := (p.pids_history_finish + 1) % MAX_PIDS_HISTORY_SIZE }

/-- Function `add_liner_list_item`: the new job becomes the head of the list. -/
def add_liner_list_item (liner_pid : Int) (p : Proc) : Proc :=
  c_assert (p.my_process_type == PROCESS_TYPE_SHELL) p fun p =>
  { p with
    liner := { pid := liner_pid, pgid := p.pgrp, state := WORKER_STATE_ACTIVE } :: p.liner }

/-- The `while` loop of `remove_liner_list_item`: unlink the first item whose job
has pid `liner_pid`; `none` when the loop runs off the end of the list. The
`assert( current_item == liner )` of the head case holds by construction. -/
def remove_liner_list_loop (liner_pid : Int) : List liner_job_t → Option (List liner_job_t)
  | [] => none
  | liner_job :: next =>
    if liner_job.pid = liner_pid then some next
    else (remove_liner_list_loop liner_pid next).map (liner_job :: ·)

/-- Function `remove_liner_list_item`. -/
def remove_liner_list_item (liner_pid : Int) (p : Proc) : Proc :=
  match remove_liner_list_loop liner_pid p.liner with
  | some l => { p with liner := l }
  | none => p.emit (Effect.error (Msg.not_found_liner liner_pid))

/-- Function `free_liner_list`: the shell kills every job that is still listed. -/
def free_liner_list (p : Proc) : Proc :=
  { p with
    out := p.out ++
      (if p.my_process_type = PROCESS_TYPE_SHELL
        then p.liner.map (fun liner_job => Effect.kill liner_job.pid SIGKILL) else [])
    liner := [] }

/-- Function `free_current_input_resources` (`free_tokens`, then `cmd_line = NULL`). -/
def free_current_input_resources (p : Proc) : Proc :=
  { p with tokens := [], cmd_line := [] }

/-- Function `free_all_resources`. -/
def free_all_resources (p : Proc) : Proc :=
  free_current_input_resources (free_liner_list p)

/-- Function `free_and_exit`. -/
def free_and_exit (retcode : Nat) (p : Proc) : Proc :=
  { free_all_resources p with halted := some (Halt.exit retcode) }

/-- Function `get_liner_job_with_pid`: the first job with that pid, if any. -/
def get_liner_job_with_pid (liner_pid : Int) (p : Proc) : Option liner_job_t :=
  p.liner.find? (fun liner_job => liner_job.pid == liner_pid)

/-- Function `get_liner_job_with_state`: the first job in that state, if any. -/
def get_liner_job_with_state (state : worker_state_t) (p : Proc) : Option liner_job_t :=
  p.liner.find? (fun liner_job => liner_job.state == state)

/-- The assignment `liner_job->state = state` for the pointer `liner_job` that
`get_liner_job_with_pid( liner_pid )` returned: it writes into the first job of
the list with that pid. -/
def set_liner_job_state (liner_pid : Int) (state : worker_state_t) :
    List liner_job_t → List liner_job_t
  | [] => []
  | liner_job :: next =>
    if liner_job.pid = liner_pid then { liner_job with state := state } :: next
    else liner_job :: set_liner_job_state liner_pid state next

/-! ## The shell's handler (lines 190-218, 463-632) -/

/-- Function `update_cwd`; the directory a process is in is not part of `Proc`, so
what is left are the two error paths. -/
def update_cwd (fscanf_ok chdir_ok : Bool) (p : Proc) : Proc :=
  (if fscanf_ok then p
   else
     let p := p.emit (Effect.error Msg.bad_cwd_format)
     if p.my_process_type ≠ PROCESS_TYPE_SHELL then free_and_exit EXIT_FAILURE p else p).andThen
  fun p =>
    if chdir_ok then p
    else
      let p := p.emit (Effect.error Msg.chdir_error)
      if p.my_process_type ≠ PROCESS_TYPE_SHELL then free_and_exit EXIT_FAILURE p else p

/-- Function `save_liner_pids_with_shell`; `pid_file` is what the `fscanf` loop
reads from the pid file of the liner. -/
def save_liner_pids_with_shell (pid_file : Option (List Int)) (p : Proc) : Proc :=
  c_assert (p.my_process_type == PROCESS_TYPE_SHELL) p fun p =>
  match pid_file with
  | none => p
  | some pids =>
    pids.foldl (fun p worker_pid =>
      if worker_pid ≠ 0 then p.andThen (add_pid_to_history worker_pid) else p) p

/-- Function `take_leave_of_liner`. -/
def take_leave_of_liner (liner_pid : Int) (pid_file : Option (List Int)) (p : Proc) : Proc :=
  c_assert (p.my_process_type == PROCESS_TYPE_SHELL) p fun p =>
  let p :=
    match p.liner with
    | liner_job :: _ =>
      if liner_job.pid = liner_pid then { p with last_liner_exited := true } else p
    | [] => p
  (save_liner_pids_with_shell pid_file p).andThen (remove_liner_list_item liner_pid)

/-- Function `sigchld_handler`, the SIGCHLD handler of the shell. -/
def sigchld_handler (signal_num : Nat) (n : Notification) (p : Proc) : Proc :=
  c_assert (signal_num == SIGCHLD) p fun p =>
  c_assert (p.my_process_type == PROCESS_TYPE_SHELL) p fun p =>
  let child_status := n.child_status
  let child_pid := n.child_pid
  (update_cwd n.fscanf_ok n.chdir_ok p).andThen fun p =>
  if child_pid = -1 then p.emit (Effect.error Msg.liner_wait_error)
  else
    let p :=
      match get_liner_job_with_pid child_pid p with
      | some _ => p
      | none => add_liner_list_item child_pid p
    (p.andThen fun p =>
      if WIFCONTINUED child_status then
        { p with liner := set_liner_job_state child_pid WORKER_STATE_BACKGROUND p.liner }
      else if WIFEXITED child_status then
        let child_exit_code := WEXITSTATUS child_status
        (take_leave_of_liner child_pid n.pid_file p).andThen fun p =>
        if child_exit_code = MSH_EXIT_ALL then free_and_exit EXIT_SUCCESS p
        else if child_exit_code = MSH_EXIT_BG then
          match get_liner_job_with_state WORKER_STATE_SUSPENDED p with
          | some liner_job => p.emit (Effect.kill liner_job.pid SIGCONT)
          | none => p.emit (Effect.error Msg.no_job_to_continue)
        else p
      else if WIFSIGNALED child_status || WIFSTOPPED child_status then
        let child_signal :=
          if WIFSIGNALED child_status then WTERMSIG child_status else WSTOPSIG child_status
        if child_signal = SIGCONT then
          { p with liner := set_liner_job_state child_pid WORKER_STATE_BACKGROUND p.liner }
        else if child_signal = SIGTSTP then
          { p with liner := set_liner_job_state child_pid WORKER_STATE_SUSPENDED p.liner }
        else if child_signal = SIGKILL ∨ child_signal = SIGINT then
          take_leave_of_liner child_pid n.pid_file p
        else
          let p := p.emit (Effect.error (Msg.unexpected_signal child_signal child_pid))
          let p := p.emit (Effect.kill child_pid SIGKILL)
          take_leave_of_liner child_pid n.pid_file p
      else p).andThen
    fun p => p.emit (Effect.tcsetpgrp p.msh_pgid)


/-! ## The worker (lines 164-188, 723-874) -/

/-- What the operating system answers to one worker. -/
structure WorkerEnv where
  /-- The value of `getenv( "HOME" )`; `none` for NULL. -/
  home : Option (List Char)
  /-- Whether `chdir( dir )` returns 0. -/
  chdir : List Char → Bool
  /-- The value of `get_current_dir_name()`. -/
  cwd : List Char
  /-- Whether `putenv` returns 0. -/
  putenv_ok : Bool
  /-- The `errno` of a failed `execvp`; `none` when `execvp` succeeds. -/
  execvp_errno : Option Nat

/-- Function `set_cwd`. -/
def set_cwd (new_cwd : List Char) (p : Proc) : Proc := p.emit (Effect.set_cwd new_cwd)

/-- Function `try_change_directory`, with its return value. -/
def try_change_directory (new_dir : List Char) (w : WorkerEnv) (p : Proc) : Proc × Int :=
  if w.chdir new_dir then (set_cwd w.cwd p, 0)
  else (p.emit (Effect.error Msg.cd_error), -1)

/-- The `do ... while` loop of the `history` built-in; `fuel` bounds the number of
rounds, and a loop that does not come back to `command_history_finish` within
`MAX_COMMANDS_HISTORY_SIZE` rounds never does. -/
def history_loop : Nat → Nat → Nat → Proc → Proc
  | 0, _, _, p => { p with halted := some Halt.hang }
  | fuel + 1, icmd, icmd_printed, p =>
    let line := p.command_history.getD icmd []
    let printed :=
      if 0 < line.length then
        let icmd_printed := if icmd_printed = MAX_COMMANDS_HISTORY_SIZE then 0 else icmd_printed
        (p.emit (Effect.print_command (icmd_printed + 1) line), icmd_printed + 1)
      else (p, icmd_printed)
    let icmd := (icmd + 1) % MAX_COMMANDS_HISTORY_SIZE
    if icmd ≠ p.command_history_finish then history_loop fuel icmd printed.2 printed.1
    else printed.1

/-- The `do ... while` loop of the `listpids` built-in. -/
def listpids_loop : Nat → Nat → Nat → Proc → Proc
  | 0, _, _, p => { p with halted := some Halt.hang }
  | fuel + 1, ipid, ipid_printed, p =>
    let pid := p.pids_history.getD ipid 0
    let printed :=
      if pid ≠ 0 then
        let ipid_printed := if ipid_printed = MAX_PIDS_HISTORY_SIZE then 0 else ipid_printed
        (p.emit (Effect.print_pid ipid_printed pid), ipid_printed + 1)
      else (p, ipid_printed)
    let ipid := (ipid + 1) % MAX_PIDS_HISTORY_SIZE
    if ipid ≠ p.pids_history_finish then listpids_loop fuel ipid printed.2 printed.1
    else printed.1

/-- Function `run_worker`. A result that has not halted is a worker that returned
to its caller `start_worker`. -/
def run_worker (w : WorkerEnv) (p : Proc) : Proc :=
  c_assert (p.my_process_type == PROCESS_TYPE_WORKER) p fun p =>
  let tokens_count := p.tokens.length
  match p.tokens with
  | [] => p
  | command :: args =>
    (if command = "cd".toList then
      let r : Proc × Bool :=
        if tokens_count = 1 then
          match w.home with
          | none => (p.emit (Effect.error Msg.cd_home_not_set), false)
          | some home_value =>
            let t := try_change_directory home_value w p
            (t.1, t.2 == 0)
        else if tokens_count > 2 then
          (p.emit (Effect.error Msg.cd_too_many_arguments), false)
        else
          let dest := args.headD []
          let t := try_change_directory dest w p
          (t.1, t.2 == 0)
      if !r.2 then free_and_exit EXIT_FAILURE r.1 else r.1
    else if command = "exit".toList ∨ command = "quit".toList then
      free_and_exit MSH_EXIT_ALL p
    else if command = "bg".toList then
      free_and_exit MSH_EXIT_BG p
    else if command = "history".toList then
      history_loop MAX_COMMANDS_HISTORY_SIZE p.command_history_finish
        MAX_COMMANDS_HISTORY_SIZE p
    else if command = "listpids".toList ∨ command = "showpids".toList then
      listpids_loop MAX_PIDS_HISTORY_SIZE p.pids_history_finish MAX_PIDS_HISTORY_SIZE p
    else
      let env_path := "PATH=".toList ++ w.cwd ++ SEARCH_PATH_SUFFIX
      let p := p.emit (Effect.putenv env_path)
      if !w.putenv_ok then p.emit (Effect.error Msg.putenv_failed)
      else
        let p := p.emit (Effect.execvp p.tokens)
        match w.execvp_errno with
        | none => { p with halted := some Halt.exec }
        | some errno =>
          let p :=
            if errno = ENOENT then p.emit (Effect.error (Msg.command_not_found command))
            else p.emit (Effect.error (Msg.exec_error errno command))
          free_and_exit EXIT_FAILURE p).andThen
    (free_and_exit EXIT_SUCCESS)

/-! ## The liner (lines 443-461, 634-721, 876-985) -/

/-- A signal that interrupts the `pause()` of the liner, with what the operating
system answers to its handler. -/
inductive LinerSignal where
  /-- SIGCHLD, and what `wait` and `update_cwd` find. -/
  | sigchld (n : Notification)
  /-- SIGCONT: `getpid()` returns `pgid`, and `setpgid` succeeds or not. -/
  | sigcont (pgid : Int) (setpgid_ok : Bool)

/-- What the operating system answers to one call of `start_worker`. -/
structure WorkerRun where
  /-- The value `fork()` returns in the process that is followed: the pid of the
  worker in the liner, `0` in the worker, `-1` when no process was created. -/
  fork_result : Int
  /-- The environment of the worker, used when the worker is followed. -/
  worker : WorkerEnv
  /-- The signals whose handlers run in the liner during this call of
  `start_worker`, in the order in which they run. A handler that runs after
  `fork()` and before the loop is run at the loop: `start_worker` reads
  `last_worker_exited`, the one variable the handlers write, only there. -/
  signals : List LinerSignal
  /-- The handler of the last of `signals` ran after the loop of `start_worker`
  found `last_worker_exited` false and before `pause()` was entered. -/
  racing : Bool

/-- Function `save_worker_pid_with_liner`. -/
def save_worker_pid_with_liner (child_pid : Int) (p : Proc) : Proc :=
  c_assert (p.my_process_type == PROCESS_TYPE_LINER) p fun p =>
  p.emit (Effect.save_worker_pid child_pid)

/-- Function `sigchld_handler_for_liner`, the SIGCHLD handler of the liner. -/
def sigchld_handler_for_liner (signal_num : Nat) (n : Notification) (p : Proc) : Proc :=
  c_assert (signal_num == SIGCHLD) p fun p =>
  c_assert (p.my_process_type == PROCESS_TYPE_LINER) p fun p =>
  let child_status := n.child_status
  let child_pid := n.child_pid
  (update_cwd n.fscanf_ok n.chdir_ok p).andThen fun p =>
  if child_pid = -1 then
    free_and_exit EXIT_FAILURE (p.emit (Effect.error Msg.worker_wait_error))
  else if WIFEXITED child_status then
    let child_exit_code := WEXITSTATUS child_status
    let p := { p with last_worker_exited := true }
    if child_exit_code = MSH_EXIT_BG ∨ child_exit_code = MSH_EXIT_ALL then
      free_and_exit child_exit_code p
    else if child_exit_code = EXIT_SUCCESS then p
    else free_and_exit EXIT_FAILURE p
  else if WIFSIGNALED child_status || WIFSTOPPED child_status then
    let child_signal :=
      if WIFSIGNALED child_status then WTERMSIG child_status else WSTOPSIG child_status
    if child_signal = SIGCONT then p
    else if child_signal = SIGTSTP then p
    else
      let p := p.emit (Effect.error (Msg.unexpected_signal child_signal child_pid))
      let p := p.emit (Effect.kill child_pid SIGKILL)
      free_and_exit EXIT_FAILURE p
  else free_and_exit EXIT_FAILURE p

/-- Function `sigcont_handler`, the SIGCONT handler of the liner. -/
def sigcont_handler (pgid : Int) (setpgid_ok : Bool) (p : Proc) : Proc :=
  c_assert (p.my_process_type == PROCESS_TYPE_LINER) p fun p =>
  let p := p.emit (Effect.setpgid pgid)
  if !setpgid_ok then free_and_exit EXIT_FAILURE (p.emit (Effect.error Msg.setpgid_failed))
  else { p with pgrp := pgid }.emit (Effect.kill p.liner_child_pid SIGCONT)

/-- The handler the liner runs for a signal. -/
def liner_signal (s : LinerSignal) (p : Proc) : Proc :=
  match s with
  | LinerSignal.sigchld n => sigchld_handler_for_liner SIGCHLD n p
  | LinerSignal.sigcont pgid setpgid_ok => sigcont_handler pgid setpgid_ok p

/-- The liner runs its handler for each of the signals that reach it, one after
the other. A handler runs when its signal is delivered, whatever the value of
`last_worker_exited` is then. -/
def liner_signals : List LinerSignal → Proc → Proc
  | [], p => p
  | s :: signals, p => (liner_signal s p).andThen (liner_signals signals)

/-- The loop `while ( !last_worker_exited ) pause();` of `start_worker`, with the
handlers that run while the liner is in it. The loop is left when it tests the
flag after the last handler and finds it set. When the last handler ran between
the test and `pause()` (`racing`), the loop does not test the flag again: as in
the case where the flag stays false, `pause()` waits for a signal that does not
come. -/
def wait_for_worker (racing : Bool) (signals : List LinerSignal) (p : Proc) : Proc :=
  (liner_signals signals p).andThen fun p =>
    if p.last_worker_exited && (signals.isEmpty || !racing) then p
    else { p with halted := some Halt.hang }

/-- Function `start_worker`, in the process for which `fork()` returns
`run.fork_result`. -/
def start_worker (run : WorkerRun) (p : Proc) : Proc :=
  c_assert (p.my_process_type == PROCESS_TYPE_LINER) p fun p =>
  let p : Proc := { p with last_worker_exited := false }
  let p : Proc := { p.emit (Effect.fork p.tokens run.fork_result) with
    liner_child_pid := run.fork_result }
  if p.liner_child_pid = 0 then
    run_worker run.worker { p with my_process_type := PROCESS_TYPE_WORKER }
  else
    (save_worker_pid_with_liner p.liner_child_pid p).andThen
      (wait_for_worker run.racing run.signals)

/-- Function `free_tokens`. -/
def free_tokens (p : Proc) : Proc := { p with tokens := [] }

/-- The inner `while` of `run_liner`, started at the first character of a token:
the token and the rest of the line from the character the loop stops at; `none`
when `assert( cmd_line[i] != ';' )` fails. -/
def run_liner_token : List Char → Option (List Char × List Char)
  | [] => some ([], [])
  | c :: rest =>
    if c = ' ' then some ([], c :: rest)
    else if c = ';' then none
    else (run_liner_token rest).map (fun r => (c :: r.1, r.2))

/-- The code of `run_liner` after its `for` loop; `k` counts the calls of
`start_worker` made so far. -/
def run_liner_finish (runs : Nat → WorkerRun) (k : Nat) (p : Proc) : Proc :=
  (if 0 < p.tokens.length then (start_worker (runs k) p).andThen free_tokens else p).andThen
    (free_and_exit EXIT_SUCCESS)

/-- The `for` loop of `run_liner`. The cursor `i` is kept as the rest
`cmd_line + i` of the line, and `tokens_count` is the length of `Proc.tokens`.
Every round moves the cursor, so `cmd_len + 1` rounds of `fuel` are never used
up. -/
def run_liner_loop (runs : Nat → WorkerRun) : Nat → Nat → List Char → Proc → Proc
  | 0, _, _, p => { p with halted := some Halt.hang }
  | _ + 1, k, [], p => run_liner_finish runs k p
  | fuel + 1, k, c :: rest, p =>
    if c = ' ' then run_liner_loop runs fuel k rest p
    else if c = ';' then
      (start_worker (runs k) p).andThen fun p =>
        run_liner_loop runs fuel (k + 1) (rest.drop 1) (free_tokens p)
    else
      match run_liner_token (c :: rest) with
      | none => { p with halted := some Halt.abort }
      | some (new_token, rest) =>
        if p.tokens.length = MAX_NUM_ARGUMENTS then
          free_and_exit EXIT_FAILURE (p.emit (Effect.error Msg.too_much_tokens))
        else run_liner_loop runs fuel k (rest.drop 1) { p with tokens := p.tokens ++ [new_token] }

/-- Function `run_liner`; `runs k` is what the operating system answers to the
`k`-th call of `start_worker` (counted from 0). -/
def run_liner (runs : Nat → WorkerRun) (p : Proc) : Proc :=
  c_assert (p.my_process_type == PROCESS_TYPE_LINER) p fun p =>
  let cmd_len := p.cmd_line.length
  run_liner_loop runs (cmd_len + 1) 0 p.cmd_line p

/-! ## The main loop of the shell (lines 1047-1231) -/

/-- Function `isspace` of `<ctype.h>` in the C locale: the space and the
characters `\t`, `\n`, `\v`, `\f`, `\r`. -/
def isspace (c : Char) : Bool := c = ' ' || (9 ≤ c.toNat && c.toNat ≤ 13)

/-- Function `isdigit` of `<ctype.h>`. -/
def isdigit (c : Char) : Bool := 48 ≤ c.toNat && c.toNat ≤ 57

/-- The inner `while` of the normalization in `main`, started at the first
character of a token: the characters it copies to `cmd_line`, and the rest of
`cmd_str` from the character it stops at. -/
def main_token : List Char → List Char × List Char
  | [] => ([], [])
  | c :: rest =>
    if !isspace c && c ≠ ';' then
      ((c :: (main_token rest).1), (main_token rest).2)
    else ([], c :: rest)

/-- The `for` loop in `main` that builds `cmd_line` from `cmd_str`. The cursor `i`
is kept as the rest `cmd_str + i` of the input. Every round moves the cursor,
so `cmd_str_len + 1` rounds of `fuel` are never used up. -/
def main_normalize_loop : Nat → List Char → Bool → List Char → List Char
  | 0, _, _, cmd_line => cmd_line
  | _ + 1, [], _, cmd_line => cmd_line
  | fuel + 1, c :: rest, is_first_token, cmd_line =>
    if isspace c then main_normalize_loop fuel rest is_first_token cmd_line
    else
      let cmd_line := if is_first_token then cmd_line else cmd_line ++ [' ']
      if c = ';' then main_normalize_loop fuel rest false (cmd_line ++ [';'])
      else
        let token := main_token (c :: rest)
        let cmd_line := cmd_line ++ token.1
        let cmd_line :=
          match token.2 with
          | ';' :: _ => cmd_line ++ [' ', ';']
          | _ => cmd_line
        main_normalize_loop fuel (token.2.drop 1) false cmd_line

/-- The string `cmd_line` that `main` builds from the input `cmd_str`. -/
def main_normalize (cmd_str : List Char) : List Char :=
  main_normalize_loop (cmd_str.length + 1) cmd_str true []

/-- The number `num` that `main` reads from a line `!n`; `size_t` has 64 bits, and
a `char` is signed, so a byte from `0x80` on counts as negative in
`cmd_line[2] - '0'`. In the three-character case the program tests
`cmd_line[1]` twice and never `cmd_line[2]`. -/
def recall_number (cmd_line : List Char) : Nat :=
  let cmd_line_len := cmd_line.length
  let c1 := cmd_line.getD 1 (Char.ofNat 0)
  let c2 := cmd_line.getD 2 (Char.ofNat 0)
  let num : Nat := 0
  let num : Nat :=
    if cmd_line_len = 2 ∧ isdigit c1 then
      ((signed_char c1.toNat - 48) % 18446744073709551616).toNat
    else num
  let num : Nat :=
    if cmd_line_len = 3 ∧ isdigit c1 ∧ isdigit c1 then
      (((signed_char c1.toNat - 48) * 10 + (signed_char c2.toNat - 48)) %
        18446744073709551616).toNat
    else num
  num

/-- The loop `while ( strlen( command_history[icmd] ) == 0 )` of the recall code:
the index it stops at. A search that finds no entry in `fuel` rounds returns
`none`; with `MAX_COMMANDS_HISTORY_SIZE` rounds it has then seen every row, and
never ends. -/
def recall_search : Nat → List (List Char) → Nat → Option Nat
  | 0, _, _ => none
  | fuel + 1, command_history, icmd =>
    if (command_history.getD icmd []).length = 0 then
      recall_search fuel command_history ((icmd + 1) % MAX_COMMANDS_HISTORY_SIZE)
    else some icmd

/-- The recall code of `main` (lines 1128-1170): a line `!n` is replaced by an
entry of the history. -/
def main_recall (p : Proc) : Proc :=
  let cmd_line_len := p.cmd_line.length
  if 2 ≤ cmd_line_len ∧ cmd_line_len ≤ 3 ∧ p.cmd_line.head? = some '!' then
    let num := recall_number p.cmd_line
    if num = 0 then p
    else
      match recall_search MAX_COMMANDS_HISTORY_SIZE p.command_history
          p.command_history_finish with
      | none => { p with halted := some Halt.hang }
      | some icmd =>
        let num := num - 1
        let icmd := ((icmd + num) % 18446744073709551616) % MAX_COMMANDS_HISTORY_SIZE
        let p : Proc := { p with cmd_line := p.command_history.getD icmd [] }
        if p.cmd_line.length = 0 then p.emit (Effect.error Msg.command_not_in_history)
        else p
  else p

/-- The three statements of `main` that save `cmd_line` to the history. A row has
`MAX_COMMAND_SIZE = 255` bytes, and `strcpy` stays within the row for a line of
at most 254 characters: this is the row after the call for such a line. For a
longer line `strcpy` writes past the row; that case is not followed here, and
the theorems on the history are about lines that fit (`typed_line`). -/
def main_save_history (p : Proc) : Proc :=
  { p with
    command_history := p.command_history.set p.command_history_finish p.cmd_line
    command_history_finish := (p.command_history_finish + 1) % MAX_COMMANDS_HISTORY_SIZE }

/-- The shell runs `sigchld_handler` for each of the SIGCHLD signals that reach
it, one after the other. -/
def shell_signals : List Notification → Proc → Proc
  | [], p => p
  | n :: ns, p => (sigchld_handler SIGCHLD n p).andThen (shell_signals ns)

/-- The statement `if ( !last_liner_exited ) pause();` of `main`. When the flag is
found false, the handlers of `racing` run before `pause()` is entered; `pause()`
then returns after the handler of the next SIGCHLD ran (the other signals are
ignored by the shell); `during` is `none` when no SIGCHLD comes any more. -/
def main_pause (racing : List Notification) (during : Option Notification) (p : Proc) :
    Proc :=
  if !p.last_liner_exited then
    (shell_signals racing p).andThen fun p =>
    match during with
    | none => { p with halted := some Halt.hang }
    | some n => sigchld_handler SIGCHLD n p
  else p

/-- What the operating system answers during one round of the main loop. A
SIGCHLD can reach the shell between any two statements of `main`; its handler
then runs to its end (SIGCHLD is blocked while it runs). Each list holds the
notifications whose handlers run at one place of the round, in their order. -/
structure LineEnv where
  /-- Handled while `fgets` waits for the line, and up to the statement
  `last_liner_exited = false`. -/
  idle : List Notification
  /-- The value `fork()` returns in the process that is followed: the pid of the
  liner in the shell, `0` in the liner, `-1` when no process was created. -/
  fork_result : Int
  /-- What is answered to the calls of `start_worker`, when the liner is followed. -/
  runs : Nat → WorkerRun
  /-- Handled after `last_liner_exited = false`, before or after `fork()`, and
  before `add_pid_to_history( child_pid )`. -/
  before : List Notification
  /-- Handled after `add_pid_to_history( child_pid )`, before the test
  `liner != NULL && liner->liner_job->pid == child_pid`. -/
  logged : List Notification
  /-- Handled after that test, before `add_liner_list_item( child_pid )` reads
  `liner` (in the branch `Already created`: after the test). A handler that runs
  between the two statements of `add_liner_list_item` that read and write
  `liner` has no place in this structure. -/
  within : List Notification
  /-- Handled after the job is registered, before the test of the statement
  `if ( !last_liner_exited )`. -/
  between : List Notification
  /-- Handled after that test found the flag false, before `pause()` is entered. -/
  racing : List Notification
  /-- The SIGCHLD signal that ends `pause()`. -/
  during : Option Notification

/-- The condition `liner != NULL && liner->liner_job->pid == child_pid` of `main`:
the head of the list is a job of the new liner. -/
def main_already_created (child_pid : Int) (p : Proc) : Bool :=
  match p.liner with
  | liner_job :: _ => decide (liner_job.pid = child_pid)
  | [] => false

/-- The branch of `main` that the shell runs after `fork()` returned, with the
handler runs of `env` between its statements. The job is added when the test
found no job of the new liner at the head of the list, whatever the handlers of
`env.within` did to the list after the test. -/
def main_parent (env : LineEnv) (p : Proc) : Proc :=
  let child_pid := env.fork_result
  (shell_signals env.before p).andThen fun p =>
  (add_pid_to_history child_pid p).andThen fun p =>
  (shell_signals env.logged p).andThen fun p =>
  c_assert (p.my_process_type == PROCESS_TYPE_SHELL) p fun p =>
  let already_created := main_already_created child_pid p
  (shell_signals env.within p).andThen fun p =>
  ((if already_created then p else add_liner_list_item child_pid p).andThen
    (shell_signals env.between)).andThen (main_pause env.racing env.during)

/-- The branch of `main` that the new liner runs after `fork()` returned 0. -/
def main_child (env : LineEnv) (p : Proc) : Proc :=
  let p : Proc := { p with my_process_type := PROCESS_TYPE_LINER }
  let p := free_liner_list p
  (run_liner env.runs p).andThen fun p => { p with halted := some Halt.abort }

/-- The statement `if ( cmd_line_len > 0 )` of `main` with its body. -/
def main_run_line (env : LineEnv) (p : Proc) : Proc :=
  if 0 < p.cmd_line.length then
    let p := main_save_history p
    let p : Proc := { p with last_liner_exited := false }
    let child_pid := env.fork_result
    let p := p.emit (Effect.fork_liner p.cmd_line child_pid)
    if child_pid = 0 then main_child env p else main_parent env p
  else p

/-- One round of the `while ( 1 )` loop of `main`, for the line `cmd_str` that
`fgets` read. A result that has not halted is the shell back at the top of the
loop, about to read the next line. -/
def main_iteration (env : LineEnv) (cmd_str : List Char) (p : Proc) : Proc :=
  (shell_signals env.idle p).andThen fun p =>
  let p : Proc := { p with cmd_line := main_normalize cmd_str }
  (main_recall p).andThen fun p =>
  (main_run_line env p).andThen free_current_input_resources

/-- The rounds of the main loop for the lines `lines`, one after the other. -/
def main_loop : List (LineEnv × List Char) → Proc → Proc
  | [], p => p
  | (env, cmd_str) :: lines, p => (main_iteration env cmd_str p).andThen (main_loop lines)

/-! ## Reading a trace -/

/-- The effects a process appended to its trace on the way from `before` to `after`. -/
def emitted (before after : Proc) : List Effect := after.out.drop before.out.length

/-- The calls of `kill` in a trace, in order, as pairs of pid and signal. -/
def kills_of : List Effect → List (Int × Nat)
  | [] => []
  | Effect.kill pid sig :: es => (pid, sig) :: kills_of es
  | _ :: es => kills_of es

/-- The lines `update_cwd` writes to stderr. -/
def cwd_errors (fscanf_ok chdir_ok : Bool) : List Effect :=
  (if fscanf_ok then [] else [Effect.error Msg.bad_cwd_format]) ++
    (if chdir_ok then [] else [Effect.error Msg.chdir_error])

/-- The job list after the lookup at the top of `sigchld_handler`: the list itself
when it holds a job with pid `child_pid`, else the list with the job that
`add_liner_list_item( child_pid )` puts at its head. -/
def with_liner_job (child_pid : Int) (p : Proc) : List liner_job_t :=
  match get_liner_job_with_pid child_pid p with
  | some _ => p.liner
  | none => { pid := child_pid, pgid := p.pgrp, state := WORKER_STATE_ACTIVE } :: p.liner

/-! ## Sample states -/

/-- A shell with two jobs: liner 7 in the foreground, liner 5 suspended. -/
def sample_shell : Proc :=
  { my_process_type := PROCESS_TYPE_SHELL
    liner := [⟨7, 1, WORKER_STATE_ACTIVE⟩, ⟨5, 1, WORKER_STATE_SUSPENDED⟩]
    last_liner_exited := false
    last_worker_exited := true
    liner_child_pid := -1
    msh_pgid := 1
    pgrp := 1
    pids_history := List.replicate 15 0
    pids_history_finish := 0
    command_history := List.replicate 50 []
    command_history_finish := 0
    tokens := []
    cmd_line := []
    out := []
    halted := none }

/-- A notification about child `pid` with the given status; the working directory
file is readable and the pid file of the child lists worker 8. -/
def sample_notification (pid : Int) (status : Nat) : Notification :=
  { child_pid := pid, child_status := status, fscanf_ok := true, chdir_ok := true,
    pid_file := some [8] }

/-- A liner at the start of `run_liner` on the line `line`: no job list, no tokens,
nothing done yet. -/
def sample_liner (line : List Char) : Proc :=
  { sample_shell with my_process_type := PROCESS_TYPE_LINER, liner := [], cmd_line := line }

/-- The line that reaches `run_liner` for the atomic commands `cmds`: the tokens of
a command joined by one space, the commands joined by `" ; "`. -/
def normalized_line (cmds : List (List (List Char))) : List Char :=
  List.intercalate [' ', ';', ' '] (cmds.map (List.intercalate [' ']))

/-- The token arrays of the calls of `fork` in a trace, in order. -/
def forks_of : List Effect → List (List (List Char))
  | [] => []
  | Effect.fork tokens _ :: es => tokens :: forks_of es
  | _ :: es => forks_of es

/-- The number of calls of `fork` in the trace of a process. -/
def fork_count (p : Proc) : Nat := (forks_of p.out).length

/-- The line `ls -l ; pwd`, as its atomic commands. -/
def sample_commands : List (List (List Char)) :=
  [["ls".toList, "-l".toList], ["pwd".toList]]

/-- A worker environment in which everything succeeds. -/
def sample_worker_env : WorkerEnv :=
  { home := some "/root".toList, chdir := fun _ => true, cwd := "/tmp".toList,
    putenv_ok := true, execvp_errno := none }

/-- The liner gets worker `100 + k` from its `k`-th `fork`, and that worker exits
with status `code k`. -/
def sample_runs (code : Nat → Nat) (k : Nat) : WorkerRun :=
  { fork_result := 100 + k
    worker := sample_worker_env
    signals := [LinerSignal.sigchld (sample_notification (100 + k) (W_EXITCODE (code k) 0))]
    racing := false }

/-- A signal after whose handler the liner goes on waiting for its worker: a
SIGCONT whose `setpgid` succeeds, or a SIGCHLD for which `wait` reports the
worker stopped or killed by SIGCONT or SIGTSTP while the working-directory
file is readable. -/
def signal_passes (s : LinerSignal) : Prop :=
  match s with
  | LinerSignal.sigcont _ setpgid_ok => setpgid_ok = true
  | LinerSignal.sigchld n =>
    n.child_pid ≠ -1 ∧ (n.fscanf_ok = true ∧ n.chdir_ok = true) ∧
      WIFEXITED n.child_status = false ∧
      (WIFSIGNALED n.child_status || WIFSTOPPED n.child_status) = true ∧
      ((if WIFSIGNALED n.child_status then WTERMSIG n.child_status
          else WSTOPSIG n.child_status) = SIGCONT ∨
        (if WIFSIGNALED n.child_status then WTERMSIG n.child_status
          else WSTOPSIG n.child_status) = SIGTSTP)

/-- Run `run` of `start_worker` is followed in the liner, and the worker it starts
exits with status 0: one of the signals handled during the call is the SIGCHLD
of that exit, the working-directory file is readable in its handler, every
other signal handled during the call, before or after it, is one that passes,
and the loop tests the flag after the last handler. -/
def worker_succeeds (run : WorkerRun) : Prop :=
  0 < run.fork_result ∧ run.racing = false ∧
    ∃ pre n rest, run.signals = pre ++ LinerSignal.sigchld n :: rest ∧
      (∀ s ∈ pre, signal_passes s) ∧ (∀ s ∈ rest, signal_passes s) ∧ 0 < n.child_pid ∧
      (n.fscanf_ok = true ∧ n.chdir_ok = true) ∧ n.child_status = W_EXITCODE EXIT_SUCCESS 0

/-- An atomic command of a normalized line: at least one and at most
`MAX_NUM_ARGUMENTS` tokens, each of them non-empty and free of spaces and
semicolons. -/
def atomic_command (tokens : List (List Char)) : Prop :=
  tokens ≠ [] ∧ tokens.length ≤ MAX_NUM_ARGUMENTS ∧ ∀ t ∈ tokens, t ≠ [] ∧ ' ' ∉ t ∧ ';' ∉ t

/-- The liner gets worker `100 + k` from its `k`-th `fork`; that worker exits with
status 0, and in the handler that reaps it `chdir` fails. -/
def sample_runs_chdir_fails (k : Nat) : WorkerRun :=
  { fork_result := 100 + k
    worker := sample_worker_env
    signals := [LinerSignal.sigchld
      { sample_notification (100 + k) (W_EXITCODE 0 0) with chdir_ok := false }]
    racing := false }

/-- Value of `SIGABRT` in `<signal.h>` (Linux): the signal of a failed `assert`. -/
def SIGABRT : Nat := 6

/-- The status `wait` reports to the parent of a process that ended as `h`;
`program` is the exit status of the program that a successful `execvp` started
in it. A process that hangs is never reported. -/
def reaped_status (program : Nat) : Halt → Option Nat
  | Halt.exit retcode => some (W_EXITCODE (retcode % 256) 0)
  | Halt.exec => some (W_EXITCODE (program % 256) 0)
  | Halt.abort => some (W_EXITCODE 0 SIGABRT ||| WCOREFLAG)
  | Halt.hang => none

/-- The conversion `%s` of `fscanf( f, "%s", cwd )` on a file that holds `file`:
white space is skipped, then the characters up to the next white space are
stored; `none` when the file ends before a character is stored (`fscanf`
returns `EOF`). -/
def fscanf_string (file : List Char) : Option (List Char) :=
  match file.dropWhile isspace with
  | [] => none
  | c :: rest => some ((c :: rest).takeWhile (fun x => !isspace x))

/-- The content of the working-directory file after the trace `out`: what the
last `set_cwd` wrote with `fprintf( f, "%s", new_cwd )` into the file it opened
with mode `"w"`. -/
def cwd_file : List Effect → Option (List Char)
  | [] => none
  | e :: es =>
    match cwd_file es with
    | some file => some file
    | none =>
      match e with
      | Effect.set_cwd new_cwd => some new_cwd
      | _ => none

/-- The buffer `cwd` of `update_cwd` after `memset` and `fscanf`, on a
working-directory file that holds `file`: the string handed to `chdir`. -/
def update_cwd_buffer (file : List Char) : List Char := (fscanf_string file).getD []

/-- Function `update_cwd` on a working-directory file that holds `file`. -/
def update_cwd_from (file : List Char) (chdir : List Char → Bool) (p : Proc) : Proc :=
  update_cwd (fscanf_string file).isSome (chdir (update_cwd_buffer file)) p

/-- The shell after `start_shell`: no job, no command in the history. -/
def fresh_shell : Proc := { sample_shell with liner := [] }

/-- A worker at the start of `run_worker` on the token array `tokens`. -/
def sample_worker (tokens : List (List Char)) : Proc :=
  { fresh_shell with my_process_type := PROCESS_TYPE_WORKER, tokens := tokens }

/-- A round of the main loop followed in the shell: `fork()` returns `child_pid`. -/
def shell_env (child_pid : Int) (before between : List Notification)
    (during : Option Notification) : LineEnv :=
  { idle := [], fork_result := child_pid, runs := sample_runs (fun _ => 0),
    before := before, logged := [], within := [], between := between, racing := [],
    during := during }

/-- A round of the main loop followed into the liner and from there into the
worker: every `fork()` returns 0. -/
def child_env : LineEnv :=
  { idle := [], fork_result := 0,
    runs := fun _ =>
      { fork_result := 0, worker := sample_worker_env, signals := [], racing := false },
    before := [], logged := [], within := [], between := [], racing := [], during := none }

/-- A shell whose only job is liner 5, running in the background. -/
def sample_background_shell : Proc :=
  { sample_shell with liner := [⟨5, 5, WORKER_STATE_BACKGROUND⟩] }

/-- The size `MAX_COMMAND_SIZE` of the input buffer and of a row of `command_history`. -/
def MAX_COMMAND_SIZE : Nat := 255

/-- The input line `cmd_str` is run as it was typed: its `cmd_line` is not empty,
fits a row of the history, and does not have the form `!n` that the recall code
looks at. -/
def typed_line (cmd_str : List Char) : Bool :=
  let cmd_line := main_normalize cmd_str
  decide (0 < cmd_line.length) && decide (cmd_line.length < MAX_COMMAND_SIZE) &&
    !(decide (2 ≤ cmd_line.length) && decide (cmd_line.length ≤ 3) &&
      (cmd_line.head? == some '!'))

/-- A round of the main loop followed in the shell, whose liner `child_pid` exits
with status 0 while the shell is in `pause()`. -/
def sample_round (child_pid : Int) : LineEnv :=
  shell_env child_pid [] [] (some (sample_notification child_pid (W_EXITCODE 0 0)))

/-- Three lines typed into the shell, with the rounds of the main loop that run them. -/
def sample_lines : List (LineEnv × List Char) :=
  [(sample_round 7, "a\n".toList), (sample_round 8, "b  b\n".toList),
    (sample_round 9, "c;d\n".toList)]

/-- The pids of the jobs in the list `liner`, head first. -/
def job_pids (p : Proc) : List Int := p.liner.map (fun liner_job => liner_job.pid)

/-- The notification reaps a liner: `waitpid` returned its pid with the status of
a process that exited or was killed by a signal. -/
def reaped (n : Notification) : Bool :=
  decide (n.child_pid ≠ -1) && (WIFEXITED n.child_status || WIFSIGNALED n.child_status)

/-- The notification reports a liner stopped by a signal other than `SIGTSTP` and
`SIGCONT`; the shell kills such a liner. -/
def stopped_unexpectedly (n : Notification) : Bool :=
  decide (n.child_pid ≠ -1) && WIFSTOPPED n.child_status &&
    decide (WSTOPSIG n.child_status ≠ SIGCONT) && decide (WSTOPSIG n.child_status ≠ SIGTSTP)

/-- The liners that were spawned, are not reaped and were not killed by the
shell, after the notification `n` was handled, given those before it. -/
def live_after (n : Notification) (live : List Int) : List Int :=
  if reaped n || stopped_unexpectedly n then live.erase n.child_pid else live

/-- The same after a sequence of notifications. -/
def live_after_all : List Notification → List Int → List Int
  | [], live => live
  | n :: ns, live => live_after_all ns (live_after n live)

/-- What the operating system can report while the liners `live` are there: no
process is killed by `SIGCONT` or `SIGTSTP`, and a notification is about one of
`live` unless it reaps a liner that the shell killed earlier. -/
def notification_ok (n : Notification) (live : List Int) : Bool :=
  !(WIFSIGNALED n.child_status &&
    (decide (WTERMSIG n.child_status = SIGCONT) || decide (WTERMSIG n.child_status = SIGTSTP))) &&
  (decide (n.child_pid = -1) || decide (n.child_pid ∈ live) || reaped n)

/-- The same for a sequence of notifications. -/
def notifications_ok : List Notification → List Int → Bool
  | [], _ => true
  | n :: ns, live => notification_ok n live && notifications_ok ns (live_after n live)

/-- The liners that are alive right after the `fork()` of a round of the main
loop that started with the liners `live`: the new liner is the first. -/
def round_spawned (env : LineEnv) (live : List Int) : List Int :=
  env.fork_result :: live_after_all env.idle live

/-- The liners that are alive when the shell comes to the test of the head of
the job list in that round. -/
def round_tested (env : LineEnv) (live : List Int) : List Int :=
  live_after_all (env.before ++ env.logged) (round_spawned env live)

/-- The liners that are alive when the shell comes to the statement
`if ( !last_liner_exited )` of that round. -/
def round_live (env : LineEnv) (live : List Int) : List Int :=
  live_after_all env.between (round_tested env live)

/-- The liners that are alive when the shell enters `pause()` in that round. -/
def round_paused (env : LineEnv) (live : List Int) : List Int :=
  live_after_all env.racing (round_live env live)

/-- What is assumed of a round of the main loop that starts with the liners
`live`: `fork()` returns the pid of a new process; every notification is one the
operating system can send at its time; none of those handled between `fork()`
and the test of the head of the job list reaps the new liner or reports it
stopped by a signal other than `SIGTSTP` and `SIGCONT`; and no notification is
handled from that test to the end of `add_liner_list_item`. -/
def round_ok (env : LineEnv) (live : List Int) : Bool :=
  decide (0 < env.fork_result) && decide (env.fork_result ∉ live) &&
  notifications_ok env.idle live &&
  notifications_ok (env.before ++ env.logged) (round_spawned env live) &&
  (env.before ++ env.logged).all (fun n =>
    decide (n.child_pid ≠ env.fork_result) || !(reaped n || stopped_unexpectedly n)) &&
  env.within.isEmpty &&
  notifications_ok env.between (round_tested env live) &&
  notifications_ok env.racing (round_live env live) &&
  (match env.during with
    | none => true
    | some n => notification_ok n (round_paused env live))

/-- A token of a normalized line: the one-character token `;`, or a non-empty
string without white space and without `;`. -/
def is_token (t : List Char) : Bool :=
  t == [';'] || (!t.isEmpty && t.all (fun c => !isspace c && c != ';'))

/-- The process is the liner and has not failed an assertion. -/
def liner_safe (p : Proc) : Prop :=
  p.my_process_type = PROCESS_TYPE_LINER ∧ p.halted ≠ some Halt.abort

/-- Process `q` differs from `p` at most in the job list, the flag
`last_liner_exited`, the pid history and the trace. -/
def shell_frame (p q : Proc) : Prop :=
  ∃ l e h f o, q =
    { p with
      liner := l, last_liner_exited := e, pids_history := h, pids_history_finish := f,
      out := o }

/-- A round of the main loop in which liner 7 is reported stopped by `SIGTSTP`
between the test of the head of the job list and `add_liner_list_item`, and its
exit ends `pause()`. -/
def race_round : LineEnv :=
  { shell_env 7 [] [] (some (sample_notification 7 (W_EXITCODE 0 0))) with
    within := [sample_notification 7 (W_STOPCODE SIGTSTP)] }

/-- The liner gets worker `100 + k` from its `k`-th `fork`; that worker exits with
status 0, and a second SIGCHLD is handled during the same call of
`start_worker`, for which `wait` finds no child. -/
def sample_runs_second_sigchld (k : Nat) : WorkerRun :=
  { fork_result := 100 + k
    worker := sample_worker_env
    signals := [LinerSignal.sigchld (sample_notification (100 + k) (W_EXITCODE 0 0)),
      LinerSignal.sigchld (sample_notification (-1) 0)]
    racing := false }

/-- The liner gets worker `100 + k` from its `k`-th `fork`; that worker exits with
status 0, and the handler of its SIGCHLD runs between the test of the loop of
`start_worker` and `pause()`. -/
def sample_runs_racing (k : Nat) : WorkerRun :=
  { fork_result := 100 + k
    worker := sample_worker_env
    signals := [LinerSignal.sigchld (sample_notification (100 + k) (W_EXITCODE 0 0))]
    racing := true }

/-! ## Wait statuses -/

set_option maxRecDepth 100000 in
theorem status_exit (c : Nat) (h : c < 256) :
    WIFCONTINUED (W_EXITCODE c 0) = false ∧ WIFEXITED (W_EXITCODE c 0) = true ∧
      WEXITSTATUS (W_EXITCODE c 0) = c := by
  revert c; decide

set_option maxRecDepth 100000 in
theorem status_killed (sig : Nat) (h : sig < 127) (h0 : 0 < sig) :
    (WIFCONTINUED (W_EXITCODE 0 sig) = false ∧ WIFEXITED (W_EXITCODE 0 sig) = false ∧
      WIFSIGNALED (W_EXITCODE 0 sig) = true ∧ WTERMSIG (W_EXITCODE 0 sig) = sig) ∧
    (WIFCONTINUED (W_EXITCODE 0 sig ||| WCOREFLAG) = false ∧
      WIFEXITED (W_EXITCODE 0 sig ||| WCOREFLAG) = false ∧
      WIFSIGNALED (W_EXITCODE 0 sig ||| WCOREFLAG) = true ∧
      WTERMSIG (W_EXITCODE 0 sig ||| WCOREFLAG) = sig) := by
  revert sig; decide

set_option maxRecDepth 100000 in
theorem status_stopped (sig : Nat) (h : sig < 255) :
    WIFCONTINUED (W_STOPCODE sig) = false ∧ WIFEXITED (W_STOPCODE sig) = false ∧
      WIFSIGNALED (W_STOPCODE sig) = false ∧ WIFSTOPPED (W_STOPCODE sig) = true ∧
      WSTOPSIG (W_STOPCODE sig) = sig := by
  revert sig; decide

/-! ## Sequencing -/

theorem andThen_running (p : Proc) (k : Proc → Proc) (h : (p.andThen k).halted = none) :
    p.halted = none ∧ p.andThen k = k p := by
  unfold Proc.andThen at h ⊢
  cases hp : p.halted with
  | none => simp
  | some x => rw [hp] at h; simp only [] at h; rw [hp] at h; cases h

theorem andThen_of_running (p : Proc) (k : Proc → Proc) (h : p.halted = none) :
    p.andThen k = k p := by
  unfold Proc.andThen
  rw [h]

/-! ## The job list -/

theorem find_set_liner_job_state (c : Int) (st : worker_state_t) (l : List liner_job_t)
    (j : liner_job_t) (h : l.find? (fun a => a.pid == c) = some j) :
    (set_liner_job_state c st l).find? (fun a => a.pid == c) = some { j with state := st } := by
  induction l with
  | nil => simp at h
  | cons a l ih =>
    unfold set_liner_job_state
    by_cases hc : a.pid = c
    · rw [List.find?_cons_of_pos _ (by simpa using hc)] at h
      rw [if_pos hc, List.find?_cons_of_pos _ (by simpa using hc)]
      cases h; rfl
    · rw [List.find?_cons_of_neg _ (by simpa using hc)] at h
      rw [if_neg hc, List.find?_cons_of_neg _ (by simpa using hc)]
      exact ih h

theorem remove_liner_list_loop_eq (c : Int) (l : List liner_job_t) :
    (remove_liner_list_loop c l).getD l = l.eraseP (fun a => a.pid == c) := by
  induction l with
  | nil => rfl
  | cons a l ih =>
    unfold remove_liner_list_loop
    by_cases hc : a.pid = c
    · simp [hc]
    · cases hr : remove_liner_list_loop c l with
      | none => simp [hc, hr, List.eraseP_cons] at ih ⊢; exact ih
      | some l2 => simp [hc, hr, List.eraseP_cons] at ih ⊢; exact ih

theorem remove_liner_list_loop_none (c : Int) (l : List liner_job_t) :
    remove_liner_list_loop c l = none ↔ l.find? (fun a => a.pid == c) = none := by
  induction l with
  | nil => simp [remove_liner_list_loop]
  | cons a l ih =>
    unfold remove_liner_list_loop
    by_cases hc : a.pid = c
    · simp [hc]
    · rw [List.find?_cons_of_neg _ (by simpa using hc), if_neg hc, ← ih]
      cases remove_liner_list_loop c l <;> simp

/-! ## Steps of the shell's handler -/

theorem update_cwd_shell (a b : Bool) (p : Proc)
    (hs : p.my_process_type = PROCESS_TYPE_SHELL) (hh : p.halted = none) :
    update_cwd a b p = { p with out := p.out ++ cwd_errors a b } := by
  rcases p with ⟨ty, l, lle, lwe, lcp, mp, pg, ph, pf, ch, cf, tk, cl, o, ha⟩
  simp only at hs hh
  subst hs hh
  cases a <;> cases b <;> simp [update_cwd, Proc.andThen, Proc.emit, cwd_errors]

theorem save_liner_pids_with_shell_frame (pid_file : Option (List Int)) (p : Proc)
    (hs : p.my_process_type = PROCESS_TYPE_SHELL) (hh : p.halted = none) :
    ∃ h f, save_liner_pids_with_shell pid_file p =
      { p with pids_history := h, pids_history_finish := f } := by
  rcases p with ⟨ty, l, lle, lwe, lcp, mp, pg, ph, pf, ch, cf, tk, cl, o, ha⟩
  simp only at hs hh
  subst hs hh
  unfold save_liner_pids_with_shell c_assert
  simp only [beq_self_eq_true, if_true]
  cases pid_file with
  | none => exact ⟨_, _, rfl⟩
  | some pids =>
    simp only
    induction pids generalizing ph pf with
    | nil => exact ⟨_, _, rfl⟩
    | cons w ws ih =>
      rw [List.foldl_cons]
      by_cases hw : w = 0
      · simp only [hw, ne_eq, not_true_eq_false, if_false]
        exact ih ph pf
      · simp only [hw, ne_eq, not_false_eq_true, if_true, Proc.andThen, add_pid_to_history,
          c_assert, beq_self_eq_true]
        exact ih _ _

theorem save_then_remove_shell (c : Int) (pid_file : Option (List Int)) (p : Proc)
    (hs : p.my_process_type = PROCESS_TYPE_SHELL) (hh : p.halted = none) :
    ∃ h f, (save_liner_pids_with_shell pid_file p).andThen (remove_liner_list_item c) =
      { p with
        liner := p.liner.eraseP (fun a => a.pid == c)
        pids_history := h
        pids_history_finish := f
        out := p.out ++
          (if p.liner.find? (fun a => a.pid == c) = none
            then [Effect.error (Msg.not_found_liner c)] else []) } := by
  obtain ⟨h, f, hsave⟩ := save_liner_pids_with_shell_frame pid_file p hs hh
  rw [hsave]
  refine ⟨h, f, ?_⟩
  rcases p with ⟨ty, l, lle, lwe, lcp, mp, pg, ph, pf, ch, cf, tk, cl, o, ha⟩
  simp only at hs hh
  subst hs hh
  simp only [Proc.andThen, remove_liner_list_item]
  have h1 := remove_liner_list_loop_eq c l
  have h2 := remove_liner_list_loop_none c l
  cases hr : remove_liner_list_loop c l with
  | none =>
    rw [hr] at h1 h2
    simp only [Option.getD_none] at h1
    simp [Proc.emit, ← h1, h2.mp rfl]
  | some l2 =>
    rw [hr] at h1 h2
    simp only [Option.getD_some] at h1
    have : ¬ (l.find? (fun a => a.pid == c) = none) := fun hn => by simpa using h2.mpr hn
    simp [← h1, this]

theorem take_leave_of_liner_shell (c : Int) (pid_file : Option (List Int)) (p : Proc)
    (hs : p.my_process_type = PROCESS_TYPE_SHELL) (hh : p.halted = none) :
    ∃ e h f, take_leave_of_liner c pid_file p =
      { p with
        liner := p.liner.eraseP (fun a => a.pid == c)
        last_liner_exited := e
        pids_history := h
        pids_history_finish := f
        out := p.out ++
          (if p.liner.find? (fun a => a.pid == c) = none
            then [Effect.error (Msg.not_found_liner c)] else []) } := by
  rcases p with ⟨ty, l, lle, lwe, lcp, mp, pg, ph, pf, ch, cf, tk, cl, o, ha⟩
  simp only at hs hh
  subst hs hh
  unfold take_leave_of_liner c_assert
  simp only [beq_self_eq_true, if_true]
  cases l with
  | nil =>
    obtain ⟨h, f, e⟩ := save_then_remove_shell c pid_file
      ⟨PROCESS_TYPE_SHELL, [], lle, lwe, lcp, mp, pg, ph, pf, ch, cf, tk, cl, o, none⟩ rfl rfl
    exact ⟨lle, h, f, e⟩
  | cons a l =>
    by_cases ha : a.pid = c
    · simp only [ha, if_true]
      obtain ⟨h, f, e⟩ := save_then_remove_shell c pid_file
        ⟨PROCESS_TYPE_SHELL, a :: l, true, lwe, lcp, mp, pg, ph, pf, ch, cf, tk, cl, o, none⟩ rfl rfl
      exact ⟨true, h, f, e⟩
    · simp only [ha, if_false]
      obtain ⟨h, f, e⟩ := save_then_remove_shell c pid_file
        ⟨PROCESS_TYPE_SHELL, a :: l, lle, lwe, lcp, mp, pg, ph, pf, ch, cf, tk, cl, o, none⟩ rfl rfl
      exact ⟨lle, h, f, e⟩

theorem sigchld_handler_continued (n : Notification) (p : Proc)
    (hs : p.my_process_type = PROCESS_TYPE_SHELL) (hh : p.halted = none)
    (hpid : n.child_pid ≠ -1) (hc : WIFCONTINUED n.child_status = true) :
    sigchld_handler SIGCHLD n p =
      { p with
        liner := set_liner_job_state n.child_pid WORKER_STATE_BACKGROUND
          (with_liner_job n.child_pid p)
        out := p.out ++ cwd_errors n.fscanf_ok n.chdir_ok ++ [Effect.tcsetpgrp p.msh_pgid] } := by
  unfold sigchld_handler c_assert
  simp only [beq_self_eq_true, if_true, hs]
  rw [update_cwd_shell _ _ p hs hh]
  rcases p with ⟨ty, l, lle, lwe, lcp, mp, pg, ph, pf, ch, cf, tk, cl, o, ha⟩
  simp only at hs hh
  subst hs hh
  simp only [Proc.andThen, if_neg hpid, hc, if_true, with_liner_job, get_liner_job_with_pid]
  cases hf : l.find? (fun a => a.pid == n.child_pid) <;>
    simp [add_liner_list_item, c_assert, Proc.emit]

theorem with_liner_job_eraseP (c : Int) (p : Proc) :
    (with_liner_job c p).eraseP (fun a => a.pid == c) = p.liner.eraseP (fun a => a.pid == c) := by
  unfold with_liner_job get_liner_job_with_pid
  cases hf : p.liner.find? (fun a => a.pid == c) with
  | some j => rfl
  | none =>
    simp only [List.eraseP_cons, beq_self_eq_true, cond_true]
    rw [List.eraseP_of_forall_not]
    intro a ha
    have := List.find?_eq_none.mp hf a ha
    simpa using this

theorem with_liner_job_find (c : Int) (p : Proc) :
    (with_liner_job c p).find? (fun a => a.pid == c) ≠ none := by
  unfold with_liner_job get_liner_job_with_pid
  cases hf : p.liner.find? (fun a => a.pid == c) with
  | some j => simp [hf]
  | none => simp [List.find?]

theorem take_leave_with_job (c : Int) (pid_file : Option (List Int)) (p : Proc)
    (hs : p.my_process_type = PROCESS_TYPE_SHELL) (hh : p.halted = none) (o2 : List Effect) :
    ∃ e h f, take_leave_of_liner c pid_file { p with liner := with_liner_job c p, out := o2 } =
      { p with
        liner := p.liner.eraseP (fun a => a.pid == c)
        last_liner_exited := e
        pids_history := h
        pids_history_finish := f
        out := o2 } := by
  obtain ⟨e, h, f, ht⟩ := take_leave_of_liner_shell c pid_file
    { p with liner := with_liner_job c p, out := o2 } hs hh
  refine ⟨e, h, f, ?_⟩
  rw [ht]
  simp only [with_liner_job_eraseP, if_neg (with_liner_job_find c p), List.append_nil]

theorem sigchld_handler_signal_state (n : Notification) (p : Proc)
    (hs : p.my_process_type = PROCESS_TYPE_SHELL) (hh : p.halted = none)
    (hpid : n.child_pid ≠ -1) (hc : WIFCONTINUED n.child_status = false)
    (he : WIFEXITED n.child_status = false)
    (hss : (WIFSIGNALED n.child_status || WIFSTOPPED n.child_status) = true)
    (st : worker_state_t)
    (hsig : ((if WIFSIGNALED n.child_status then WTERMSIG n.child_status
        else WSTOPSIG n.child_status) = SIGCONT ∧ st = WORKER_STATE_BACKGROUND) ∨
      ((if WIFSIGNALED n.child_status then WTERMSIG n.child_status
        else WSTOPSIG n.child_status) = SIGTSTP ∧ st = WORKER_STATE_SUSPENDED)) :
    sigchld_handler SIGCHLD n p =
      { p with
        liner := set_liner_job_state n.child_pid st (with_liner_job n.child_pid p)
        out := p.out ++ cwd_errors n.fscanf_ok n.chdir_ok ++ [Effect.tcsetpgrp p.msh_pgid] } := by
  unfold sigchld_handler c_assert
  simp only [beq_self_eq_true, if_true, hs]
  rw [update_cwd_shell _ _ p hs hh]
  rcases p with ⟨ty, l, lle, lwe, lcp, mp, pg, ph, pf, ch, cf, tk, cl, o, ha⟩
  simp only at hs hh
  subst hs hh
  have h1820 : SIGTSTP ≠ SIGCONT := by decide
  simp only [Proc.andThen, if_neg hpid, hc, he, hss, if_true, with_liner_job,
    get_liner_job_with_pid]
  rcases hsig with ⟨h1, rfl⟩ | ⟨h1, rfl⟩
  · rw [h1]
    cases hf : l.find? (fun a => a.pid == n.child_pid) <;>
      simp [add_liner_list_item, c_assert, Proc.emit]
  · rw [h1]
    cases hf : l.find? (fun a => a.pid == n.child_pid) <;>
      simp [add_liner_list_item, c_assert, Proc.emit, h1820]

/-- The state of the shell after `take_leave_of_liner` ran inside the handler. -/
theorem sigchld_handler_removed (n : Notification) (p : Proc)
    (hs : p.my_process_type = PROCESS_TYPE_SHELL) (hh : p.halted = none)
    (hpid : n.child_pid ≠ -1) (hc : WIFCONTINUED n.child_status = false)
    (he : WIFEXITED n.child_status = false)
    (hss : (WIFSIGNALED n.child_status || WIFSTOPPED n.child_status) = true)
    (h1 : (if WIFSIGNALED n.child_status then WTERMSIG n.child_status
        else WSTOPSIG n.child_status) ≠ SIGCONT)
    (h2 : (if WIFSIGNALED n.child_status then WTERMSIG n.child_status
        else WSTOPSIG n.child_status) ≠ SIGTSTP) :
    ∃ e h f, sigchld_handler SIGCHLD n p =
      { p with
        liner := p.liner.eraseP (fun a => a.pid == n.child_pid)
        last_liner_exited := e
        pids_history := h
        pids_history_finish := f
        out := p.out ++ cwd_errors n.fscanf_ok n.chdir_ok ++
          (if (if WIFSIGNALED n.child_status then WTERMSIG n.child_status
                else WSTOPSIG n.child_status) = SIGKILL ∨
              (if WIFSIGNALED n.child_status then WTERMSIG n.child_status
                else WSTOPSIG n.child_status) = SIGINT then []
            else [Effect.error (Msg.unexpected_signal
                (if WIFSIGNALED n.child_status then WTERMSIG n.child_status
                  else WSTOPSIG n.child_status) n.child_pid),
              Effect.kill n.child_pid SIGKILL]) ++
          [Effect.tcsetpgrp p.msh_pgid] } := by
  generalize hsig : (if WIFSIGNALED n.child_status then WTERMSIG n.child_status
        else WSTOPSIG n.child_status) = sig at h1 h2 ⊢
  by_cases hk : sig = SIGKILL ∨ sig = SIGINT
  · obtain ⟨e, h, f, ht⟩ := take_leave_with_job n.child_pid n.pid_file p hs hh
      (p.out ++ cwd_errors n.fscanf_ok n.chdir_ok)
    refine ⟨e, h, f, ?_⟩
    unfold sigchld_handler c_assert
    simp only [beq_self_eq_true, if_true, hs]
    rw [update_cwd_shell _ _ p hs hh]
    rcases p with ⟨ty, l, lle, lwe, lcp, mp, pg, ph, pf, ch, cf, tk, cl, o, ha⟩
    simp only at hs hh
    subst hs hh
    simp only [Proc.andThen, if_neg hpid, hc, he, hss, if_true, hsig, if_neg h1, if_neg h2,
      if_pos hk, get_liner_job_with_pid, Bool.false_eq_true, if_false]
    simp only [with_liner_job, get_liner_job_with_pid] at ht
    cases hf : l.find? (fun a => a.pid == n.child_pid) <;> rw [hf] at ht <;>
      simp only [add_liner_list_item, c_assert, beq_self_eq_true, if_true] at ht ⊢ <;>
      rw [ht] <;> simp [Proc.emit]
  · obtain ⟨e, h, f, ht⟩ := take_leave_with_job n.child_pid n.pid_file p hs hh
      (p.out ++ cwd_errors n.fscanf_ok n.chdir_ok ++
        [Effect.error (Msg.unexpected_signal sig n.child_pid), Effect.kill n.child_pid SIGKILL])
    refine ⟨e, h, f, ?_⟩
    unfold sigchld_handler c_assert
    simp only [beq_self_eq_true, if_true, hs]
    rw [update_cwd_shell _ _ p hs hh]
    rcases p with ⟨ty, l, lle, lwe, lcp, mp, pg, ph, pf, ch, cf, tk, cl, o, ha⟩
    simp only at hs hh
    subst hs hh
    simp only [Proc.andThen, if_neg hpid, hc, he, hss, if_true, hsig, if_neg h1, if_neg h2,
      if_neg hk, get_liner_job_with_pid, Bool.false_eq_true, if_false]
    simp only [with_liner_job, get_liner_job_with_pid] at ht
    cases hf : l.find? (fun a => a.pid == n.child_pid) <;> rw [hf] at ht <;>
      simp only [add_liner_list_item, c_assert, beq_self_eq_true, if_true, Proc.emit,
        List.append_assoc, List.singleton_append, List.cons_append, List.nil_append] at ht ⊢ <;>
      rw [ht] <;> simp

theorem sigchld_handler_exited (n : Notification) (p : Proc)
    (hs : p.my_process_type = PROCESS_TYPE_SHELL) (hh : p.halted = none)
    (hpid : n.child_pid ≠ -1) (hc : WIFCONTINUED n.child_status = false)
    (he : WIFEXITED n.child_status = true) :
    ∃ e h f, sigchld_handler SIGCHLD n p =
      (fun q : Proc =>
        if WEXITSTATUS n.child_status = MSH_EXIT_ALL then free_and_exit EXIT_SUCCESS q
        else if WEXITSTATUS n.child_status = MSH_EXIT_BG then
          match get_liner_job_with_state WORKER_STATE_SUSPENDED q with
          | some liner_job =>
            (q.emit (Effect.kill liner_job.pid SIGCONT)).emit (Effect.tcsetpgrp q.msh_pgid)
          | none =>
            (q.emit (Effect.error Msg.no_job_to_continue)).emit (Effect.tcsetpgrp q.msh_pgid)
        else q.emit (Effect.tcsetpgrp q.msh_pgid))
      { p with
        liner := p.liner.eraseP (fun a => a.pid == n.child_pid)
        last_liner_exited := e
        pids_history := h
        pids_history_finish := f
        out := p.out ++ cwd_errors n.fscanf_ok n.chdir_ok } := by
  obtain ⟨e, h, f, ht⟩ := take_leave_with_job n.child_pid n.pid_file p hs hh
    (p.out ++ cwd_errors n.fscanf_ok n.chdir_ok)
  refine ⟨e, h, f, ?_⟩
  unfold sigchld_handler c_assert
  simp only [beq_self_eq_true, if_true, hs]
  rw [update_cwd_shell _ _ p hs hh]
  rcases p with ⟨ty, l, lle, lwe, lcp, mp, pg, ph, pf, ch, cf, tk, cl, o, ha⟩
  simp only at hs hh
  subst hs hh
  simp only [Proc.andThen, if_neg hpid, hc, he, if_true, get_liner_job_with_pid,
    Bool.false_eq_true, if_false]
  simp only [with_liner_job, get_liner_job_with_pid] at ht
  cases hf : l.find? (fun a => a.pid == n.child_pid) <;> rw [hf] at ht <;>
    simp only [add_liner_list_item, c_assert, beq_self_eq_true, if_true] at ht ⊢ <;>
    rw [ht] <;> simp only [] <;>
    by_cases h4 : WEXITSTATUS n.child_status = MSH_EXIT_ALL <;>
    by_cases h5 : WEXITSTATUS n.child_status = MSH_EXIT_BG <;>
    simp only [h4, h5, if_true, if_false, free_and_exit, free_all_resources,
      free_current_input_resources, free_liner_list, get_liner_job_with_state, Proc.emit] <;>
    first
      | rfl
      | (cases List.find? (fun liner_job => liner_job.state == WORKER_STATE_SUSPENDED)
          (List.eraseP (fun a => a.pid == n.child_pid) l) <;> rfl)

theorem with_liner_job_of_none (c : Int) (p : Proc)
    (hj : get_liner_job_with_pid c p = none) :
    with_liner_job c p =
      { pid := c, pgid := p.pgrp, state := WORKER_STATE_ACTIVE } :: p.liner := by
  unfold with_liner_job
  rw [hj]

theorem eraseP_eq_filter_of_nodup (c : Int) (l : List liner_job_t)
    (hnd : (l.map (fun a => a.pid)).Nodup) :
    l.eraseP (fun a => a.pid == c) = l.filter (fun a => a.pid != c) := by
  induction l with
  | nil => rfl
  | cons a l ih =>
    rw [List.map_cons, List.nodup_cons] at hnd
    by_cases hc : a.pid = c
    · have h1 : (a.pid == c) = true := by simpa using hc
      have h2 : (a.pid != c) = false := by simpa using hc
      simp only [List.eraseP_cons, h1, List.filter_cons, h2, cond_true, Bool.false_eq_true,
        if_false]
      symm
      rw [List.filter_eq_self]
      intro b hb
      have : b.pid ≠ a.pid := fun e => hnd.1 (e ▸ List.mem_map_of_mem (fun a => a.pid) hb)
      simpa [← hc] using this
    · have h1 : ¬ (a.pid == c) = true := by simpa using hc
      have h2 : (a.pid != c) = true := by simpa using hc
      have h3 : (a.pid == c) = false := by simpa using hc
      simp only [List.eraseP_cons, h3, List.filter_cons, h2, cond_false, if_true, ih hnd.2]

theorem kills_of_append (xs ys : List Effect) :
    kills_of (xs ++ ys) = kills_of xs ++ kills_of ys := by
  induction xs with
  | nil => rfl
  | cons x xs ih => cases x <;> simp [kills_of, ih]

theorem kills_of_cwd_errors (a b : Bool) : kills_of (cwd_errors a b) = [] := by
  cases a <;> cases b <;> rfl

theorem kills_of_map_kill (l : List liner_job_t) (sig : Nat) :
    kills_of (l.map (fun a => Effect.kill a.pid sig)) = l.map (fun a => (a.pid, sig)) := by
  induction l with
  | nil => rfl
  | cons a l ih => simp [kills_of, ih]

theorem emitted_append (p q : Proc) (es : List Effect) (h : q.out = p.out ++ es) :
    emitted p q = es := by
  unfold emitted
  rw [h, List.drop_left]

/-! ## The job-control state machine of the shell -/

/-- C3: for a job list with pairwise distinct pids that holds a job for the pid, and
an exit status other than `MSH_EXIT_ALL`, the handler of the shell leaves a list
with no job for that pid, in which every other job is still present, unchanged
and in its original order; the shell keeps running. -/
theorem sigchld_handler_exit_removes_job (n : Notification) (p : Proc) (j : liner_job_t)
    (code : Nat) (hs : p.my_process_type = PROCESS_TYPE_SHELL) (hh : p.halted = none)
    (hpid : 0 < n.child_pid) (hnd : (p.liner.map (fun a => a.pid)).Nodup)
    (_hj : get_liner_job_with_pid n.child_pid p = some j)
    (hcode : code < 256) (hne : code ≠ MSH_EXIT_ALL)
    (hst : n.child_status = W_EXITCODE code 0) :
    (∀ a ∈ (sigchld_handler SIGCHLD n p).liner, a.pid ≠ n.child_pid) ∧
      (sigchld_handler SIGCHLD n p).liner = p.liner.filter (fun a => a.pid != n.child_pid) ∧
      (sigchld_handler SIGCHLD n p).halted = none := by
  have hne1 : n.child_pid ≠ -1 := by omega
  obtain ⟨h1, h2, h3⟩ := status_exit code hcode
  rw [← hst] at h1 h2 h3
  obtain ⟨e, h, f, hq⟩ := sigchld_handler_exited n p hs hh hne1 h1 h2
  have hl : (sigchld_handler SIGCHLD n p).liner = p.liner.filter (fun a => a.pid != n.child_pid) ∧
      (sigchld_handler SIGCHLD n p).halted = none := by
    rw [hq, h3, ← eraseP_eq_filter_of_nodup _ _ hnd]
    simp only [if_neg hne]
    by_cases h5 : code = MSH_EXIT_BG
    · simp only [h5, if_true, get_liner_job_with_state]
      cases List.find? (fun liner_job => liner_job.state == WORKER_STATE_SUSPENDED)
        (List.eraseP (fun a => a.pid == n.child_pid) p.liner) <;> exact ⟨rfl, hh⟩
    · simp only [h5, if_false]
      exact ⟨rfl, hh⟩
  refine ⟨?_, hl.1, hl.2⟩
  rw [hl.1]
  intro a ha
  simpa using (List.mem_filter.mp ha).2

theorem sigchld_handler_exit_removes_job_witness :
    (sample_shell.my_process_type = PROCESS_TYPE_SHELL ∧ sample_shell.halted = none ∧
      0 < (sample_notification 5 (W_EXITCODE 1 0)).child_pid ∧
      (sample_shell.liner.map (fun a => a.pid)).Nodup ∧
      get_liner_job_with_pid 5 sample_shell = some ⟨5, 1, WORKER_STATE_SUSPENDED⟩ ∧
      1 < 256 ∧ 1 ≠ MSH_EXIT_ALL) ∧
    ((∀ a ∈ (sigchld_handler SIGCHLD (sample_notification 5 (W_EXITCODE 1 0)) sample_shell).liner,
        a.pid ≠ (sample_notification 5 (W_EXITCODE 1 0)).child_pid) ∧
      (sigchld_handler SIGCHLD (sample_notification 5 (W_EXITCODE 1 0)) sample_shell).liner =
        sample_shell.liner.filter
          (fun a => a.pid != (sample_notification 5 (W_EXITCODE 1 0)).child_pid) ∧
      (sigchld_handler SIGCHLD (sample_notification 5 (W_EXITCODE 1 0)) sample_shell).halted =
        none) :=
  ⟨⟨rfl, rfl, by decide, by decide, by decide, by decide, by decide⟩,
    sigchld_handler_exit_removes_job (sample_notification 5 (W_EXITCODE 1 0)) sample_shell
      ⟨5, 1, WORKER_STATE_SUSPENDED⟩ 1 rfl rfl (by decide) (by decide) (by decide) (by decide)
      (by decide) rfl⟩

/-- C4: for every job list and every pid, when the handler of the shell processes an
exit notification with status `MSH_EXIT_ALL`, the shell terminates with
`EXIT_SUCCESS`; the job of that pid was taken off the list first, so the SIGKILLs
of `free_liner_list` go to the jobs of the list without it, whatever their
number and states, and the list ends empty. -/
theorem sigchld_handler_exit_all_terminates (n : Notification) (p : Proc)
    (hs : p.my_process_type = PROCESS_TYPE_SHELL) (hh : p.halted = none)
    (hpid : 0 < n.child_pid) (hst : n.child_status = W_EXITCODE MSH_EXIT_ALL 0) :
    (sigchld_handler SIGCHLD n p).halted = some (Halt.exit EXIT_SUCCESS) ∧
      kills_of (emitted p (sigchld_handler SIGCHLD n p)) =
        (p.liner.eraseP (fun a => a.pid == n.child_pid)).map (fun a => (a.pid, SIGKILL)) ∧
      (sigchld_handler SIGCHLD n p).liner = [] := by
  have hne1 : n.child_pid ≠ -1 := by omega
  obtain ⟨h1, h2, h3⟩ := status_exit MSH_EXIT_ALL (by decide)
  rw [← hst] at h1 h2 h3
  obtain ⟨e, h, f, hq⟩ := sigchld_handler_exited n p hs hh hne1 h1 h2
  rw [hq, h3]
  simp only [if_true, free_and_exit, free_all_resources, free_current_input_resources,
    free_liner_list, hs]
  refine ⟨trivial, ?_, trivial⟩
  rw [emitted_append p _ (cwd_errors n.fscanf_ok n.chdir_ok ++
    (p.liner.eraseP (fun a => a.pid == n.child_pid)).map
      (fun liner_job => Effect.kill liner_job.pid SIGKILL)) (by simp)]
  rw [kills_of_append, kills_of_cwd_errors, kills_of_map_kill, List.nil_append]

theorem sigchld_handler_exit_all_terminates_witness :
    (sample_shell.my_process_type = PROCESS_TYPE_SHELL ∧ sample_shell.halted = none ∧
      0 < (sample_notification 7 (W_EXITCODE MSH_EXIT_ALL 0)).child_pid) ∧
    ((sigchld_handler SIGCHLD (sample_notification 7 (W_EXITCODE MSH_EXIT_ALL 0))
        sample_shell).halted = some (Halt.exit EXIT_SUCCESS) ∧
      kills_of (emitted sample_shell
          (sigchld_handler SIGCHLD (sample_notification 7 (W_EXITCODE MSH_EXIT_ALL 0))
            sample_shell)) =
        (sample_shell.liner.eraseP
          (fun a => a.pid == (sample_notification 7 (W_EXITCODE MSH_EXIT_ALL 0)).child_pid)).map
          (fun a => (a.pid, SIGKILL)) ∧
      (sigchld_handler SIGCHLD (sample_notification 7 (W_EXITCODE MSH_EXIT_ALL 0))
        sample_shell).liner = []) :=
  ⟨⟨rfl, rfl, by decide⟩,
    sigchld_handler_exit_all_terminates (sample_notification 7 (W_EXITCODE MSH_EXIT_ALL 0))
      sample_shell rfl rfl (by decide) rfl⟩

/-- C5: for every job list and every pid, when the handler of the shell processes an
exit notification with status `MSH_EXIT_BG`, the job of the pid is taken off the
list and the jobs that remain are unchanged; if one of them is SUSPENDED the
shell sends exactly one signal, a SIGCONT to the pid of a SUSPENDED job; if none
is, it sends no signal and reports that there is no job to continue; in both
cases the shell keeps running. -/
theorem sigchld_handler_exit_bg_continues_one (n : Notification) (p : Proc)
    (hs : p.my_process_type = PROCESS_TYPE_SHELL) (hh : p.halted = none)
    (hpid : 0 < n.child_pid) (hst : n.child_status = W_EXITCODE MSH_EXIT_BG 0) :
    (sigchld_handler SIGCHLD n p).liner = p.liner.eraseP (fun a => a.pid == n.child_pid) ∧
      (sigchld_handler SIGCHLD n p).halted = none ∧
      ((∃ a ∈ (sigchld_handler SIGCHLD n p).liner, a.state = WORKER_STATE_SUSPENDED) →
        ∃ a ∈ (sigchld_handler SIGCHLD n p).liner, a.state = WORKER_STATE_SUSPENDED ∧
          kills_of (emitted p (sigchld_handler SIGCHLD n p)) = [(a.pid, SIGCONT)]) ∧
      ((∀ a ∈ (sigchld_handler SIGCHLD n p).liner, a.state ≠ WORKER_STATE_SUSPENDED) →
        kills_of (emitted p (sigchld_handler SIGCHLD n p)) = [] ∧
          Effect.error Msg.no_job_to_continue ∈ emitted p (sigchld_handler SIGCHLD n p)) := by
  have hne1 : n.child_pid ≠ -1 := by omega
  obtain ⟨h1, h2, h3⟩ := status_exit MSH_EXIT_BG (by decide)
  rw [← hst] at h1 h2 h3
  obtain ⟨e, h, f, hq⟩ := sigchld_handler_exited n p hs hh hne1 h1 h2
  have h54 : MSH_EXIT_BG ≠ MSH_EXIT_ALL := by decide
  rw [hq, h3]
  simp only [if_neg h54, if_true, get_liner_job_with_state]
  cases hf : List.find? (fun liner_job => liner_job.state == WORKER_STATE_SUSPENDED)
      (List.eraseP (fun a => a.pid == n.child_pid) p.liner) with
  | some a =>
    have hmem := List.mem_of_find?_eq_some hf
    have hsus : a.state = WORKER_STATE_SUSPENDED := by simpa using List.find?_some hf
    simp only [Proc.emit]
    refine ⟨trivial, hh, fun _ => ⟨a, hmem, hsus, ?_⟩, fun hall => absurd hsus (hall a hmem)⟩
    rw [emitted_append p _ (cwd_errors n.fscanf_ok n.chdir_ok ++
      [Effect.kill a.pid SIGCONT, Effect.tcsetpgrp p.msh_pgid]) (by simp)]
    rw [kills_of_append, kills_of_cwd_errors]
    rfl
  | none =>
    have hno := List.find?_eq_none.mp hf
    simp only [Proc.emit]
    refine ⟨trivial, hh, fun ⟨a, ha, hsus⟩ => absurd hsus (by simpa using hno a ha), fun _ => ?_⟩
    rw [emitted_append p _ (cwd_errors n.fscanf_ok n.chdir_ok ++
      [Effect.error Msg.no_job_to_continue, Effect.tcsetpgrp p.msh_pgid]) (by simp)]
    rw [kills_of_append, kills_of_cwd_errors]
    exact ⟨rfl, by simp⟩

theorem sigchld_handler_exit_bg_continues_one_witness :
    (sample_shell.my_process_type = PROCESS_TYPE_SHELL ∧ sample_shell.halted = none ∧
      0 < (sample_notification 7 (W_EXITCODE MSH_EXIT_BG 0)).child_pid) ∧
    ((sigchld_handler SIGCHLD (sample_notification 7 (W_EXITCODE MSH_EXIT_BG 0))
          sample_shell).liner =
        sample_shell.liner.eraseP
          (fun a => a.pid == (sample_notification 7 (W_EXITCODE MSH_EXIT_BG 0)).child_pid) ∧
      (sigchld_handler SIGCHLD (sample_notification 7 (W_EXITCODE MSH_EXIT_BG 0))
          sample_shell).halted = none ∧
      ((∃ a ∈ (sigchld_handler SIGCHLD (sample_notification 7 (W_EXITCODE MSH_EXIT_BG 0))
            sample_shell).liner, a.state = WORKER_STATE_SUSPENDED) →
        ∃ a ∈ (sigchld_handler SIGCHLD (sample_notification 7 (W_EXITCODE MSH_EXIT_BG 0))
            sample_shell).liner, a.state = WORKER_STATE_SUSPENDED ∧
          kills_of (emitted sample_shell
            (sigchld_handler SIGCHLD (sample_notification 7 (W_EXITCODE MSH_EXIT_BG 0))
              sample_shell)) = [(a.pid, SIGCONT)]) ∧
      ((∀ a ∈ (sigchld_handler SIGCHLD (sample_notification 7 (W_EXITCODE MSH_EXIT_BG 0))
            sample_shell).liner, a.state ≠ WORKER_STATE_SUSPENDED) →
        kills_of (emitted sample_shell
            (sigchld_handler SIGCHLD (sample_notification 7 (W_EXITCODE MSH_EXIT_BG 0))
              sample_shell)) = [] ∧
          Effect.error Msg.no_job_to_continue ∈ emitted sample_shell
            (sigchld_handler SIGCHLD (sample_notification 7 (W_EXITCODE MSH_EXIT_BG 0))
              sample_shell))) :=
  ⟨⟨rfl, rfl, by decide⟩,
    sigchld_handler_exit_bg_continues_one (sample_notification 7 (W_EXITCODE MSH_EXIT_BG 0))
      sample_shell rfl rfl (by decide) rfl⟩

theorem sigchld_handler_add_first (n : Notification) (p : Proc)
    (hs : p.my_process_type = PROCESS_TYPE_SHELL) (hh : p.halted = none)
    (hpid : n.child_pid ≠ -1) (hnone : get_liner_job_with_pid n.child_pid p = none) :
    sigchld_handler SIGCHLD n p = sigchld_handler SIGCHLD n (add_liner_list_item n.child_pid p) := by
  rcases p with ⟨ty, l, lle, lwe, lcp, mp, pg, ph, pf, ch, cf, tk, cl, o, ha⟩
  simp only at hs hh
  subst hs hh
  simp only [get_liner_job_with_pid] at hnone
  have hadd : add_liner_list_item n.child_pid
      ⟨PROCESS_TYPE_SHELL, l, lle, lwe, lcp, mp, pg, ph, pf, ch, cf, tk, cl, o, none⟩ =
      ⟨PROCESS_TYPE_SHELL, ⟨n.child_pid, pg, WORKER_STATE_ACTIVE⟩ :: l, lle, lwe, lcp, mp, pg, ph,
        pf, ch, cf, tk, cl, o, none⟩ := by
    simp [add_liner_list_item, c_assert]
  rw [hadd]
  unfold sigchld_handler c_assert
  simp only [beq_self_eq_true, if_true]
  rw [update_cwd_shell _ _ _ rfl rfl, update_cwd_shell _ _ _ rfl rfl]
  simp only [Proc.andThen, get_liner_job_with_pid, hnone, List.find?_cons_of_pos,
    beq_self_eq_true, add_liner_list_item, c_assert, if_true, if_neg hpid]

/-- C6: when the list holds no job for the pid of a notification, the handler of the
shell behaves exactly as on the list that already has an ACTIVE job for that pid
at its head, which is the list `add_liner_list_item` builds: a SIGTSTP stop
leaves that job SUSPENDED, a continue leaves it BACKGROUND, an exit leaves no
job for the pid. -/
theorem sigchld_handler_synthesizes_active_job (n : Notification) (p : Proc)
    (hs : p.my_process_type = PROCESS_TYPE_SHELL) (hh : p.halted = none)
    (hpid : 0 < n.child_pid) (hnone : get_liner_job_with_pid n.child_pid p = none) :
    (add_liner_list_item n.child_pid p).liner =
        ⟨n.child_pid, p.pgrp, WORKER_STATE_ACTIVE⟩ :: p.liner ∧
      sigchld_handler SIGCHLD n p =
        sigchld_handler SIGCHLD n (add_liner_list_item n.child_pid p) ∧
      (n.child_status = W_STOPCODE SIGTSTP →
        get_liner_job_with_pid n.child_pid (sigchld_handler SIGCHLD n p) =
          some ⟨n.child_pid, p.pgrp, WORKER_STATE_SUSPENDED⟩) ∧
      (n.child_status = W_CONTINUED →
        get_liner_job_with_pid n.child_pid (sigchld_handler SIGCHLD n p) =
          some ⟨n.child_pid, p.pgrp, WORKER_STATE_BACKGROUND⟩) ∧
      (∀ code, code < 256 → n.child_status = W_EXITCODE code 0 →
        get_liner_job_with_pid n.child_pid (sigchld_handler SIGCHLD n p) = none) := by
  have hne : n.child_pid ≠ -1 := by omega
  have hfind : List.find? (fun a => a.pid == n.child_pid)
      (⟨n.child_pid, p.pgrp, WORKER_STATE_ACTIVE⟩ :: p.liner) =
      some ⟨n.child_pid, p.pgrp, WORKER_STATE_ACTIVE⟩ :=
    List.find?_cons_of_pos _ (by simp)
  refine ⟨?_, sigchld_handler_add_first n p hs hh hne hnone, ?_, ?_, ?_⟩
  · simp [add_liner_list_item, c_assert, hs]
  · intro hst
    rw [sigchld_handler_signal_state n p hs hh hne (by rw [hst]; decide) (by rw [hst]; decide)
      (by rw [hst]; decide) WORKER_STATE_SUSPENDED (Or.inr ⟨by rw [hst]; decide, rfl⟩)]
    rw [with_liner_job_of_none _ _ hnone]
    exact find_set_liner_job_state _ _ _ _ hfind
  · intro hst
    rw [sigchld_handler_continued n p hs hh hne (by rw [hst]; decide)]
    rw [with_liner_job_of_none _ _ hnone]
    exact find_set_liner_job_state _ _ _ _ hfind
  · intro code hcode hst
    obtain ⟨h1, h2, h3⟩ := status_exit code hcode
    rw [← hst] at h1 h2 h3
    obtain ⟨e, h, f, hq⟩ := sigchld_handler_exited n p hs hh hne h1 h2
    have herase : p.liner.eraseP (fun a => a.pid == n.child_pid) = p.liner := by
      apply List.eraseP_of_forall_not
      intro a ha
      simp only [get_liner_job_with_pid] at hnone
      simpa using List.find?_eq_none.mp hnone a ha
    rw [hq, herase]
    simp only [get_liner_job_with_pid] at hnone ⊢
    by_cases h4 : WEXITSTATUS n.child_status = MSH_EXIT_ALL
    · simp [h4, free_and_exit, free_all_resources, free_current_input_resources, free_liner_list]
    · by_cases h5 : WEXITSTATUS n.child_status = MSH_EXIT_BG
      · simp only [h4, h5, if_true, if_false, get_liner_job_with_state]
        cases List.find? (fun liner_job => liner_job.state == WORKER_STATE_SUSPENDED) p.liner <;>
          exact hnone
      · simp only [h4, h5, if_false]
        exact hnone

theorem sigchld_handler_synthesizes_active_job_witness :
    (sample_shell.my_process_type = PROCESS_TYPE_SHELL ∧ sample_shell.halted = none ∧
      0 < (sample_notification 9 (W_STOPCODE SIGTSTP)).child_pid ∧
      get_liner_job_with_pid (sample_notification 9 (W_STOPCODE SIGTSTP)).child_pid
        sample_shell = none) ∧
    ((add_liner_list_item (sample_notification 9 (W_STOPCODE SIGTSTP)).child_pid
          sample_shell).liner =
        ⟨(sample_notification 9 (W_STOPCODE SIGTSTP)).child_pid, sample_shell.pgrp,
          WORKER_STATE_ACTIVE⟩ :: sample_shell.liner ∧
      sigchld_handler SIGCHLD (sample_notification 9 (W_STOPCODE SIGTSTP)) sample_shell =
        sigchld_handler SIGCHLD (sample_notification 9 (W_STOPCODE SIGTSTP))
          (add_liner_list_item (sample_notification 9 (W_STOPCODE SIGTSTP)).child_pid
            sample_shell) ∧
      ((sample_notification 9 (W_STOPCODE SIGTSTP)).child_status = W_STOPCODE SIGTSTP →
        get_liner_job_with_pid (sample_notification 9 (W_STOPCODE SIGTSTP)).child_pid
            (sigchld_handler SIGCHLD (sample_notification 9 (W_STOPCODE SIGTSTP)) sample_shell) =
          some ⟨(sample_notification 9 (W_STOPCODE SIGTSTP)).child_pid, sample_shell.pgrp,
            WORKER_STATE_SUSPENDED⟩) ∧
      ((sample_notification 9 (W_STOPCODE SIGTSTP)).child_status = W_CONTINUED →
        get_liner_job_with_pid (sample_notification 9 (W_STOPCODE SIGTSTP)).child_pid
            (sigchld_handler SIGCHLD (sample_notification 9 (W_STOPCODE SIGTSTP)) sample_shell) =
          some ⟨(sample_notification 9 (W_STOPCODE SIGTSTP)).child_pid, sample_shell.pgrp,
            WORKER_STATE_BACKGROUND⟩) ∧
      (∀ code, code < 256 →
        (sample_notification 9 (W_STOPCODE SIGTSTP)).child_status = W_EXITCODE code 0 →
        get_liner_job_with_pid (sample_notification 9 (W_STOPCODE SIGTSTP)).child_pid
          (sigchld_handler SIGCHLD (sample_notification 9 (W_STOPCODE SIGTSTP)) sample_shell) =
          none)) :=
  ⟨⟨rfl, rfl, by decide, by decide⟩,
    sigchld_handler_synthesizes_active_job (sample_notification 9 (W_STOPCODE SIGTSTP))
      sample_shell rfl rfl (by decide) (by decide)⟩

/-- How the handlers classify the status of a child killed or stopped by `sig`. -/
theorem status_of_signal (status sig : Nat) (h0 : 0 < sig) (h127 : sig < 127)
    (hst : status = W_EXITCODE 0 sig ∨ status = W_EXITCODE 0 sig ||| WCOREFLAG ∨
      status = W_STOPCODE sig) :
    WIFCONTINUED status = false ∧ WIFEXITED status = false ∧
      (WIFSIGNALED status || WIFSTOPPED status) = true ∧
      (if WIFSIGNALED status then WTERMSIG status else WSTOPSIG status) = sig := by
  obtain ⟨⟨a1, a2, a3, a4⟩, b1, b2, b3, b4⟩ := status_killed sig h127 h0
  obtain ⟨c1, c2, c3, c4, c5⟩ := status_stopped sig (by omega)
  rcases hst with h | h | h <;> subst h
  · simp [a1, a2, a3, a4]
  · simp [b1, b2, b3, b4]
  · simp [c1, c2, c3, c4, c5]

/-- The default branch of the switch in `sigchld_handler`: SIGKILL is sent while the
job is still listed, then `take_leave_of_liner` runs. -/
theorem sigchld_handler_kill_then_leave (n : Notification) (p : Proc) (j : liner_job_t)
    (hs : p.my_process_type = PROCESS_TYPE_SHELL) (hh : p.halted = none)
    (hpid : n.child_pid ≠ -1) (hj : get_liner_job_with_pid n.child_pid p = some j)
    (hc : WIFCONTINUED n.child_status = false) (he : WIFEXITED n.child_status = false)
    (hss : (WIFSIGNALED n.child_status || WIFSTOPPED n.child_status) = true) (sig : Nat)
    (hsig : (if WIFSIGNALED n.child_status then WTERMSIG n.child_status
        else WSTOPSIG n.child_status) = sig)
    (h1 : sig ≠ SIGCONT) (h2 : sig ≠ SIGTSTP) (h3 : sig ≠ SIGKILL) (h4 : sig ≠ SIGINT) :
    sigchld_handler SIGCHLD n p =
      (take_leave_of_liner n.child_pid n.pid_file
        { p with out := p.out ++ cwd_errors n.fscanf_ok n.chdir_ok ++
            [Effect.error (Msg.unexpected_signal sig n.child_pid),
              Effect.kill n.child_pid SIGKILL] }).emit (Effect.tcsetpgrp p.msh_pgid) := by
  obtain ⟨e, h, f, ht⟩ := take_leave_of_liner_shell n.child_pid n.pid_file
    { p with out := p.out ++ cwd_errors n.fscanf_ok n.chdir_ok ++
        [Effect.error (Msg.unexpected_signal sig n.child_pid),
          Effect.kill n.child_pid SIGKILL] } hs hh
  rw [ht]
  unfold sigchld_handler c_assert
  simp only [beq_self_eq_true, if_true, hs]
  rw [update_cwd_shell _ _ p hs hh]
  rcases p with ⟨ty, l, lle, lwe, lcp, mp, pg, ph, pf, ch, cf, tk, cl, o, ha⟩
  simp only at hs hh
  subst hs hh
  have hk : ¬ (sig = SIGKILL ∨ sig = SIGINT) := fun h => h.elim h3 h4
  simp only [get_liner_job_with_pid] at hj
  simp only [Proc.andThen, if_neg hpid, hc, he, hss, if_true, hsig, if_neg h1, if_neg h2,
    if_neg hk, get_liner_job_with_pid, Bool.false_eq_true, if_false, hj, Proc.emit,
    List.append_assoc, List.singleton_append, List.cons_append, List.nil_append] at ht ⊢
  rw [ht]
  simp

/-- C7: when the liner of a listed job was killed or stopped by a signal other than
SIGCONT and SIGTSTP, the handler of the shell unlinks the job found for its pid
and leaves every other job as it was; when the signal is also neither SIGKILL
nor SIGINT, the shell sends exactly one signal, a SIGKILL to that pid, and
sends it while the job is still listed, before `take_leave_of_liner` runs. -/
theorem sigchld_handler_signal_removes_job (n : Notification) (p : Proc) (j : liner_job_t)
    (sig : Nat) (hs : p.my_process_type = PROCESS_TYPE_SHELL) (hh : p.halted = none)
    (hpid : 0 < n.child_pid) (hj : get_liner_job_with_pid n.child_pid p = some j)
    (h0 : 0 < sig) (h127 : sig < 127) (hcont : sig ≠ SIGCONT) (htstp : sig ≠ SIGTSTP)
    (hst : n.child_status = W_EXITCODE 0 sig ∨ n.child_status = W_EXITCODE 0 sig ||| WCOREFLAG ∨
      n.child_status = W_STOPCODE sig) :
    (∃ l1 l2, p.liner = l1 ++ j :: l2 ∧ (∀ a ∈ l1, a.pid ≠ n.child_pid) ∧
        (sigchld_handler SIGCHLD n p).liner = l1 ++ l2) ∧
      (sigchld_handler SIGCHLD n p).halted = none ∧
      (sig ≠ SIGKILL → sig ≠ SIGINT →
        kills_of (emitted p (sigchld_handler SIGCHLD n p)) = [(n.child_pid, SIGKILL)] ∧
        ∃ mid : Proc, mid.liner = p.liner ∧
          kills_of (emitted p mid) = [(n.child_pid, SIGKILL)] ∧
          sigchld_handler SIGCHLD n p =
            (take_leave_of_liner n.child_pid n.pid_file mid).emit
              (Effect.tcsetpgrp p.msh_pgid)) := by
  have hne : n.child_pid ≠ -1 := by omega
  obtain ⟨hc, he, hss, hsig⟩ := status_of_signal n.child_status sig h0 h127 hst
  obtain ⟨e, h, f, hq⟩ := sigchld_handler_removed n p hs hh hne hc he hss
    (by rw [hsig]; exact hcont) (by rw [hsig]; exact htstp)
  rw [hsig] at hq
  refine ⟨?_, by rw [hq]; exact hh, ?_⟩
  · have hj2 := hj
    simp only [get_liner_job_with_pid] at hj2
    obtain ⟨hpj, l1, l2, hl, hl1⟩ := List.find?_eq_some.mp hj2
    refine ⟨l1, l2, hl, fun a ha => by simpa using hl1 a ha, ?_⟩
    rw [hq]
    simp only []
    rw [hl, List.eraseP_append_right _ (fun a ha => by simpa using hl1 a ha)]
    simp only [List.eraseP_cons, hpj, cond_true]
  · intro hk hi
    have hki : ¬ (sig = SIGKILL ∨ sig = SIGINT) := fun h => h.elim hk hi
    constructor
    · rw [hq]
      rw [emitted_append p _ (cwd_errors n.fscanf_ok n.chdir_ok ++
        [Effect.error (Msg.unexpected_signal sig n.child_pid), Effect.kill n.child_pid SIGKILL,
          Effect.tcsetpgrp p.msh_pgid]) (by simp [if_neg hki])]
      rw [kills_of_append, kills_of_cwd_errors]
      rfl
    · refine ⟨{ p with out := p.out ++ cwd_errors n.fscanf_ok n.chdir_ok ++
          [Effect.error (Msg.unexpected_signal sig n.child_pid),
            Effect.kill n.child_pid SIGKILL] }, rfl, ?_,
        sigchld_handler_kill_then_leave n p j hs hh hne hj hc he hss sig hsig hcont htstp hk hi⟩
      rw [emitted_append p _ (cwd_errors n.fscanf_ok n.chdir_ok ++
        [Effect.error (Msg.unexpected_signal sig n.child_pid), Effect.kill n.child_pid SIGKILL])
        (by simp)]
      rw [kills_of_append, kills_of_cwd_errors]
      rfl

theorem sigchld_handler_signal_removes_job_witness :
    (sample_shell.my_process_type = PROCESS_TYPE_SHELL ∧ sample_shell.halted = none ∧
      0 < (sample_notification 5 (W_STOPCODE 21)).child_pid ∧
      get_liner_job_with_pid (sample_notification 5 (W_STOPCODE 21)).child_pid sample_shell =
        some ⟨5, 1, WORKER_STATE_SUSPENDED⟩ ∧
      0 < 21 ∧ 21 < 127 ∧ 21 ≠ SIGCONT ∧ 21 ≠ SIGTSTP) ∧
    ((∃ l1 l2, sample_shell.liner = l1 ++ ⟨5, 1, WORKER_STATE_SUSPENDED⟩ :: l2 ∧
        (∀ a ∈ l1, a.pid ≠ (sample_notification 5 (W_STOPCODE 21)).child_pid) ∧
        (sigchld_handler SIGCHLD (sample_notification 5 (W_STOPCODE 21)) sample_shell).liner =
          l1 ++ l2) ∧
      (sigchld_handler SIGCHLD (sample_notification 5 (W_STOPCODE 21)) sample_shell).halted =
        none ∧
      (21 ≠ SIGKILL → 21 ≠ SIGINT →
        kills_of (emitted sample_shell
            (sigchld_handler SIGCHLD (sample_notification 5 (W_STOPCODE 21)) sample_shell)) =
          [((sample_notification 5 (W_STOPCODE 21)).child_pid, SIGKILL)] ∧
        ∃ mid : Proc, mid.liner = sample_shell.liner ∧
          kills_of (emitted sample_shell mid) =
            [((sample_notification 5 (W_STOPCODE 21)).child_pid, SIGKILL)] ∧
          sigchld_handler SIGCHLD (sample_notification 5 (W_STOPCODE 21)) sample_shell =
            (take_leave_of_liner (sample_notification 5 (W_STOPCODE 21)).child_pid
              (sample_notification 5 (W_STOPCODE 21)).pid_file mid).emit
              (Effect.tcsetpgrp sample_shell.msh_pgid))) :=
  ⟨⟨rfl, rfl, by decide, by decide, by decide, by decide, by decide, by decide⟩,
    sigchld_handler_signal_removes_job (sample_notification 5 (W_STOPCODE 21)) sample_shell
      ⟨5, 1, WORKER_STATE_SUSPENDED⟩ 21 rfl rfl (by decide) (by decide) (by decide) (by decide)
      (by decide) (by decide) (Or.inr (Or.inr rfl))⟩

/-! ## The liner -/

theorem update_cwd_ok (p : Proc) (hh : p.halted = none) : update_cwd true true p = p := by
  simp [update_cwd, Proc.andThen, hh]

theorem sigchld_handler_for_liner_exited (n : Notification) (p : Proc) (c : Nat)
    (hl : p.my_process_type = PROCESS_TYPE_LINER) (hh : p.halted = none)
    (hpid : n.child_pid ≠ -1) (hcwd : n.fscanf_ok = true ∧ n.chdir_ok = true)
    (hc : c < 256) (hst : n.child_status = W_EXITCODE c 0) :
    sigchld_handler_for_liner SIGCHLD n p =
      if c = MSH_EXIT_BG ∨ c = MSH_EXIT_ALL then
        free_and_exit c { p with last_worker_exited := true }
      else if c = EXIT_SUCCESS then { p with last_worker_exited := true }
      else free_and_exit EXIT_FAILURE { p with last_worker_exited := true } := by
  obtain ⟨_, h2, h3⟩ := status_exit c hc
  rw [← hst] at h2 h3
  rcases p with ⟨ty, l, lle, lwe, lcp, mp, pg, ph, pf, ch, cf, tk, cl, o, ha⟩
  simp only at hl hh
  subst hl hh
  unfold sigchld_handler_for_liner c_assert
  simp only [beq_self_eq_true, if_true, hcwd.1, hcwd.2]
  rw [update_cwd_ok _ rfl]
  simp only [Proc.andThen, if_neg hpid, h2, h3, if_true]

/-- C8 (amended): the handler of the liner, reaping a worker that exited with status
`c` in a run in which `update_cwd` succeeds (the working-directory file is read
and `chdir` succeeds): for `c = 0` the liner keeps running and only sets
`last_worker_exited`; for `c = MSH_EXIT_ALL` and `c = MSH_EXIT_BG` it exits with
the same `c`; for every other `c` it exits with `EXIT_FAILURE`. -/
theorem sigchld_handler_for_liner_classifies_exit (n : Notification) (p : Proc) (c : Nat)
    (hl : p.my_process_type = PROCESS_TYPE_LINER) (hh : p.halted = none)
    (hpid : 0 < n.child_pid) (hcwd : n.fscanf_ok = true ∧ n.chdir_ok = true)
    (hc : c < 256) (hst : n.child_status = W_EXITCODE c 0) :
    (c = 0 → sigchld_handler_for_liner SIGCHLD n p = { p with last_worker_exited := true }) ∧
      (c = MSH_EXIT_ALL ∨ c = MSH_EXIT_BG →
        (sigchld_handler_for_liner SIGCHLD n p).halted = some (Halt.exit c)) ∧
      (c ≠ 0 → c ≠ MSH_EXIT_ALL → c ≠ MSH_EXIT_BG →
        (sigchld_handler_for_liner SIGCHLD n p).halted = some (Halt.exit EXIT_FAILURE)) := by
  have hq := sigchld_handler_for_liner_exited n p c hl hh (by omega) hcwd hc hst
  rw [hq]
  refine ⟨?_, ?_, ?_⟩
  · intro h0
    subst h0
    simp [MSH_EXIT_BG, MSH_EXIT_ALL, EXIT_SUCCESS]
  · intro h45
    rw [if_pos (Or.symm h45)]
    rfl
  · intro h0 h4 h5
    rw [if_neg (fun h => h.elim h5 h4), if_neg (by simpa [EXIT_SUCCESS] using h0)]
    rfl

/-- C8, as stated, fails when `chdir` fails in `update_cwd`: the liner that reaps a
worker with exit status 0 exits with `EXIT_FAILURE` instead of going on, and
the liner that reaps a worker with exit status `MSH_EXIT_ALL` exits with
`EXIT_FAILURE` instead of `MSH_EXIT_ALL`. -/
theorem sigchld_handler_for_liner_chdir_failure :
    WIFEXITED (W_EXITCODE 0 0) = true ∧ WEXITSTATUS (W_EXITCODE 0 0) = 0 ∧
      (sigchld_handler_for_liner SIGCHLD
        { sample_notification 8 (W_EXITCODE 0 0) with chdir_ok := false }
        (sample_liner [])).halted = some (Halt.exit EXIT_FAILURE) ∧
      WEXITSTATUS (W_EXITCODE MSH_EXIT_ALL 0) = MSH_EXIT_ALL ∧
      (sigchld_handler_for_liner SIGCHLD
        { sample_notification 8 (W_EXITCODE MSH_EXIT_ALL 0) with chdir_ok := false }
        (sample_liner [])).halted = some (Halt.exit EXIT_FAILURE) := by
  decide

theorem sigchld_handler_for_liner_classifies_exit_witness :
    ((sample_liner []).my_process_type = PROCESS_TYPE_LINER ∧ (sample_liner []).halted = none ∧
      0 < (sample_notification 8 (W_EXITCODE 5 0)).child_pid ∧
      ((sample_notification 8 (W_EXITCODE 5 0)).fscanf_ok = true ∧
        (sample_notification 8 (W_EXITCODE 5 0)).chdir_ok = true) ∧ 5 < 256) ∧
    ((5 = 0 → sigchld_handler_for_liner SIGCHLD (sample_notification 8 (W_EXITCODE 5 0))
          (sample_liner []) = { sample_liner [] with last_worker_exited := true }) ∧
      (5 = MSH_EXIT_ALL ∨ 5 = MSH_EXIT_BG →
        (sigchld_handler_for_liner SIGCHLD (sample_notification 8 (W_EXITCODE 5 0))
          (sample_liner [])).halted = some (Halt.exit 5)) ∧
      (5 ≠ 0 → 5 ≠ MSH_EXIT_ALL → 5 ≠ MSH_EXIT_BG →
        (sigchld_handler_for_liner SIGCHLD (sample_notification 8 (W_EXITCODE 5 0))
          (sample_liner [])).halted = some (Halt.exit EXIT_FAILURE))) :=
  ⟨⟨rfl, rfl, by decide, ⟨rfl, rfl⟩, by decide⟩,
    sigchld_handler_for_liner_classifies_exit (sample_notification 8 (W_EXITCODE 5 0))
      (sample_liner []) 5 rfl rfl (by decide) ⟨rfl, rfl⟩ (by decide) rfl⟩

theorem run_liner_token_spec (t rest : List Char) (h1 : ' ' ∉ t) (h2 : ';' ∉ t)
    (hrest : rest = [] ∨ ∃ r, rest = ' ' :: r) :
    run_liner_token (t ++ rest) = some (t, rest) := by
  induction t with
  | nil =>
    rcases hrest with rfl | ⟨r, rfl⟩
    · rfl
    · simp [run_liner_token]
  | cons c t ih =>
    have hc1 : c ≠ ' ' := fun h => h1 (by simp [h])
    have hc2 : c ≠ ';' := fun h => h2 (by simp [h])
    have ih2 := ih (fun h => h1 (List.mem_cons_of_mem _ h)) (fun h => h2 (List.mem_cons_of_mem _ h))
    simp [run_liner_token, hc1, hc2, ih2]

theorem run_liner_token_length (l t r : List Char) (h : run_liner_token l = some (t, r)) :
    r.length ≤ l.length := by
  induction l generalizing t r with
  | nil =>
    simp [run_liner_token] at h
    simp [h.2.symm]
  | cons c l ih =>
    unfold run_liner_token at h
    by_cases hc1 : c = ' '
    · simp [hc1] at h
      simp [← h.2]
    · by_cases hc2 : c = ';'
      · simp [hc1, hc2] at h
      · simp only [hc1, hc2, if_false, Option.map_eq_some'] at h
        obtain ⟨⟨t2, r2⟩, h3, h4⟩ := h
        have := ih t2 r2 h3
        simp only [Prod.mk.injEq] at h4
        rw [← h4.2]
        simp only [List.length_cons]
        omega

theorem run_liner_loop_fuel (runs : Nat → WorkerRun) (f1 f2 k : Nat) (rest : List Char)
    (p : Proc) (h1 : rest.length < f1) (h2 : rest.length < f2) :
    run_liner_loop runs f1 k rest p = run_liner_loop runs f2 k rest p := by
  induction f1 generalizing f2 k rest p with
  | zero => omega
  | succ f1 ih =>
    cases f2 with
    | zero => omega
    | succ f2 =>
      cases rest with
      | nil => rfl
      | cons c rest =>
        simp only [List.length_cons] at h1 h2
        unfold run_liner_loop
        by_cases hc1 : c = ' '
        · rw [if_pos hc1, if_pos hc1]
          exact ih f2 k rest p (by omega) (by omega)
        · by_cases hc2 : c = ';'
          · rw [if_neg hc1, if_pos hc2, if_neg hc1, if_pos hc2]
            congr 1
            funext q
            exact ih f2 (k + 1) (rest.drop 1) (free_tokens q)
              (by simp only [List.length_drop]; omega) (by simp only [List.length_drop]; omega)
          · rw [if_neg hc1, if_neg hc2, if_neg hc1, if_neg hc2]
            cases ht : run_liner_token (c :: rest) with
            | none => rfl
            | some tr =>
              obtain ⟨t, r⟩ := tr
              have hlen := run_liner_token_length _ _ _ ht
              simp only [List.length_cons] at hlen
              simp only []
              split
              · rfl
              · have hr : (r.drop 1).length < f1 ∧ (r.drop 1).length < f2 := by
                  have : (r.drop 1).length ≤ rest.length := by
                    cases r with
                    | nil => simp
                    | cons x r => simp only [List.drop_one, List.tail_cons]; simpa using hlen
                  omega
                exact ih f2 k (r.drop 1) _ hr.1 hr.2

theorem intercalate_singleton (sep x : List Char) : List.intercalate sep [x] = x := by
  simp [List.intercalate, List.intersperse]

theorem intercalate_cons_cons (sep x y : List Char) (l : List (List Char)) :
    List.intercalate sep (x :: y :: l) = x ++ (sep ++ List.intercalate sep (y :: l)) := by
  simp [List.intercalate, List.intersperse]

theorem run_liner_loop_cons (runs : Nat → WorkerRun) (fuel k : Nat) (c : Char)
    (rest : List Char) (p : Proc) :
    run_liner_loop runs (fuel + 1) k (c :: rest) p =
      if c = ' ' then run_liner_loop runs fuel k rest p
      else if c = ';' then
        (start_worker (runs k) p).andThen fun p =>
          run_liner_loop runs fuel (k + 1) (rest.drop 1) (free_tokens p)
      else
        match run_liner_token (c :: rest) with
        | none => { p with halted := some Halt.abort }
        | some (new_token, rest) =>
          if p.tokens.length = MAX_NUM_ARGUMENTS then
            free_and_exit EXIT_FAILURE (p.emit (Effect.error Msg.too_much_tokens))
          else
            run_liner_loop runs fuel k (rest.drop 1) { p with tokens := p.tokens ++ [new_token] } := by
  rw [run_liner_loop]

theorem run_liner_loop_nil (runs : Nat → WorkerRun) (fuel k : Nat) (p : Proc) :
    run_liner_loop runs (fuel + 1) k [] p = run_liner_finish runs k p := by
  rw [run_liner_loop]

theorem run_liner_loop_token (runs : Nat → WorkerRun) (fuel k : Nat) (t tail : List Char)
    (p : Proc) (ht : t ≠ []) (h1 : ' ' ∉ t) (h2 : ';' ∉ t)
    (htail : tail = [] ∨ ∃ r, tail = ' ' :: r) (hlen : p.tokens.length < MAX_NUM_ARGUMENTS) :
    run_liner_loop runs (fuel + 1) k (t ++ tail) p =
      run_liner_loop runs fuel k (tail.drop 1) { p with tokens := p.tokens ++ [t] } := by
  cases t with
  | nil => exact absurd rfl ht
  | cons c t =>
    have hc1 : c ≠ ' ' := fun h => h1 (by simp [h])
    have hc2 : c ≠ ';' := fun h => h2 (by simp [h])
    have hscan := run_liner_token_spec (c :: t) tail h1 h2 htail
    rw [List.cons_append] at hscan ⊢
    rw [run_liner_loop_cons, if_neg hc1, if_neg hc2, hscan]
    simp only []
    rw [if_neg (by omega)]

theorem run_liner_loop_command (runs : Nat → WorkerRun) (ts : List (List Char)) :
    ∀ (fuel k : Nat) (tail : List Char) (p : Proc), ts ≠ [] →
      (∀ t ∈ ts, t ≠ [] ∧ ' ' ∉ t ∧ ';' ∉ t) →
      p.tokens.length + ts.length ≤ MAX_NUM_ARGUMENTS →
      (tail = [] ∨ ∃ r, tail = ' ' :: r) →
      (List.intercalate [' '] ts ++ tail).length < fuel →
      run_liner_loop runs fuel k (List.intercalate [' '] ts ++ tail) p =
        run_liner_loop runs ((tail.drop 1).length + 1) k (tail.drop 1)
          { p with tokens := p.tokens ++ ts } := by
  induction ts with
  | nil => intro _ _ _ _ h; exact absurd rfl h
  | cons t ts ih =>
    intro fuel k tail p _ hts hlen htail hfuel
    obtain ⟨ht, h1, h2⟩ := hts t (List.mem_cons_self _ _)
    cases fuel with
    | zero => omega
    | succ fuel =>
      cases ts with
      | nil =>
        rw [intercalate_singleton] at hfuel ⊢
        simp only [List.length_cons, List.length_nil] at hlen
        rw [run_liner_loop_token runs fuel k t tail p ht h1 h2 htail (by omega)]
        apply run_liner_loop_fuel
        · simp only [List.length_append, List.length_drop] at hfuel ⊢
          have : 0 < t.length := List.length_pos.mpr ht
          omega
        · omega
      | cons t2 ts =>
        rw [intercalate_cons_cons] at hfuel ⊢
        simp only [List.length_cons] at hlen
        simp only [List.append_assoc, List.singleton_append, List.cons_append,
          List.nil_append] at hfuel ⊢
        rw [run_liner_loop_token runs fuel k t _ p ht h1 h2 (Or.inr ⟨_, rfl⟩) (by omega)]
        simp only [List.drop_succ_cons, List.drop_zero]
        rw [ih fuel k tail _ (List.cons_ne_nil _ _)
          (fun x hx => hts x (List.mem_cons_of_mem _ hx))
          (by simp only [List.length_append, List.length_cons, List.length_nil]; omega) htail
          (by
            simp only [List.length_append, List.length_cons] at hfuel ⊢
            omega)]
        simp only [List.append_assoc, List.singleton_append]

theorem normalized_line_singleton (c : List (List Char)) :
    normalized_line [c] = List.intercalate [' '] c := by
  simp [normalized_line, intercalate_singleton]

theorem normalized_line_cons_cons (c c2 : List (List Char)) (cs : List (List (List Char))) :
    normalized_line (c :: c2 :: cs) =
      List.intercalate [' '] c ++ ' ' :: ';' :: ' ' :: normalized_line (c2 :: cs) := by
  simp [normalized_line, intercalate_cons_cons]

/-! ## Counting the workers a liner starts -/

theorem forks_of_append (xs ys : List Effect) :
    forks_of (xs ++ ys) = forks_of xs ++ forks_of ys := by
  induction xs with
  | nil => rfl
  | cons x xs ih => cases x <;> simp [forks_of, ih]

theorem forks_of_map_kill (l : List liner_job_t) (sig : Nat) :
    forks_of (l.map (fun a => Effect.kill a.pid sig)) = [] := by
  induction l with
  | nil => rfl
  | cons a l ih => simp [forks_of, ih]

theorem forks_of_free_and_exit (c : Nat) (p : Proc) :
    forks_of (free_and_exit c p).out = forks_of p.out := by
  unfold free_and_exit free_all_resources free_current_input_resources free_liner_list
  simp only [forks_of_append]
  split <;> simp [forks_of_map_kill, forks_of]

theorem forks_of_update_cwd (a b : Bool) (p : Proc) :
    forks_of (update_cwd a b p).out = forks_of p.out := by
  unfold update_cwd Proc.andThen
  cases a <;> cases b <;> simp only [Bool.false_eq_true, if_true, if_false] <;>
    (repeat' split) <;>
    simp [forks_of_free_and_exit, Proc.emit, forks_of_append, forks_of]

theorem update_cwd_waiting (a b : Bool) (p : Proc)
    (h : (update_cwd a b p).halted = none) :
    (update_cwd a b p).last_worker_exited = p.last_worker_exited ∧
      (update_cwd a b p).my_process_type = p.my_process_type := by
  unfold update_cwd Proc.andThen at h ⊢
  cases a <;> cases b <;> simp only [Bool.false_eq_true, if_true, if_false] at h ⊢ <;>
    (repeat' split at h) <;>
    simp_all [Proc.emit, free_and_exit]

theorem forks_of_sigchld_handler_for_liner (n : Notification) (p : Proc) :
    forks_of (sigchld_handler_for_liner SIGCHLD n p).out = forks_of p.out := by
  unfold sigchld_handler_for_liner c_assert Proc.andThen
  simp only [beq_self_eq_true, if_true]
  have hu := forks_of_update_cwd n.fscanf_ok n.chdir_ok p
  generalize update_cwd n.fscanf_ok n.chdir_ok p = u at hu
  (repeat' split) <;>
    simp [forks_of_free_and_exit, Proc.emit, forks_of_append, forks_of, hu]

theorem forks_of_sigcont_handler (pgid : Int) (ok : Bool) (p : Proc) :
    forks_of (sigcont_handler pgid ok p).out = forks_of p.out := by
  unfold sigcont_handler c_assert
  (repeat' split) <;>
    simp [forks_of_free_and_exit, Proc.emit, forks_of_append, forks_of]

theorem forks_of_liner_signal (s : LinerSignal) (p : Proc) :
    forks_of (liner_signal s p).out = forks_of p.out := by
  cases s with
  | sigchld n => exact forks_of_sigchld_handler_for_liner n p
  | sigcont pgid ok => exact forks_of_sigcont_handler pgid ok p

theorem forks_of_liner_signals (signals : List LinerSignal) (p : Proc) :
    forks_of (liner_signals signals p).out = forks_of p.out := by
  induction signals generalizing p with
  | nil => rfl
  | cons s signals ih =>
    unfold liner_signals Proc.andThen
    split
    · rw [ih, forks_of_liner_signal]
    · exact forks_of_liner_signal s p

theorem forks_of_wait_for_worker (racing : Bool) (signals : List LinerSignal) (p : Proc) :
    forks_of (wait_for_worker racing signals p).out = forks_of p.out := by
  have h := forks_of_liner_signals signals p
  unfold wait_for_worker Proc.andThen
  generalize liner_signals signals p = q at h ⊢
  cases hq : q.halted with
  | none =>
    simp only []
    split <;> exact h
  | some x => exact h

/-- A handler of the liner that does not end the process leaves
`last_worker_exited` as it was, unless it reaped a worker that exited with 0. -/
theorem liner_signal_waiting (s : LinerSignal) (p : Proc)
    (hw : p.last_worker_exited = false)
    (hfail : ∀ n, s = LinerSignal.sigchld n → WIFEXITED n.child_status = true →
      WEXITSTATUS n.child_status ≠ EXIT_SUCCESS)
    (hq : (liner_signal s p).halted = none) :
    (liner_signal s p).last_worker_exited = false := by
  cases s with
  | sigcont pgid ok =>
    unfold liner_signal sigcont_handler c_assert at hq ⊢
    simp only [] at hq ⊢
    (repeat' split at hq) <;> simp_all [Proc.emit, free_and_exit]
  | sigchld n =>
    have hf := hfail n rfl
    unfold liner_signal sigchld_handler_for_liner c_assert Proc.andThen at hq ⊢
    simp only [beq_self_eq_true, if_true] at hq ⊢
    have hu := update_cwd_waiting n.fscanf_ok n.chdir_ok p
    generalize update_cwd n.fscanf_ok n.chdir_ok p = u at hu hq ⊢
    (repeat' split at hq) <;> simp_all [Proc.emit, free_and_exit]

theorem liner_signals_waiting (signals : List LinerSignal) (p : Proc)
    (hw : p.last_worker_exited = false)
    (hfail : ∀ n, LinerSignal.sigchld n ∈ signals → WIFEXITED n.child_status = true →
      WEXITSTATUS n.child_status ≠ EXIT_SUCCESS)
    (hq : (liner_signals signals p).halted = none) :
    (liner_signals signals p).last_worker_exited = false := by
  induction signals generalizing p with
  | nil => exact hw
  | cons s signals ih =>
    unfold liner_signals at hq ⊢
    obtain ⟨h1, e1⟩ := andThen_running _ _ hq
    rw [e1] at hq ⊢
    exact ih _ (liner_signal_waiting s p hw (fun n hn => hfail n (by simp [hn])) h1)
      (fun n hn => hfail n (List.mem_cons_of_mem _ hn)) hq

theorem wait_for_worker_halts (racing : Bool) (signals : List LinerSignal) (p : Proc)
    (hw : p.last_worker_exited = false)
    (hfail : ∀ n, LinerSignal.sigchld n ∈ signals → WIFEXITED n.child_status = true →
      WEXITSTATUS n.child_status ≠ EXIT_SUCCESS) :
    (wait_for_worker racing signals p).halted ≠ none := by
  have h := liner_signals_waiting signals p hw hfail
  unfold wait_for_worker Proc.andThen
  generalize liner_signals signals p = q at h ⊢
  cases hq : q.halted with
  | none =>
    simp only []
    rw [h hq]
    simp
  | some x => simp [hq]

theorem start_worker_in_liner (run : WorkerRun) (p : Proc) (hfork : run.fork_result ≠ 0) :
    start_worker run p =
      if p.my_process_type = PROCESS_TYPE_LINER then
        ({ p with
          last_worker_exited := false
          liner_child_pid := run.fork_result
          out := p.out ++ [Effect.fork p.tokens run.fork_result,
            Effect.save_worker_pid run.fork_result] } : Proc).andThen
          (wait_for_worker run.racing run.signals)
      else { p with halted := some Halt.abort } := by
  rcases p with ⟨ty, l, lle, lwe, lcp, mp, pg, ph, pf, ch, cf, tk, cl, o, ha⟩
  by_cases hty : ty = PROCESS_TYPE_LINER
  · subst hty
    simp only [start_worker, c_assert, beq_self_eq_true, if_true, Proc.emit, if_neg hfork,
      save_worker_pid_with_liner, List.append_assoc, List.singleton_append]
  · simp [start_worker, c_assert, hty]

theorem liner_signal_passes (s : LinerSignal) (p : Proc)
    (hl : p.my_process_type = PROCESS_TYPE_LINER) (hh : p.halted = none)
    (hs : signal_passes s) :
    (liner_signal s p).my_process_type = PROCESS_TYPE_LINER ∧
      (liner_signal s p).halted = none ∧
      (liner_signal s p).last_worker_exited = p.last_worker_exited ∧
      forks_of (liner_signal s p).out = forks_of p.out := by
  refine ⟨?_, ?_, ?_, forks_of_liner_signal s p⟩ <;>
    rcases p with ⟨ty, l, lle, lwe, lcp, mp, pg, ph, pf, ch, cf, tk, cl, o, ha⟩ <;>
    simp only at hl hh <;> subst hl hh <;>
    cases s with
    | sigcont pgid ok =>
      simp only [signal_passes] at hs
      subst hs
      simp [liner_signal, sigcont_handler, c_assert, Proc.emit]
    | sigchld n =>
      obtain ⟨hpid, hcwd, he, hss, hsig⟩ := hs
      simp only [liner_signal, sigchld_handler_for_liner, c_assert, beq_self_eq_true, if_true,
        hcwd.1, hcwd.2]
      rw [update_cwd_ok _ rfl]
      simp only [Proc.andThen, if_neg hpid, he, hss, if_true, Bool.false_eq_true, if_false]
      rcases hsig with h | h
      · rw [h]; simp
      · rw [h]; simp [show SIGTSTP ≠ SIGCONT by decide]

theorem liner_signals_pass (signals : List LinerSignal) (p : Proc)
    (hl : p.my_process_type = PROCESS_TYPE_LINER) (hh : p.halted = none)
    (hs : ∀ s ∈ signals, signal_passes s) :
    (liner_signals signals p).my_process_type = PROCESS_TYPE_LINER ∧
      (liner_signals signals p).halted = none ∧
      (liner_signals signals p).last_worker_exited = p.last_worker_exited ∧
      forks_of (liner_signals signals p).out = forks_of p.out := by
  induction signals generalizing p with
  | nil => exact ⟨hl, hh, rfl, rfl⟩
  | cons s signals ih =>
    obtain ⟨h1, h2, h3, h4⟩ := liner_signal_passes s p hl hh (hs s (List.mem_cons_self _ _))
    unfold liner_signals
    rw [andThen_of_running _ _ h2]
    obtain ⟨i1, i2, i3, i4⟩ := ih (liner_signal s p) h1 h2
      (fun x hx => hs x (List.mem_cons_of_mem _ hx))
    exact ⟨i1, i2, by rw [i3, h3], by rw [i4, h4]⟩

theorem liner_signals_append (xs ys : List LinerSignal) (p : Proc) (hh : p.halted = none) :
    liner_signals (xs ++ ys) p = (liner_signals xs p).andThen (liner_signals ys) := by
  induction xs generalizing p with
  | nil =>
    rw [List.nil_append]
    conv => rhs; unfold liner_signals
    rw [andThen_of_running _ _ hh]
  | cons x xs ih =>
    rw [List.cons_append]
    conv => lhs; unfold liner_signals
    conv => rhs; unfold liner_signals
    cases hq : (liner_signal x p).halted with
    | none =>
      rw [andThen_of_running _ _ hq, andThen_of_running _ (liner_signals xs) hq]
      exact ih _ hq
    | some h =>
      have e : ∀ k : Proc → Proc, (liner_signal x p).andThen k = liner_signal x p := by
        intro k
        unfold Proc.andThen
        rw [hq]
      rw [e, e, e]

theorem wait_for_worker_succeeds (pre : List LinerSignal) (n : Notification)
    (rest : List LinerSignal) (p : Proc) (hl : p.my_process_type = PROCESS_TYPE_LINER)
    (hh : p.halted = none)
    (hpre : ∀ s ∈ pre, signal_passes s) (hrest : ∀ s ∈ rest, signal_passes s)
    (hpid : 0 < n.child_pid)
    (hcwd : n.fscanf_ok = true ∧ n.chdir_ok = true)
    (hst : n.child_status = W_EXITCODE EXIT_SUCCESS 0) :
    (wait_for_worker false (pre ++ LinerSignal.sigchld n :: rest) p).my_process_type =
        PROCESS_TYPE_LINER ∧
      (wait_for_worker false (pre ++ LinerSignal.sigchld n :: rest) p).halted = none ∧
      forks_of (wait_for_worker false (pre ++ LinerSignal.sigchld n :: rest) p).out =
        forks_of p.out := by
  obtain ⟨a1, a2, -, a4⟩ := liner_signals_pass pre p hl hh hpre
  have hmid : (liner_signal (LinerSignal.sigchld n) (liner_signals pre p)) =
      { liner_signals pre p with last_worker_exited := true } := by
    rw [liner_signal, sigchld_handler_for_liner_exited n _ 0 a1 a2 (by omega) hcwd (by decide)
      hst]
    simp [MSH_EXIT_BG, MSH_EXIT_ALL, EXIT_SUCCESS]
  obtain ⟨b1, b2, b3, b4⟩ := liner_signals_pass rest
    { liner_signals pre p with last_worker_exited := true } a1 a2 hrest
  have hall : liner_signals (pre ++ LinerSignal.sigchld n :: rest) p =
      liner_signals rest { liner_signals pre p with last_worker_exited := true } := by
    rw [liner_signals_append _ _ _ hh, andThen_of_running _ _ a2]
    conv => lhs; unfold liner_signals
    rw [hmid]
    exact andThen_of_running _ _ a2
  unfold wait_for_worker
  rw [hall, andThen_of_running _ _ b2]
  simp only [b3, Bool.not_false, Bool.or_true, Bool.and_self, if_true]
  exact ⟨b1, b2, by rw [b4]; exact a4⟩

theorem start_worker_succeeds (run : WorkerRun) (p : Proc)
    (hl : p.my_process_type = PROCESS_TYPE_LINER) (hh : p.halted = none)
    (hrun : worker_succeeds run) :
    (start_worker run p).my_process_type = PROCESS_TYPE_LINER ∧
      (start_worker run p).halted = none ∧
      forks_of (start_worker run p).out = forks_of p.out ++ [p.tokens] := by
  obtain ⟨hfork, hrace, pre, n, rest, hsig, hpre, hrest, hpid, hcwd, hst⟩ := hrun
  rw [start_worker_in_liner run p (by omega), if_pos hl, hsig, hrace]
  rcases p with ⟨ty, l, lle, lwe, lcp, mp, pg, ph, pf, ch, cf, tk, cl, o, ha⟩
  simp only at hl hh
  subst hl hh
  simp only [Proc.andThen]
  obtain ⟨h1, h2, h3⟩ := wait_for_worker_succeeds pre n rest
    ⟨PROCESS_TYPE_LINER, l, lle, false, run.fork_result, mp, pg, ph, pf, ch, cf, tk, cl,
      o ++ [Effect.fork tk run.fork_result, Effect.save_worker_pid run.fork_result], none⟩
    rfl rfl hpre hrest hpid hcwd hst
  refine ⟨h1, h2, ?_⟩
  rw [h3]
  simp [forks_of_append, forks_of]

theorem run_liner_loop_line (runs : Nat → WorkerRun) (cmds : List (List (List Char))) :
    ∀ (fuel k : Nat) (p : Proc), cmds ≠ [] → (∀ c ∈ cmds, atomic_command c) →
      p.my_process_type = PROCESS_TYPE_LINER → p.halted = none → p.tokens = [] →
      (∀ i, i < cmds.length → worker_succeeds (runs (k + i))) →
      (normalized_line cmds).length < fuel →
      forks_of (run_liner_loop runs fuel k (normalized_line cmds) p).out =
          forks_of p.out ++ cmds ∧
        (run_liner_loop runs fuel k (normalized_line cmds) p).halted =
          some (Halt.exit EXIT_SUCCESS) := by
  induction cmds with
  | nil => intro _ _ _ h; exact absurd rfl h
  | cons c cs ih =>
    intro fuel k p _ hcmds hl hh htok hruns hfuel
    obtain ⟨hc0, hc11, hctok⟩ := hcmds c (List.mem_cons_self _ _)
    have hrun0 : worker_succeeds (runs k) := by
      have := hruns 0 (by simp)
      simpa using this
    obtain ⟨s1, s2, s3⟩ := start_worker_succeeds (runs k) { p with tokens := p.tokens ++ c }
      hl hh hrun0
    have s4 : forks_of (start_worker (runs k) { p with tokens := p.tokens ++ c }).out =
        forks_of p.out ++ [c] := by
      rw [s3]
      simp [htok]
    have hlen : p.tokens.length + c.length ≤ MAX_NUM_ARGUMENTS := by simpa [htok] using hc11
    have hpos : 0 < ({ p with tokens := p.tokens ++ c } : Proc).tokens.length := by
      simp only [htok, List.nil_append]
      exact List.length_pos.mpr hc0
    cases cs with
    | nil =>
      rw [normalized_line_singleton] at hfuel ⊢
      have h := run_liner_loop_command runs c fuel k [] p hc0 hctok hlen (Or.inl rfl)
        (by simpa using hfuel)
      rw [List.append_nil] at h
      rw [h]
      simp only [List.drop_nil, List.length_nil, Nat.zero_add]
      rw [run_liner_loop_nil, run_liner_finish, if_pos hpos]
      generalize start_worker (runs k) { p with tokens := p.tokens ++ c } = q at s1 s2 s4
      simp only [Proc.andThen, s2]
      have hf : (free_tokens q).halted = none := s2
      simp only [hf]
      refine ⟨?_, rfl⟩
      rw [forks_of_free_and_exit]
      exact s4
    | cons c2 cs =>
      rw [normalized_line_cons_cons] at hfuel ⊢
      have h := run_liner_loop_command runs c fuel k
        (' ' :: ';' :: ' ' :: normalized_line (c2 :: cs)) p hc0 hctok hlen (Or.inr ⟨_, rfl⟩)
        hfuel
      rw [h]
      simp only [List.drop_succ_cons, List.drop_zero, List.length_cons]
      rw [run_liner_loop_cons, if_neg (by decide), if_pos rfl]
      generalize start_worker (runs k) { p with tokens := p.tokens ++ c } = q at s1 s2 s4
      simp only [Proc.andThen, s2, List.drop_succ_cons, List.drop_zero]
      have hih := ih ((normalized_line (c2 :: cs)).length + 1 + 1) (k + 1) (free_tokens q)
        (List.cons_ne_nil _ _) (fun x hx => hcmds x (List.mem_cons_of_mem _ hx)) s1 s2 rfl
        (fun i hi => by
          have := hruns (i + 1) (by simpa using hi)
          rwa [show k + 1 + i = k + (i + 1) by omega])
        (by omega)
      rw [hih.1, hih.2]
      refine ⟨?_, rfl⟩
      have : (free_tokens q).out = q.out := rfl
      rw [this, s4]
      simp

/-- C9 (amended): on the normalized line of `N ≥ 1` atomic commands (each of 1 to
11 tokens) joined by `" ; "`, when every worker exits with status 0, `update_cwd`
succeeds in the handler that reaps it, every other handler that runs during the
same call of `start_worker`, before or after that one, is one that passes (no
failure of `update_cwd` or `setpgid`, no other report of `wait`), and the loop
of `start_worker` tests the flag after the last of them, `run_liner` starts
exactly `N` workers: the token arrays of its calls of `fork` are, in order,
exactly the commands; and then it exits with `EXIT_SUCCESS`. -/
theorem run_liner_runs_commands_in_order (runs : Nat → WorkerRun) (p : Proc)
    (cmds : List (List (List Char))) (hl : p.my_process_type = PROCESS_TYPE_LINER)
    (hh : p.halted = none) (htok : p.tokens = []) (hne : cmds ≠ [])
    (hcmds : ∀ c ∈ cmds, atomic_command c) (hline : p.cmd_line = normalized_line cmds)
    (hruns : ∀ k, k < cmds.length → worker_succeeds (runs k)) :
    forks_of (run_liner runs p).out = forks_of p.out ++ cmds ∧
      (run_liner runs p).halted = some (Halt.exit EXIT_SUCCESS) := by
  have hq : run_liner runs p =
      run_liner_loop runs ((normalized_line cmds).length + 1) 0 (normalized_line cmds) p := by
    unfold run_liner c_assert
    simp only [hl, beq_self_eq_true, if_true, hline]
  rw [hq]
  exact run_liner_loop_line runs cmds ((normalized_line cmds).length + 1) 0 p hne
    hcmds hl hh htok (fun i hi => by simpa using hruns i hi) (by omega)

/-- C9, as stated, fails when `chdir` fails in `update_cwd`: on `ls -l ; pwd` with
both workers exiting with status 0, the liner starts the worker of `ls -l` only
and exits with `EXIT_FAILURE`. -/
theorem run_liner_chdir_failure :
    (sample_liner "ls -l ; pwd".toList).cmd_line = normalized_line sample_commands ∧
      forks_of (run_liner sample_runs_chdir_fails (sample_liner "ls -l ; pwd".toList)).out =
        [["ls".toList, "-l".toList]] ∧
      (run_liner sample_runs_chdir_fails (sample_liner "ls -l ; pwd".toList)).halted =
        some (Halt.exit EXIT_FAILURE) := by
  decide

theorem run_liner_runs_commands_in_order_witness :
    ((sample_liner "ls -l ; pwd".toList).my_process_type = PROCESS_TYPE_LINER ∧
      (sample_liner "ls -l ; pwd".toList).halted = none ∧
      (sample_liner "ls -l ; pwd".toList).tokens = [] ∧ sample_commands ≠ [] ∧
      (∀ c ∈ sample_commands, atomic_command c) ∧
      (sample_liner "ls -l ; pwd".toList).cmd_line = normalized_line sample_commands ∧
      (∀ k, k < sample_commands.length → worker_succeeds (sample_runs (fun _ => 0) k))) ∧
    (forks_of (run_liner (sample_runs (fun _ => 0)) (sample_liner "ls -l ; pwd".toList)).out =
        forks_of (sample_liner "ls -l ; pwd".toList).out ++ sample_commands ∧
      (run_liner (sample_runs (fun _ => 0)) (sample_liner "ls -l ; pwd".toList)).halted =
        some (Halt.exit EXIT_SUCCESS)) :=
  have hc : ∀ c ∈ sample_commands, atomic_command c := by
    simp [sample_commands, atomic_command, MAX_NUM_ARGUMENTS]
  have hr : ∀ k, k < sample_commands.length → worker_succeeds (sample_runs (fun _ => 0) k) :=
    fun k _ => ⟨by simp only [sample_runs]; omega, rfl, [], _, [], rfl, by simp, by simp,
      by simp only [sample_notification]; omega, ⟨rfl, rfl⟩, rfl⟩
  ⟨⟨rfl, rfl, rfl, by simp [sample_commands], hc, by decide, hr⟩,
    run_liner_runs_commands_in_order (sample_runs (fun _ => 0))
      (sample_liner "ls -l ; pwd".toList) sample_commands rfl rfl rfl
      (by simp [sample_commands]) hc (by decide) hr⟩

/-- Handlers that run after the worker was reaped. On `ls -l ; pwd` the first
worker exits with 0; when a second SIGCHLD is handled during the same call of
`start_worker`, `wait` returns -1 and the liner exits with `EXIT_FAILURE` after
one `fork`. When the handler of the only SIGCHLD runs between the test of the
loop and `pause()`, the liner stays in `pause()`. -/
theorem run_liner_handlers_after_exit :
    forks_of (run_liner sample_runs_second_sigchld (sample_liner "ls -l ; pwd".toList)).out =
        [["ls".toList, "-l".toList]] ∧
      (run_liner sample_runs_second_sigchld (sample_liner "ls -l ; pwd".toList)).halted =
        some (Halt.exit EXIT_FAILURE) ∧
      forks_of (run_liner sample_runs_racing (sample_liner "ls -l ; pwd".toList)).out =
        [["ls".toList, "-l".toList]] ∧
      (run_liner sample_runs_racing (sample_liner "ls -l ; pwd".toList)).halted =
        some Halt.hang := by
  decide

theorem fork_count_start_worker (run : WorkerRun) (p : Proc) (hfork : run.fork_result ≠ 0) :
    fork_count (start_worker run p) ≤ fork_count p + 1 := by
  rw [start_worker_in_liner run p hfork]
  unfold fork_count Proc.andThen
  (repeat' split) <;>
    simp [forks_of_wait_for_worker, forks_of_append, forks_of]

theorem start_worker_halts (run : WorkerRun) (p : Proc) (hfork : run.fork_result ≠ 0)
    (hfail : ∀ n, LinerSignal.sigchld n ∈ run.signals → WIFEXITED n.child_status = true →
      WEXITSTATUS n.child_status ≠ EXIT_SUCCESS) :
    (start_worker run p).halted ≠ none := by
  rw [start_worker_in_liner run p hfork]
  unfold Proc.andThen
  split
  · split
    · exact wait_for_worker_halts _ _ _ rfl hfail
    · rename_i x hq
      simp only [] at hq ⊢
      simp [hq]
  · simp

theorem fork_count_run_liner_finish (runs : Nat → WorkerRun) (k : Nat) (p : Proc)
    (hfork : (runs k).fork_result ≠ 0) :
    fork_count (run_liner_finish runs k p) ≤ fork_count p + 1 := by
  have h := fork_count_start_worker (runs k) p hfork
  unfold run_liner_finish Proc.andThen
  unfold fork_count at h ⊢
  (repeat' split) <;> simp_all [forks_of_free_and_exit, free_tokens]

theorem fork_count_run_liner_loop (runs : Nat → WorkerRun) (k : Nat)
    (hcoord : ∀ j, j ≤ k → (runs j).fork_result ≠ 0)
    (hfail : ∀ n, LinerSignal.sigchld n ∈ (runs k).signals → WIFEXITED n.child_status = true →
      WEXITSTATUS n.child_status ≠ EXIT_SUCCESS) :
    ∀ (fuel j : Nat) (rest : List Char) (p : Proc), j ≤ k →
      fork_count (run_liner_loop runs fuel j rest p) + j ≤ fork_count p + (k + 1) := by
  intro fuel
  induction fuel with
  | zero =>
    intro j rest p hj
    unfold run_liner_loop fork_count
    simp only []
    omega
  | succ fuel ih =>
    intro j rest p hj
    cases rest with
    | nil =>
      rw [run_liner_loop_nil]
      have := fork_count_run_liner_finish runs j p (hcoord j hj)
      omega
    | cons c rest =>
      rw [run_liner_loop_cons]
      by_cases hc1 : c = ' '
      · rw [if_pos hc1]
        exact ih j rest p hj
      · by_cases hc2 : c = ';'
        · rw [if_neg hc1, if_pos hc2]
          have hfc := fork_count_start_worker (runs j) p (hcoord j hj)
          unfold Proc.andThen
          split
          · rename_i hq
            have hjk : j ≠ k := fun e =>
              start_worker_halts (runs k) p (hcoord k (Nat.le_refl k)) hfail (e ▸ hq)
            have := ih (j + 1) (rest.drop 1) (free_tokens (start_worker (runs j) p)) (by omega)
            have hft : fork_count (free_tokens (start_worker (runs j) p)) =
                fork_count (start_worker (runs j) p) := rfl
            beta_reduce
            omega
          · omega
        · rw [if_neg hc1, if_neg hc2]
          split
          · unfold fork_count
            simp only []
            omega
          · split
            · unfold fork_count
              rw [forks_of_free_and_exit]
              simp only [Proc.emit, forks_of_append, forks_of, List.append_nil]
              omega
            · rename_i tr new_token rest2 htr hlen
              exact ih j (rest2.drop 1) _ hj

/-- C10: for every line and every position `k`, when the worker started by the
`k`-th call of `start_worker` (counted from 0) does not exit with status 0, the
liner makes no further call of `fork`: at most the `k + 1` workers of the
atomic commands at positions `0` to `k` are started. -/
theorem run_liner_stops_after_failed_worker (runs : Nat → WorkerRun) (p : Proc) (k : Nat)
    (hcoord : ∀ j, j ≤ k → (runs j).fork_result ≠ 0)
    (hfail : ∀ n, LinerSignal.sigchld n ∈ (runs k).signals → WIFEXITED n.child_status = true →
      WEXITSTATUS n.child_status ≠ EXIT_SUCCESS) :
    fork_count (run_liner runs p) ≤ fork_count p + (k + 1) := by
  unfold run_liner c_assert
  split
  · have := fork_count_run_liner_loop runs k hcoord hfail (p.cmd_line.length + 1) 0 p.cmd_line p
      (Nat.zero_le k)
    simp only []
    omega
  · unfold fork_count
    simp only []
    omega

theorem run_liner_stops_after_failed_worker_witness :
    ((∀ j, j ≤ 1 → (sample_runs (fun k => if k = 1 then 3 else 0) j).fork_result ≠ 0) ∧
      (∀ n, LinerSignal.sigchld n ∈ (sample_runs (fun k => if k = 1 then 3 else 0) 1).signals →
        WIFEXITED n.child_status = true → WEXITSTATUS n.child_status ≠ EXIT_SUCCESS)) ∧
    fork_count (run_liner (sample_runs (fun k => if k = 1 then 3 else 0))
        (sample_liner "a ; b ; c".toList)) ≤
      fork_count (sample_liner "a ; b ; c".toList) + (1 + 1) :=
  have h1 : ∀ j, j ≤ 1 → (sample_runs (fun k => if k = 1 then 3 else 0) j).fork_result ≠ 0 :=
    fun j _ => by simp only [sample_runs]; omega
  have h2 : ∀ n, LinerSignal.sigchld n ∈
      (sample_runs (fun k => if k = 1 then 3 else 0) 1).signals →
      WIFEXITED n.child_status = true → WEXITSTATUS n.child_status ≠ EXIT_SUCCESS := by
    intro n hn _
    simp only [sample_runs, List.mem_singleton, LinerSignal.sigchld.injEq] at hn
    subst hn
    decide
  ⟨⟨h1, h2⟩,
    run_liner_stops_after_failed_worker (sample_runs (fun k => if k = 1 then 3 else 0))
      (sample_liner "a ; b ; c".toList) 1 h1 h2⟩

/-! ## The worker -/

/-- C11: the program that `execvp` starts for an external command ends the worker
with its own exit status. For the command `wget x`, `run_worker` ends in a
successful `execvp`; when that program exits with 4 the liner reaps the status
`W_EXITCODE( 4, 0 )`, reads `MSH_EXIT_ALL` from it and exits with
`MSH_EXIT_ALL`, on which the shell exits; with 5 the liner exits with
`MSH_EXIT_BG`. The status is not turned into `EXIT_FAILURE`. -/
theorem external_status_reaches_liner :
    (run_worker sample_worker_env (sample_worker ["wget".toList, "x".toList])).halted =
        some Halt.exec ∧
      reaped_status 4 Halt.exec = some (W_EXITCODE MSH_EXIT_ALL 0) ∧
      (sigchld_handler_for_liner SIGCHLD (sample_notification 8 (W_EXITCODE MSH_EXIT_ALL 0))
        (sample_liner "wget x".toList)).halted = some (Halt.exit MSH_EXIT_ALL) ∧
      (sigchld_handler SIGCHLD (sample_notification 7 (W_EXITCODE MSH_EXIT_ALL 0))
        sample_shell).halted = some (Halt.exit EXIT_SUCCESS) ∧
      reaped_status 5 Halt.exec = some (W_EXITCODE MSH_EXIT_BG 0) ∧
      (sigchld_handler_for_liner SIGCHLD (sample_notification 8 (W_EXITCODE MSH_EXIT_BG 0))
        (sample_liner "wget x".toList)).halted = some (Halt.exit MSH_EXIT_BG) := by
  decide

/-- C12: on the empty token array `run_worker` returns to `start_worker`. The
worker of the empty first command of `; ls` then runs on in the `for` loop of
`run_liner`, scans `ls` and fails the assertion of `start_worker`; the worker
of the line `;` gets to the end of `run_liner` and exits from there. -/
theorem run_worker_returns_on_empty_tokens :
    run_worker sample_worker_env (sample_worker []) = sample_worker [] ∧
      (run_worker sample_worker_env (sample_worker [])).halted = none ∧
      (run_liner child_env.runs (sample_liner "; ls".toList)).my_process_type =
        PROCESS_TYPE_WORKER ∧
      (run_liner child_env.runs (sample_liner "; ls".toList)).tokens = ["ls".toList] ∧
      (run_liner child_env.runs (sample_liner "; ls".toList)).halted = some Halt.abort ∧
      (run_liner child_env.runs (sample_liner ";".toList)).my_process_type =
        PROCESS_TYPE_WORKER ∧
      (run_liner child_env.runs (sample_liner ";".toList)).halted =
        some (Halt.exit EXIT_SUCCESS) := by
  decide

/-! ## The working-directory file -/

theorem fscanf_string_of_no_space (path : List Char) (hne : path ≠ [])
    (hsp : ∀ c ∈ path, isspace c = false) : fscanf_string path = some path := by
  cases path with
  | nil => exact absurd rfl hne
  | cons c rest =>
    have hc : isspace c = false := hsp c (List.mem_cons_self _ _)
    have hd : (c :: rest).dropWhile isspace = c :: rest := by
      simp [List.dropWhile, hc]
    have ht : (c :: rest).takeWhile (fun x => !isspace x) = c :: rest := by
      rw [List.takeWhile_eq_self_iff]
      intro x hx
      simp [hsp x hx]
    unfold fscanf_string
    rw [hd]
    simp only []
    rw [ht]

/-- C14: `set_cwd` writes the path `/tmp/my dir` (11 characters) to the file as it
is, and `update_cwd` reads it back with `fscanf( f, "%s", cwd )`, which stops at
the space: the buffer handed to `chdir` holds `/tmp/my`, not the path that was
written. The process type plays no part in the read. -/
theorem cwd_round_trip_stops_at_space :
    cwd_file (set_cwd "/tmp/my dir".toList fresh_shell).out = some "/tmp/my dir".toList ∧
      "/tmp/my dir".toList.length ≤ 254 ∧
      fscanf_string "/tmp/my dir".toList = some "/tmp/my".toList ∧
      update_cwd_buffer "/tmp/my dir".toList = "/tmp/my".toList ∧
      update_cwd_buffer "/tmp/my dir".toList ≠ "/tmp/my dir".toList := by
  decide

/-! ## The handlers when nothing can be reaped -/

theorem sigchld_handler_wait_failure (n : Notification) (p : Proc)
    (hs : p.my_process_type = PROCESS_TYPE_SHELL) (hh : p.halted = none)
    (hpid : n.child_pid = -1) :
    sigchld_handler SIGCHLD n p =
      { p with out := p.out ++ cwd_errors n.fscanf_ok n.chdir_ok ++
          [Effect.error Msg.liner_wait_error] } := by
  unfold sigchld_handler c_assert
  simp only [beq_self_eq_true, if_true, hs]
  rw [update_cwd_shell _ _ p hs hh]
  rcases p with ⟨ty, l, lle, lwe, lcp, mp, pg, ph, pf, ch, cf, tk, cl, o, ha⟩
  simp only at hs hh
  subst hs hh
  simp only [Proc.andThen, if_pos hpid, Proc.emit]

theorem sigchld_handler_for_liner_wait_failure (n : Notification) (p : Proc)
    (hl : p.my_process_type = PROCESS_TYPE_LINER) (hh : p.halted = none)
    (hpid : n.child_pid = -1) :
    (sigchld_handler_for_liner SIGCHLD n p).halted = some (Halt.exit EXIT_FAILURE) := by
  rcases p with ⟨ty, l, lle, lwe, lcp, mp, pg, ph, pf, ch, cf, tk, cl, o, ha⟩
  simp only at hl hh
  subst hl hh
  unfold sigchld_handler_for_liner c_assert
  simp only [beq_self_eq_true, if_true, if_pos hpid]
  cases n.fscanf_ok <;> cases n.chdir_ok <;>
    simp [update_cwd, Proc.andThen, Proc.emit, free_and_exit]

/-- C16 (amended): when the reap call returns -1, the handler of the shell returns
without ending the shell and leaves the job list and the flags
`last_liner_exited` and `last_worker_exited` as they were; the handler of the
liner ends the liner with `EXIT_FAILURE`. -/
theorem wait_failure_shell_resumes_liner_exits (n : Notification) (shell liner : Proc)
    (hs : shell.my_process_type = PROCESS_TYPE_SHELL) (hsh : shell.halted = none)
    (hl : liner.my_process_type = PROCESS_TYPE_LINER) (hlh : liner.halted = none)
    (hpid : n.child_pid = -1) :
    ((sigchld_handler SIGCHLD n shell).halted = none ∧
        (sigchld_handler SIGCHLD n shell).liner = shell.liner ∧
        (sigchld_handler SIGCHLD n shell).last_liner_exited = shell.last_liner_exited ∧
        (sigchld_handler SIGCHLD n shell).last_worker_exited = shell.last_worker_exited) ∧
      (sigchld_handler_for_liner SIGCHLD n liner).halted = some (Halt.exit EXIT_FAILURE) := by
  refine ⟨?_, sigchld_handler_for_liner_wait_failure n liner hl hlh hpid⟩
  rw [sigchld_handler_wait_failure n shell hs hsh hpid]
  exact ⟨hsh, rfl, rfl, rfl⟩

/-- C16, as stated, fails for the liner: its handler, run when `wait` returns -1,
ends the liner with `EXIT_FAILURE`. -/
theorem sigchld_handler_for_liner_exits_on_wait_failure :
    (sample_notification (-1) 0).child_pid = -1 ∧
      (sigchld_handler_for_liner SIGCHLD (sample_notification (-1) 0)
        (sample_liner "ls".toList)).halted = some (Halt.exit EXIT_FAILURE) ∧
      (sigchld_handler_for_liner SIGCHLD (sample_notification (-1) 0)
        (sample_liner "ls".toList)).halted ≠ none := by
  decide

theorem wait_failure_shell_resumes_liner_exits_witness :
    (sample_shell.my_process_type = PROCESS_TYPE_SHELL ∧ sample_shell.halted = none ∧
      (sample_liner "ls".toList).my_process_type = PROCESS_TYPE_LINER ∧
      (sample_liner "ls".toList).halted = none ∧ (sample_notification (-1) 0).child_pid = -1) ∧
    (((sigchld_handler SIGCHLD (sample_notification (-1) 0) sample_shell).halted = none ∧
        (sigchld_handler SIGCHLD (sample_notification (-1) 0) sample_shell).liner =
          sample_shell.liner ∧
        (sigchld_handler SIGCHLD (sample_notification (-1) 0) sample_shell).last_liner_exited =
          sample_shell.last_liner_exited ∧
        (sigchld_handler SIGCHLD (sample_notification (-1) 0) sample_shell).last_worker_exited =
          sample_shell.last_worker_exited) ∧
      (sigchld_handler_for_liner SIGCHLD (sample_notification (-1) 0)
        (sample_liner "ls".toList)).halted = some (Halt.exit EXIT_FAILURE)) :=
  ⟨⟨rfl, rfl, rfl, rfl, rfl⟩,
    wait_failure_shell_resumes_liner_exits (sample_notification (-1) 0) sample_shell
      (sample_liner "ls".toList) rfl rfl rfl rfl rfl⟩

/-! ## Recall of a command -/

theorem getD_replicate_nil (n i : Nat) :
    (List.replicate n ([] : List Char)).getD i [] = [] := by
  induction n generalizing i with
  | zero => rfl
  | succ n ih =>
    cases i with
    | zero => rfl
    | succ i => simp [List.replicate_succ]

/-- C19: on the history in which all 50 rows are empty the search loop of the
recall code finds no row to stop at, whatever number of rounds it is given and
wherever it starts; so the shell that reads `!1` (which parses to 1) as its
first line stays in that loop and never comes back to read a line. -/
theorem recall_search_never_ends_on_empty_history :
    (∀ fuel icmd,
        recall_search fuel (List.replicate MAX_COMMANDS_HISTORY_SIZE []) icmd = none) ∧
      fresh_shell.command_history = List.replicate MAX_COMMANDS_HISTORY_SIZE [] ∧
      recall_number "!1".toList = 1 ∧
      (main_iteration (shell_env 7 [] [] none) "!1\n".toList fresh_shell).halted =
        some Halt.hang := by
  refine ⟨?_, by decide, by decide, by decide⟩
  intro fuel
  induction fuel with
  | zero => intro icmd; rfl
  | succ fuel ih =>
    intro icmd
    unfold recall_search
    rw [getD_replicate_nil]
    simp only [List.length_nil, if_true]
    exact ih _

/-! ## The main loop and the job list -/

/-- C15: the shell has the background job 5 and reads `sleep 100`; `fork()` gives
liner 7, which is registered as ACTIVE; then background liner 5 exits, and its
SIGCHLD is the signal that ends `pause()`. The handler removes job 5 and
leaves `last_liner_exited` false, and the round of the main loop ends: the
shell is back at reading the next line while the job of liner 7, about which no
notification came, is still ACTIVE. -/
theorem main_reads_next_line_with_active_liner :
    get_liner_job_with_pid 7 sample_background_shell = none ∧
      (main_iteration
        (shell_env 7 [] [] (some (sample_notification 5 (W_EXITCODE 0 0))))
        "sleep 100\n".toList sample_background_shell).halted = none ∧
      (main_iteration
        (shell_env 7 [] [] (some (sample_notification 5 (W_EXITCODE 0 0))))
        "sleep 100\n".toList sample_background_shell).liner =
        [⟨7, 1, WORKER_STATE_ACTIVE⟩] ∧
      (main_iteration
        (shell_env 7 [] [] (some (sample_notification 5 (W_EXITCODE 0 0))))
        "sleep 100\n".toList sample_background_shell).last_liner_exited = false := by
  decide

/-- The registration in `main` when the exit of the new liner was handled first.
The shell has no job and reads `ls`; `fork()` gives liner 7, which runs the
command and exits with status 0. When its SIGCHLD ends `pause()`, the job list
is empty at the next line. When its SIGCHLD is handled before `main` registers
the liner, the handler adds and removes the job and sets `last_liner_exited`;
`main` then finds no job at the head of the list and adds one for liner 7, does
not pause, and reads the next line with a job for the reaped liner 7 in the
list. -/
theorem main_registers_reaped_liner :
    fresh_shell.liner = [] ∧
      (main_iteration (shell_env 7 [] [] (some (sample_notification 7 (W_EXITCODE 0 0))))
        "ls\n".toList fresh_shell).liner = [] ∧
      (main_iteration (shell_env 7 [sample_notification 7 (W_EXITCODE 0 0)] [] none)
        "ls\n".toList fresh_shell).halted = none ∧
      (main_iteration (shell_env 7 [sample_notification 7 (W_EXITCODE 0 0)] [] none)
        "ls\n".toList fresh_shell).liner = [⟨7, 1, WORKER_STATE_ACTIVE⟩] ∧
      (shell_signals [sample_notification 7 (W_EXITCODE 0 0)] fresh_shell).liner = [] ∧
      (shell_signals [sample_notification 7 (W_EXITCODE 0 0)]
        fresh_shell).last_liner_exited = true := by
  decide

/-! ## The history across rounds of the main loop -/

theorem sigchld_handler_other (n : Notification) (p : Proc)
    (hs : p.my_process_type = PROCESS_TYPE_SHELL) (hh : p.halted = none)
    (hpid : n.child_pid ≠ -1) (hc : WIFCONTINUED n.child_status = false)
    (he : WIFEXITED n.child_status = false)
    (hss : (WIFSIGNALED n.child_status || WIFSTOPPED n.child_status) = false) :
    sigchld_handler SIGCHLD n p =
      { p with
        liner := with_liner_job n.child_pid p
        out := p.out ++ cwd_errors n.fscanf_ok n.chdir_ok ++ [Effect.tcsetpgrp p.msh_pgid] } := by
  unfold sigchld_handler c_assert
  simp only [beq_self_eq_true, if_true, hs]
  rw [update_cwd_shell _ _ p hs hh]
  rcases p with ⟨ty, l, lle, lwe, lcp, mp, pg, ph, pf, ch, cf, tk, cl, o, ha⟩
  simp only at hs hh
  subst hs hh
  simp only [Proc.andThen, if_neg hpid, hc, he, hss, with_liner_job, get_liner_job_with_pid]
  cases hf : l.find? (fun a => a.pid == n.child_pid) <;>
    simp [add_liner_list_item, c_assert, Proc.emit]

/-- A run of the shell's handler that returns changes the job list, the flag
`last_liner_exited`, the pid history and the trace, and nothing else. -/
theorem sigchld_handler_frame (n : Notification) (p : Proc)
    (hs : p.my_process_type = PROCESS_TYPE_SHELL) (hh : p.halted = none)
    (hq : (sigchld_handler SIGCHLD n p).halted = none) :
    ∃ l e h f o, sigchld_handler SIGCHLD n p =
      { p with
        liner := l, last_liner_exited := e, pids_history := h, pids_history_finish := f,
        out := o } := by
  by_cases hpid : n.child_pid = -1
  · exact ⟨_, _, _, _, _, sigchld_handler_wait_failure n p hs hh hpid⟩
  by_cases hc : WIFCONTINUED n.child_status = true
  · exact ⟨_, _, _, _, _, sigchld_handler_continued n p hs hh hpid hc⟩
  have hc : WIFCONTINUED n.child_status = false := by simpa using hc
  by_cases he : WIFEXITED n.child_status = true
  · obtain ⟨e, h, f, ht⟩ := sigchld_handler_exited n p hs hh hpid hc he
    rw [ht] at hq ⊢
    rcases p with ⟨ty, l, lle, lwe, lcp, mp, pg, ph, pf, ch, cf, tk, cl, o, ha⟩
    simp only at hs hh
    subst hs hh
    by_cases h4 : WEXITSTATUS n.child_status = MSH_EXIT_ALL
    · simp [h4, free_and_exit] at hq
    · by_cases h5 : WEXITSTATUS n.child_status = MSH_EXIT_BG
      · simp only [h4, h5, if_true, if_false, get_liner_job_with_state]
        cases List.find? (fun liner_job => liner_job.state == WORKER_STATE_SUSPENDED)
          (List.eraseP (fun a => a.pid == n.child_pid) l) <;>
          exact ⟨_, _, _, _, _, rfl⟩
      · simp only [h4, h5, if_false]
        exact ⟨_, _, _, _, _, rfl⟩
  have he : WIFEXITED n.child_status = false := by simpa using he
  by_cases hss : (WIFSIGNALED n.child_status || WIFSTOPPED n.child_status) = true
  · by_cases h1 : (if WIFSIGNALED n.child_status then WTERMSIG n.child_status
        else WSTOPSIG n.child_status) = SIGCONT
    · exact ⟨_, _, _, _, _, sigchld_handler_signal_state n p hs hh hpid hc he hss _
        (Or.inl ⟨h1, rfl⟩)⟩
    by_cases h2 : (if WIFSIGNALED n.child_status then WTERMSIG n.child_status
        else WSTOPSIG n.child_status) = SIGTSTP
    · exact ⟨_, _, _, _, _, sigchld_handler_signal_state n p hs hh hpid hc he hss _
        (Or.inr ⟨h2, rfl⟩)⟩
    obtain ⟨e, h, f, ht⟩ := sigchld_handler_removed n p hs hh hpid hc he hss h1 h2
    exact ⟨_, _, _, _, _, ht⟩
  · have hss : (WIFSIGNALED n.child_status || WIFSTOPPED n.child_status) = false := by
      simpa using hss
    exact ⟨_, _, _, _, _, sigchld_handler_other n p hs hh hpid hc he hss⟩

theorem shell_signals_frame (ns : List Notification) (p : Proc)
    (hs : p.my_process_type = PROCESS_TYPE_SHELL) (hh : p.halted = none)
    (hq : (shell_signals ns p).halted = none) :
    ∃ l e h f o, shell_signals ns p =
      { p with
        liner := l, last_liner_exited := e, pids_history := h, pids_history_finish := f,
        out := o } := by
  induction ns generalizing p with
  | nil => exact ⟨_, _, _, _, _, rfl⟩
  | cons n ns ih =>
    unfold shell_signals at hq ⊢
    obtain ⟨h1, h2⟩ := andThen_running _ _ hq
    rw [h2] at hq ⊢
    obtain ⟨l, e, h, f, o, hn⟩ := sigchld_handler_frame n p hs hh h1
    rw [hn] at hq h1 ⊢
    obtain ⟨l2, e2, h2, f2, o2, hn2⟩ := ih
      { p with
        liner := l, last_liner_exited := e, pids_history := h, pids_history_finish := f,
        out := o } hs h1 hq
    rw [hn2]
    exact ⟨_, _, _, _, _, rfl⟩

theorem sigchld_handler_type (n : Notification) (p : Proc)
    (hs : p.my_process_type = PROCESS_TYPE_SHELL) (hh : p.halted = none)
    (hq : (sigchld_handler SIGCHLD n p).halted = none) :
    (sigchld_handler SIGCHLD n p).my_process_type = PROCESS_TYPE_SHELL := by
  obtain ⟨l, e, h, f, o, hn⟩ := sigchld_handler_frame n p hs hh hq
  rw [hn]
  exact hs

theorem shell_signals_type (ns : List Notification) (p : Proc)
    (hs : p.my_process_type = PROCESS_TYPE_SHELL) (hh : p.halted = none)
    (hq : (shell_signals ns p).halted = none) :
    (shell_signals ns p).my_process_type = PROCESS_TYPE_SHELL := by
  obtain ⟨l, e, h, f, o, hn⟩ := shell_signals_frame ns p hs hh hq
  rw [hn]
  exact hs

theorem main_recall_typed (cmd_str : List Char) (p : Proc) (ht : typed_line cmd_str = true)
    (hp : p.cmd_line = main_normalize cmd_str) : main_recall p = p := by
  unfold main_recall
  simp only [typed_line, Bool.and_eq_true, decide_eq_true_eq, Bool.not_eq_true',
    Bool.and_eq_false_imp, beq_eq_false_iff_ne, ne_eq] at ht
  rw [hp]
  rw [if_neg]
  rintro ⟨h1, h2, h3⟩
  exact ht.2 ⟨h1, h2⟩ h3

theorem add_pid_to_history_shell (c : Int) (p : Proc)
    (hs : p.my_process_type = PROCESS_TYPE_SHELL) :
    add_pid_to_history c p =
      { p with
        pids_history := p.pids_history.set p.pids_history_finish c
        pids_history_finish := (p.pids_history_finish + 1) % MAX_PIDS_HISTORY_SIZE } := by
  unfold add_pid_to_history c_assert
  simp only [hs, beq_self_eq_true, if_true]

theorem shell_frame_refl (p : Proc) : shell_frame p p := ⟨_, _, _, _, _, rfl⟩

theorem shell_frame_trans (p q r : Proc) (h1 : shell_frame p q) (h2 : shell_frame q r) :
    shell_frame p r := by
  obtain ⟨l, e, h, f, o, rfl⟩ := h1
  obtain ⟨l2, e2, h2, f2, o2, rfl⟩ := h2
  exact ⟨_, _, _, _, _, rfl⟩

theorem shell_frame_facts (p q : Proc) (h : shell_frame p q) :
    q.my_process_type = p.my_process_type ∧ q.halted = p.halted := by
  obtain ⟨l, e, h, f, o, rfl⟩ := h
  exact ⟨rfl, rfl⟩

theorem add_liner_list_item_frame (c : Int) (p : Proc)
    (hs : p.my_process_type = PROCESS_TYPE_SHELL) :
    shell_frame p (add_liner_list_item c p) := by
  rcases p with ⟨ty, l, lle, lwe, lcp, mp, pg, ph, pf, ch, cf, tk, cl, o, ha⟩
  simp only at hs
  subst hs
  unfold add_liner_list_item c_assert
  simp only [beq_self_eq_true, if_true]
  exact ⟨_, _, _, _, _, rfl⟩

theorem main_pause_frame (racing : List Notification) (during : Option Notification)
    (p : Proc) (hs : p.my_process_type = PROCESS_TYPE_SHELL) (hh : p.halted = none)
    (hq : (main_pause racing during p).halted = none) :
    shell_frame p (main_pause racing during p) := by
  unfold main_pause at hq ⊢
  by_cases hl : p.last_liner_exited = true
  · simp only [hl, Bool.not_true, Bool.false_eq_true, if_false]
    exact shell_frame_refl p
  · have hl : p.last_liner_exited = false := by simpa using hl
    simp only [hl, Bool.not_false, if_true] at hq ⊢
    obtain ⟨h1, e1⟩ := andThen_running _ _ hq
    rw [e1] at hq ⊢
    clear e1
    have f1 : shell_frame p (shell_signals racing p) := shell_signals_frame racing p hs hh h1
    have t1 := shell_signals_type racing p hs hh h1
    generalize shell_signals racing p = s1 at hq h1 f1 t1 ⊢
    cases during with
    | none => simp at hq
    | some n => exact shell_frame_trans _ _ _ f1 (sigchld_handler_frame n s1 t1 h1 hq)

/-- The branch of the shell after `fork()`, when it comes back to the main loop,
changed the job list, the flag `last_liner_exited`, the pid history and the
trace, and nothing else. -/
theorem main_parent_frame (env : LineEnv) (p : Proc)
    (hs : p.my_process_type = PROCESS_TYPE_SHELL) (hh : p.halted = none)
    (hq : (main_parent env p).halted = none) :
    ∃ l e h f o, main_parent env p =
      { p with
        liner := l, last_liner_exited := e, pids_history := h, pids_history_finish := f,
        out := o } := by
  show shell_frame p (main_parent env p)
  unfold main_parent at hq ⊢
  simp only [] at hq ⊢
  obtain ⟨h1, e1⟩ := andThen_running _ _ hq
  rw [e1] at hq ⊢
  clear e1
  have f1 : shell_frame p (shell_signals env.before p) :=
    shell_signals_frame env.before p hs hh h1
  have t1 := shell_signals_type env.before p hs hh h1
  generalize shell_signals env.before p = s1 at hq h1 f1 t1 ⊢
  have fa : shell_frame s1 (add_pid_to_history env.fork_result s1) := by
    rw [add_pid_to_history_shell _ _ t1]
    exact ⟨_, _, _, _, _, rfl⟩
  have ta := (shell_frame_facts _ _ fa).1.trans t1
  have ha := (shell_frame_facts _ _ fa).2.trans h1
  generalize add_pid_to_history env.fork_result s1 = a at hq fa ta ha ⊢
  rw [andThen_of_running _ _ ha] at hq ⊢
  obtain ⟨h2, e2⟩ := andThen_running _ _ hq
  rw [e2] at hq ⊢
  clear e2
  have f2 : shell_frame a (shell_signals env.logged a) :=
    shell_signals_frame env.logged a ta ha h2
  have t2 := shell_signals_type env.logged a ta ha h2
  generalize shell_signals env.logged a = s2 at hq h2 f2 t2 ⊢
  simp only [c_assert, t2, beq_self_eq_true, if_true] at hq ⊢
  generalize main_already_created env.fork_result s2 = ac at hq ⊢
  obtain ⟨h3, e3⟩ := andThen_running _ _ hq
  rw [e3] at hq ⊢
  clear e3
  have f3 : shell_frame s2 (shell_signals env.within s2) :=
    shell_signals_frame env.within s2 t2 h2 h3
  have t3 := shell_signals_type env.within s2 t2 h2 h3
  generalize shell_signals env.within s2 = s3 at hq h3 f3 t3 ⊢
  have fr : shell_frame s3 (if ac = true then s3 else add_liner_list_item env.fork_result s3) := by
    split
    · exact shell_frame_refl s3
    · exact add_liner_list_item_frame _ _ t3
  have tr := (shell_frame_facts _ _ fr).1.trans t3
  have hr := (shell_frame_facts _ _ fr).2.trans h3
  generalize (if ac = true then s3 else add_liner_list_item env.fork_result s3) = r
    at hq fr tr hr ⊢
  rw [andThen_of_running _ (shell_signals env.between) hr] at hq ⊢
  obtain ⟨h4, e4⟩ := andThen_running _ _ hq
  rw [e4] at hq ⊢
  clear e4
  have f4 : shell_frame r (shell_signals env.between r) :=
    shell_signals_frame env.between r tr hr h4
  have t4 := shell_signals_type env.between r tr hr h4
  generalize shell_signals env.between r = s4 at hq h4 f4 t4 ⊢
  have f5 := main_pause_frame env.racing env.during s4 t4 h4 hq
  exact shell_frame_trans _ _ _ f1 (shell_frame_trans _ _ _ fa (shell_frame_trans _ _ _ f2
    (shell_frame_trans _ _ _ f3 (shell_frame_trans _ _ _ fr (shell_frame_trans _ _ _ f4 f5)))))

/-- A round of the main loop on a line that is run as typed, followed in the
shell until it is back at the top of the loop: the line went to the row
`command_history_finish` of the history; apart from the history only the job
list, the flag `last_liner_exited`, the pid history and the trace changed. -/
theorem main_iteration_in_shell (env : LineEnv) (cmd_str : List Char) (p : Proc)
    (hs : p.my_process_type = PROCESS_TYPE_SHELL) (hh : p.halted = none)
    (ht : typed_line cmd_str = true) (hf : env.fork_result ≠ 0)
    (hq : (main_iteration env cmd_str p).halted = none) :
    ∃ l e h f o, main_iteration env cmd_str p =
      { p with
        liner := l, last_liner_exited := e, pids_history := h, pids_history_finish := f,
        out := o, tokens := [], cmd_line := []
        command_history := p.command_history.set p.command_history_finish
          (main_normalize cmd_str)
        command_history_finish := (p.command_history_finish + 1) % MAX_COMMANDS_HISTORY_SIZE } := by
  have hlen : 0 < (main_normalize cmd_str).length := by
    simp only [typed_line, Bool.and_eq_true, decide_eq_true_eq] at ht
    exact ht.1.1
  unfold main_iteration at hq ⊢
  obtain ⟨h1, e1⟩ := andThen_running _ _ hq
  rw [e1] at hq ⊢
  clear e1
  obtain ⟨l0, e0, h0, f0, o0, hn0⟩ := shell_signals_frame env.idle p hs hh h1
  rw [hn0] at hq ⊢
  clear hn0 h1
  rcases p with ⟨ty, l, lle, lwe, lcp, mp, pg, ph, pf, ch, cf, tk, cl, o, ha⟩
  simp only at hs hh
  subst hs hh
  simp only [] at hq ⊢
  rw [main_recall_typed cmd_str _ ht rfl] at hq ⊢
  rw [andThen_of_running _ _ rfl] at hq ⊢
  obtain ⟨h2, e2⟩ := andThen_running _ _ hq
  rw [e2]
  clear e2 hq
  unfold main_run_line at h2 ⊢
  simp only [hlen, if_true, if_neg hf, main_save_history, Proc.emit] at h2 ⊢
  obtain ⟨l3, e3, h3, f3, o3, hn3⟩ := main_parent_frame env _ rfl rfl h2
  rw [hn3]
  exact ⟨_, _, _, _, _, rfl⟩

theorem typed_line_history (cmd_str : List Char)
    (hn : main_normalize cmd_str = "history".toList) : typed_line cmd_str = true := by
  unfold typed_line
  rw [hn]
  decide

/-- The round of the main loop for the line `history`, followed into the liner and
from there into the worker, when rows 0 to 2 of the history are used. -/
theorem main_iteration_history (env : LineEnv) (cmd_str n1 n2 n3 : List Char) (p : Proc)
    (hs : p.my_process_type = PROCESS_TYPE_SHELL) (hh : p.halted = none)
    (hidle : (shell_signals env.idle p).halted = none)
    (hn : main_normalize cmd_str = "history".toList)
    (hf : env.fork_result = 0) (hw : (env.runs 0).fork_result = 0)
    (h1 : 0 < n1.length) (h2 : 0 < n2.length) (h3 : 0 < n3.length)
    (htk : p.tokens = [])
    (hc : p.command_history = n1 :: n2 :: n3 :: List.replicate 47 [])
    (hcf : p.command_history_finish = 3) :
    (main_iteration env cmd_str p).my_process_type = PROCESS_TYPE_WORKER ∧
    (main_iteration env cmd_str p).halted = some (Halt.exit EXIT_SUCCESS) ∧
    (main_iteration env cmd_str p).out = (shell_signals env.idle p).out ++
      [Effect.fork_liner "history".toList 0, Effect.fork ["history".toList] 0,
        Effect.print_command 1 n1, Effect.print_command 2 n2, Effect.print_command 3 n3,
        Effect.print_command 4 "history".toList] := by
  unfold main_iteration
  rw [andThen_of_running _ _ hidle]
  obtain ⟨l0, e0, h0, f0, o0, hn0⟩ := shell_signals_frame env.idle p hs hh hidle
  rw [hn0]
  clear hn0 hidle
  rcases p with ⟨ty, l, lle, lwe, lcp, mp, pg, ph, pf, ch, cf, tk, cl, o, ha⟩
  simp only at hs hh htk hc hcf
  subst hs hh htk hc hcf
  simp only []
  rw [main_recall_typed cmd_str _ (typed_line_history cmd_str hn) rfl]
  rw [andThen_of_running _ _ rfl]
  rw [hn]
  simp [main_run_line, main_save_history, Proc.emit, hf, main_child, free_liner_list, run_liner,
    c_assert, run_liner_loop, run_liner_token, MAX_NUM_ARGUMENTS, run_liner_finish, start_worker,
    hw, run_worker, List.replicate, MAX_COMMANDS_HISTORY_SIZE, history_loop, List.getD, h1, h2,
    h3, Proc.andThen, free_and_exit, free_all_resources, free_current_input_resources,
    EXIT_SUCCESS]

theorem main_loop_three (a b c : LineEnv × List Char) (p : Proc)
    (hq : (main_loop [a, b, c] p).halted = none) :
    (main_iteration a.1 a.2 p).halted = none ∧
    (main_iteration b.1 b.2 (main_iteration a.1 a.2 p)).halted = none ∧
    main_loop [a, b, c] p =
      main_iteration c.1 c.2 (main_iteration b.1 b.2 (main_iteration a.1 a.2 p)) := by
  rcases a with ⟨ea, ra⟩
  rcases b with ⟨eb, rb⟩
  rcases c with ⟨ec, rc⟩
  simp only [main_loop] at hq ⊢
  obtain ⟨h1, e1⟩ := andThen_running _ _ hq
  rw [e1] at hq ⊢
  obtain ⟨h2, e2⟩ := andThen_running _ _ hq
  rw [e2] at hq ⊢
  obtain ⟨h3, e3⟩ := andThen_running _ _ hq
  rw [e3]
  exact ⟨h1, h2, rfl⟩

/-- C13 (amended): three lines that are run as typed are entered into a shell
whose command history is empty, and each round brings the shell back to the
main loop; when `history` is entered as the next line, the worker that runs the
built-in prints exactly four lines: the normalized text of the three lines,
oldest first, numbered 1, 2 and 3, and then the line `history` itself,
numbered 4; it ends with `EXIT_SUCCESS`. -/
theorem history_prints_lines_and_itself (e1 e2 e3 e4 : LineEnv) (r1 r2 r3 r4 : List Char)
    (p : Proc)
    (hs : p.my_process_type = PROCESS_TYPE_SHELL) (hh : p.halted = none)
    (hempty : p.command_history = List.replicate MAX_COMMANDS_HISTORY_SIZE [])
    (hfin : p.command_history_finish = 0)
    (ht1 : typed_line r1 = true) (ht2 : typed_line r2 = true) (ht3 : typed_line r3 = true)
    (hf1 : e1.fork_result ≠ 0) (hf2 : e2.fork_result ≠ 0) (hf3 : e3.fork_result ≠ 0)
    (hq : (main_loop [(e1, r1), (e2, r2), (e3, r3)] p).halted = none)
    (hidle : (shell_signals e4.idle (main_loop [(e1, r1), (e2, r2), (e3, r3)] p)).halted = none)
    (hn : main_normalize r4 = "history".toList)
    (hf4 : e4.fork_result = 0) (hw : (e4.runs 0).fork_result = 0) :
    (main_iteration e4 r4 (main_loop [(e1, r1), (e2, r2), (e3, r3)] p)).my_process_type =
      PROCESS_TYPE_WORKER ∧
    (main_iteration e4 r4 (main_loop [(e1, r1), (e2, r2), (e3, r3)] p)).halted =
      some (Halt.exit EXIT_SUCCESS) ∧
    emitted (shell_signals e4.idle (main_loop [(e1, r1), (e2, r2), (e3, r3)] p))
        (main_iteration e4 r4 (main_loop [(e1, r1), (e2, r2), (e3, r3)] p)) =
      [Effect.fork_liner "history".toList 0, Effect.fork ["history".toList] 0,
        Effect.print_command 1 (main_normalize r1), Effect.print_command 2 (main_normalize r2),
        Effect.print_command 3 (main_normalize r3),
        Effect.print_command 4 "history".toList] := by
  have hl : ∀ r, typed_line r = true → 0 < (main_normalize r).length := by
    intro r ht
    simp only [typed_line, Bool.and_eq_true, decide_eq_true_eq] at ht
    exact ht.1.1
  obtain ⟨hq1, hq2, e⟩ := main_loop_three (e1, r1) (e2, r2) (e3, r3) p hq
  simp only [] at hq1 hq2 e
  rw [e] at hq hidle ⊢
  clear e
  rcases p with ⟨ty, l, lle, lwe, lcp, mp, pg, ph, pf, ch, cf, tk, cl, o, ha⟩
  simp only at hs hh hempty hfin
  subst hs hh hempty hfin
  obtain ⟨l1, b1, h1, f1, o1, g1⟩ := main_iteration_in_shell e1 r1 _ rfl rfl ht1 hf1 hq1
  rw [g1] at hq hq2 hidle ⊢
  clear g1 hq1
  simp only [] at hq hq2 hidle ⊢
  obtain ⟨l2, b2, h2, f2, o2, g2⟩ := main_iteration_in_shell e2 r2
    ⟨PROCESS_TYPE_SHELL, l1, b1, lwe, lcp, mp, pg, h1, f1,
      (List.replicate MAX_COMMANDS_HISTORY_SIZE []).set 0 (main_normalize r1),
      (0 + 1) % MAX_COMMANDS_HISTORY_SIZE, [], [], o1, none⟩ rfl rfl ht2 hf2 hq2
  rw [g2] at hq hidle ⊢
  clear g2 hq2
  simp only [] at hq hidle ⊢
  obtain ⟨l3, b3, h3, f3, o3, g3⟩ := main_iteration_in_shell e3 r3
    ⟨PROCESS_TYPE_SHELL, l2, b2, lwe, lcp, mp, pg, h2, f2,
      ((List.replicate MAX_COMMANDS_HISTORY_SIZE []).set 0 (main_normalize r1)).set
        ((0 + 1) % MAX_COMMANDS_HISTORY_SIZE) (main_normalize r2),
      ((0 + 1) % MAX_COMMANDS_HISTORY_SIZE + 1) % MAX_COMMANDS_HISTORY_SIZE, [], [], o2, none⟩
    rfl rfl ht3 hf3 hq
  rw [g3] at hidle ⊢
  clear g3 hq
  simp only [] at hidle ⊢
  obtain ⟨w1, w2, w3⟩ := main_iteration_history e4 r4 (main_normalize r1) (main_normalize r2)
    (main_normalize r3) _ rfl rfl hidle hn hf4 hw (hl r1 ht1) (hl r2 ht2) (hl r3 ht3) rfl rfl rfl
  exact ⟨w1, w2, emitted_append _ _ _ w3⟩

/-- C13 as stated fails: after the lines `a`, `b  b` and `c;d`, the worker that
runs `history` prints four lines, the fourth being `4: history`. -/
theorem history_prints_itself :
    emitted (main_loop sample_lines fresh_shell)
        (main_iteration child_env "history\n".toList (main_loop sample_lines fresh_shell)) =
      [Effect.fork_liner "history".toList 0, Effect.fork ["history".toList] 0,
        Effect.print_command 1 "a".toList, Effect.print_command 2 "b b".toList,
        Effect.print_command 3 "c ; d".toList, Effect.print_command 4 "history".toList] := by
  decide

theorem history_prints_lines_and_itself_witness :
    (fresh_shell.my_process_type = PROCESS_TYPE_SHELL ∧ fresh_shell.halted = none ∧
      fresh_shell.command_history = List.replicate MAX_COMMANDS_HISTORY_SIZE [] ∧
      fresh_shell.command_history_finish = 0 ∧
      typed_line "a\n".toList = true ∧ typed_line "b  b\n".toList = true ∧
      typed_line "c;d\n".toList = true ∧
      (sample_round 7).fork_result ≠ 0 ∧ (sample_round 8).fork_result ≠ 0 ∧
      (sample_round 9).fork_result ≠ 0 ∧
      (main_loop sample_lines fresh_shell).halted = none ∧
      (shell_signals child_env.idle (main_loop sample_lines fresh_shell)).halted = none ∧
      main_normalize "history\n".toList = "history".toList ∧
      child_env.fork_result = 0 ∧ (child_env.runs 0).fork_result = 0) ∧
    ((main_iteration child_env "history\n".toList
        (main_loop sample_lines fresh_shell)).my_process_type = PROCESS_TYPE_WORKER ∧
    (main_iteration child_env "history\n".toList
        (main_loop sample_lines fresh_shell)).halted = some (Halt.exit EXIT_SUCCESS) ∧
    emitted (shell_signals child_env.idle (main_loop sample_lines fresh_shell))
        (main_iteration child_env "history\n".toList (main_loop sample_lines fresh_shell)) =
      [Effect.fork_liner "history".toList 0, Effect.fork ["history".toList] 0,
        Effect.print_command 1 (main_normalize "a\n".toList),
        Effect.print_command 2 (main_normalize "b  b\n".toList),
        Effect.print_command 3 (main_normalize "c;d\n".toList),
        Effect.print_command 4 "history".toList]) :=
  ⟨by decide,
    history_prints_lines_and_itself (sample_round 7) (sample_round 8) (sample_round 9) child_env
      "a\n".toList "b  b\n".toList "c;d\n".toList "history\n".toList fresh_shell
      (by decide) (by decide) (by decide) (by decide) (by decide) (by decide) (by decide)
      (by decide) (by decide) (by decide) (by decide) (by decide) (by decide) (by decide)
      (by decide)⟩

/-! ## The job list and the liners that are alive -/

theorem map_pid_eraseP (c : Int) (l : List liner_job_t) :
    (l.eraseP (fun a => a.pid == c)).map (fun a => a.pid) = (l.map (fun a => a.pid)).erase c := by
  induction l with
  | nil => rfl
  | cons a l ih =>
    by_cases hc : a.pid = c
    · have h1 : (a.pid == c) = true := by simpa using hc
      simp [List.eraseP_cons, h1, List.erase_cons, hc]
    · have h1 : (a.pid == c) = false := by simpa using hc
      simp [List.eraseP_cons, h1, List.erase_cons, hc, ih]

theorem map_pid_set_liner_job_state (c : Int) (st : worker_state_t) (l : List liner_job_t) :
    (set_liner_job_state c st l).map (fun a => a.pid) = l.map (fun a => a.pid) := by
  induction l with
  | nil => rfl
  | cons a l ih =>
    unfold set_liner_job_state
    by_cases hc : a.pid = c
    · simp [hc]
    · simp [hc, ih]

theorem map_pid_with_liner_job (c : Int) (p : Proc) :
    (with_liner_job c p).map (fun a => a.pid) =
      if c ∈ job_pids p then job_pids p else c :: job_pids p := by
  unfold with_liner_job get_liner_job_with_pid job_pids
  cases hf : p.liner.find? (fun a => a.pid == c) with
  | some j =>
    have hm : c ∈ p.liner.map (fun a => a.pid) := by
      have h1 := List.mem_of_find?_eq_some hf
      have h2 := List.find?_some hf
      simp only [beq_iff_eq] at h2
      exact h2 ▸ List.mem_map_of_mem (fun a => a.pid) h1
    simp [hm]
  | none =>
    have hm : c ∉ p.liner.map (fun a => a.pid) := by
      intro hm
      obtain ⟨a, ha, hac⟩ := List.mem_map.mp hm
      have := List.find?_eq_none.mp hf a ha
      simp [hac] at this
    simp [hm]

/-- The pids in the job list after a run of the shell's handler that returns. -/
theorem sigchld_handler_job_pids (n : Notification) (p : Proc)
    (hs : p.my_process_type = PROCESS_TYPE_SHELL) (hh : p.halted = none)
    (hk : (WIFSIGNALED n.child_status &&
      (decide (WTERMSIG n.child_status = SIGCONT) ||
        decide (WTERMSIG n.child_status = SIGTSTP))) = false)
    (hq : (sigchld_handler SIGCHLD n p).halted = none) :
    job_pids (sigchld_handler SIGCHLD n p) =
      if n.child_pid = -1 then job_pids p
      else if reaped n || stopped_unexpectedly n then (job_pids p).erase n.child_pid
      else if n.child_pid ∈ job_pids p then job_pids p
      else n.child_pid :: job_pids p := by
  by_cases hpid : n.child_pid = -1
  · rw [sigchld_handler_wait_failure n p hs hh hpid, if_pos hpid]
    rfl
  rw [if_neg hpid]
  by_cases hc : WIFCONTINUED n.child_status = true
  · rw [sigchld_handler_continued n p hs hh hpid hc]
    have h9 : n.child_status = 0xffff := by simpa [WIFCONTINUED] using hc
    have hr : (reaped n || stopped_unexpectedly n) = false := by
      have h1 : WIFEXITED 0xffff = false := by decide
      have h2 : WIFSIGNALED 0xffff = false := by decide
      have h3 : WIFSTOPPED 0xffff = false := by decide
      simp [reaped, stopped_unexpectedly, h9, h1, h2, h3]
    rw [hr]
    simp only [job_pids, map_pid_set_liner_job_state, map_pid_with_liner_job,
      Bool.false_eq_true, if_false]
  have hc : WIFCONTINUED n.child_status = false := by simpa using hc
  have hpd : decide (n.child_pid ≠ -1) = true := by simpa using hpid
  by_cases he : WIFEXITED n.child_status = true
  · obtain ⟨e, h, f, ht⟩ := sigchld_handler_exited n p hs hh hpid hc he
    rw [ht] at hq ⊢
    have hr : (reaped n || stopped_unexpectedly n) = true := by
      simp [reaped, hpd, he]
    rw [hr, if_pos rfl]
    beta_reduce at hq ⊢
    by_cases h4 : WEXITSTATUS n.child_status = MSH_EXIT_ALL
    · rw [if_pos h4] at hq
      simp [free_and_exit] at hq
    · rw [if_neg h4]
      by_cases h5 : WEXITSTATUS n.child_status = MSH_EXIT_BG
      · rw [if_pos h5]
        simp only [get_liner_job_with_state]
        cases List.find? (fun liner_job => liner_job.state == WORKER_STATE_SUSPENDED)
          (List.eraseP (fun a => a.pid == n.child_pid) p.liner) <;>
          simp only [job_pids, Proc.emit, map_pid_eraseP]
      · rw [if_neg h5]
        simp only [job_pids, Proc.emit, map_pid_eraseP]
  have he : WIFEXITED n.child_status = false := by simpa using he
  by_cases hss : (WIFSIGNALED n.child_status || WIFSTOPPED n.child_status) = true
  · by_cases hsg : WIFSIGNALED n.child_status = true
    · have hk1 : WTERMSIG n.child_status ≠ SIGCONT := by
        intro h
        simp [hsg, h] at hk
      have hk2 : WTERMSIG n.child_status ≠ SIGTSTP := by
        intro h
        simp [hsg, h] at hk
      obtain ⟨e, h, f, ht⟩ := sigchld_handler_removed n p hs hh hpid hc he hss
        (by rw [if_pos hsg]; exact hk1) (by rw [if_pos hsg]; exact hk2)
      rw [ht]
      have hr : (reaped n || stopped_unexpectedly n) = true := by
        simp [reaped, hpd, hsg]
      rw [hr, if_pos rfl]
      simp only [job_pids, map_pid_eraseP]
    · have hsg : WIFSIGNALED n.child_status = false := by simpa using hsg
      have hst : WIFSTOPPED n.child_status = true := by simpa [hsg] using hss
      have hsig : (if WIFSIGNALED n.child_status then WTERMSIG n.child_status
          else WSTOPSIG n.child_status) = WSTOPSIG n.child_status := by
        simp [hsg]
      by_cases h1 : WSTOPSIG n.child_status = SIGCONT
      · rw [sigchld_handler_signal_state n p hs hh hpid hc he hss _
          (Or.inl ⟨hsig.trans h1, rfl⟩)]
        have hr : (reaped n || stopped_unexpectedly n) = false := by
          simp [reaped, stopped_unexpectedly, he, hsg, h1]
        rw [hr]
        simp only [job_pids, map_pid_set_liner_job_state, map_pid_with_liner_job,
          Bool.false_eq_true, if_false]
      by_cases h2 : WSTOPSIG n.child_status = SIGTSTP
      · rw [sigchld_handler_signal_state n p hs hh hpid hc he hss _
          (Or.inr ⟨hsig.trans h2, rfl⟩)]
        have hr : (reaped n || stopped_unexpectedly n) = false := by
          simp [reaped, stopped_unexpectedly, he, hsg, h2]
        rw [hr]
        simp only [job_pids, map_pid_set_liner_job_state, map_pid_with_liner_job,
          Bool.false_eq_true, if_false]
      obtain ⟨e, h, f, ht⟩ := sigchld_handler_removed n p hs hh hpid hc he hss
        (by rw [hsig]; exact h1) (by rw [hsig]; exact h2)
      rw [ht]
      have hr : (reaped n || stopped_unexpectedly n) = true := by
        simp [stopped_unexpectedly, hpd, hst, h1, h2]
      rw [hr, if_pos rfl]
      simp only [job_pids, map_pid_eraseP]
  · have hss : (WIFSIGNALED n.child_status || WIFSTOPPED n.child_status) = false := by
      simpa using hss
    rw [sigchld_handler_other n p hs hh hpid hc he hss]
    have hsg : WIFSIGNALED n.child_status = false := by
      cases h : WIFSIGNALED n.child_status
      · rfl
      · simp [h] at hss
    have hst : WIFSTOPPED n.child_status = false := by
      cases h : WIFSTOPPED n.child_status
      · rfl
      · simp [h] at hss
    have hr : (reaped n || stopped_unexpectedly n) = false := by
      simp [reaped, stopped_unexpectedly, he, hsg, hst]
    rw [hr]
    simp only [job_pids, map_pid_with_liner_job, Bool.false_eq_true, if_false]

theorem live_after_nodup (n : Notification) (live : List Int) (hnd : live.Nodup) :
    (live_after n live).Nodup := by
  unfold live_after
  split
  · exact hnd.erase _
  · exact hnd

theorem live_after_all_nodup (ns : List Notification) (live : List Int) (hnd : live.Nodup) :
    (live_after_all ns live).Nodup := by
  induction ns generalizing live with
  | nil => exact hnd
  | cons n ns ih => exact ih _ (live_after_nodup n live hnd)

theorem live_after_subset (n : Notification) (live : List Int) (x : Int)
    (hx : x ∈ live_after n live) : x ∈ live := by
  unfold live_after at hx
  split at hx
  · exact List.mem_of_mem_erase hx
  · exact hx

theorem live_after_all_subset (ns : List Notification) (live : List Int) (x : Int)
    (hx : x ∈ live_after_all ns live) : x ∈ live := by
  induction ns generalizing live with
  | nil => exact hx
  | cons n ns ih => exact live_after_subset n live x (ih _ hx)

/-- One run of the shell's handler keeps the job list equal to the list of the
liners that are alive. -/
theorem sigchld_handler_live (n : Notification) (p : Proc) (live : List Int)
    (hs : p.my_process_type = PROCESS_TYPE_SHELL) (hh : p.halted = none)
    (hinv : job_pids p = live) (hok : notification_ok n live = true)
    (hq : (sigchld_handler SIGCHLD n p).halted = none) :
    job_pids (sigchld_handler SIGCHLD n p) = live_after n live := by
  simp only [notification_ok, Bool.and_eq_true, Bool.not_eq_true', Bool.or_eq_true,
    decide_eq_true_eq] at hok
  rw [sigchld_handler_job_pids n p hs hh hok.1 hq, hinv]
  unfold live_after
  by_cases hpid : n.child_pid = -1
  · have hr : (reaped n || stopped_unexpectedly n) = false := by
      simp [reaped, stopped_unexpectedly, hpid]
    rw [if_pos hpid, hr]
    rfl
  rw [if_neg hpid]
  by_cases he : (reaped n || stopped_unexpectedly n) = true
  · rw [if_pos he, if_pos he]
  · rw [if_neg he, if_neg he]
    have hm : n.child_pid ∈ live := by
      rcases hok.2 with (h | h) | h
      · exact absurd h hpid
      · exact h
      · simp [h] at he
    rw [if_pos hm]

/-- The handler runs for the notifications `ns`, outside the window between
`fork()` and the registration of a job, keep the job list equal to the list of
the liners that are alive. -/
theorem shell_signals_live (ns : List Notification) (p : Proc) (live : List Int)
    (hs : p.my_process_type = PROCESS_TYPE_SHELL) (hh : p.halted = none)
    (hinv : job_pids p = live) (hok : notifications_ok ns live = true)
    (hq : (shell_signals ns p).halted = none) :
    job_pids (shell_signals ns p) = live_after_all ns live := by
  induction ns generalizing p live with
  | nil => exact hinv
  | cons n ns ih =>
    simp only [notifications_ok, Bool.and_eq_true] at hok
    unfold shell_signals at hq ⊢
    obtain ⟨h1, e1⟩ := andThen_running _ _ hq
    rw [e1] at hq ⊢
    exact ih (sigchld_handler SIGCHLD n p) (live_after n live)
      (sigchld_handler_type n p hs hh h1) h1
      (sigchld_handler_live n p live hs hh hinv hok.1 h1) hok.2 hq

/-- One run of the shell's handler in the window between `fork()` and the
registration of the job of the new liner `c`: the job list holds the liners that
are alive, with or without `c`, which is the first of them. -/
theorem sigchld_handler_window (n : Notification) (p : Proc) (c : Int) (live : List Int)
    (hs : p.my_process_type = PROCESS_TYPE_SHELL) (hh : p.halted = none)
    (hhead : ∃ rest, live = c :: rest)
    (hrel : job_pids p = live ∨ (live = c :: job_pids p ∧ c ∉ job_pids p))
    (hok : notification_ok n live = true)
    (hnr : n.child_pid = c → (reaped n || stopped_unexpectedly n) = false)
    (hq : (sigchld_handler SIGCHLD n p).halted = none) :
    (∃ rest, live_after n live = c :: rest) ∧
    (job_pids (sigchld_handler SIGCHLD n p) = live_after n live ∨
      (live_after n live = c :: job_pids (sigchld_handler SIGCHLD n p) ∧
        c ∉ job_pids (sigchld_handler SIGCHLD n p))) := by
  obtain ⟨rest, hrest⟩ := hhead
  have hne : (reaped n || stopped_unexpectedly n) = true → ¬ c = n.child_pid := by
    intro he hc
    rw [hnr hc.symm] at he
    cases he
  constructor
  · unfold live_after
    by_cases he : (reaped n || stopped_unexpectedly n) = true
    · rw [if_pos he, hrest, List.erase_cons_tail (by simpa using hne he)]
      exact ⟨_, rfl⟩
    · rw [if_neg he]
      exact ⟨_, hrest⟩
  · rcases hrel with hrel | ⟨hrel, hcn⟩
    · exact Or.inl (sigchld_handler_live n p live hs hh hrel hok hq)
    · simp only [notification_ok, Bool.and_eq_true, Bool.not_eq_true', Bool.or_eq_true,
        decide_eq_true_eq] at hok
      rw [sigchld_handler_job_pids n p hs hh hok.1 hq]
      unfold live_after
      by_cases hpid : n.child_pid = -1
      · have hr : (reaped n || stopped_unexpectedly n) = false := by
          simp [reaped, stopped_unexpectedly, hpid]
        rw [if_pos hpid, hr]
        exact Or.inr ⟨hrel, hcn⟩
      rw [if_neg hpid]
      by_cases he : (reaped n || stopped_unexpectedly n) = true
      · rw [if_pos he, if_pos he]
        refine Or.inr ⟨?_, fun hm => hcn (List.mem_of_mem_erase hm)⟩
        rw [hrel, List.erase_cons_tail (by simpa using hne he)]
      · rw [if_neg he, if_neg he]
        by_cases hm : n.child_pid ∈ job_pids p
        · rw [if_pos hm]
          exact Or.inr ⟨hrel, hcn⟩
        · rw [if_neg hm]
          have hmem : n.child_pid ∈ live := by
            rcases hok.2 with (h | h) | h
            · exact absurd h hpid
            · exact h
            · simp [h] at he
          rw [hrel, List.mem_cons] at hmem
          rcases hmem with hmem | hmem
          · exact Or.inl (by rw [hmem, hrel])
          · exact absurd hmem hm

/-- The handler runs in the window between `fork()` and the registration of the
job of the new liner `c`, when none of them ends the job of `c`. -/
theorem shell_signals_window (ns : List Notification) (p : Proc) (c : Int) (live : List Int)
    (hs : p.my_process_type = PROCESS_TYPE_SHELL) (hh : p.halted = none)
    (hhead : ∃ rest, live = c :: rest)
    (hrel : job_pids p = live ∨ (live = c :: job_pids p ∧ c ∉ job_pids p))
    (hok : notifications_ok ns live = true)
    (hnr : ∀ n ∈ ns, n.child_pid = c → (reaped n || stopped_unexpectedly n) = false)
    (hq : (shell_signals ns p).halted = none) :
    (∃ rest, live_after_all ns live = c :: rest) ∧
    (job_pids (shell_signals ns p) = live_after_all ns live ∨
      (live_after_all ns live = c :: job_pids (shell_signals ns p) ∧
        c ∉ job_pids (shell_signals ns p))) := by
  induction ns generalizing p live with
  | nil => exact ⟨hhead, hrel⟩
  | cons n ns ih =>
    simp only [notifications_ok, Bool.and_eq_true] at hok
    unfold shell_signals at hq ⊢
    obtain ⟨h1, e1⟩ := andThen_running _ _ hq
    rw [e1] at hq ⊢
    obtain ⟨w1, w2⟩ := sigchld_handler_window n p c live hs hh hhead hrel hok.1
      (hnr n (List.mem_cons_self _ _)) h1
    exact ih (sigchld_handler SIGCHLD n p) (live_after n live)
      (sigchld_handler_type n p hs hh h1) h1 w1 w2 hok.2
      (fun m hm => hnr m (List.mem_cons_of_mem _ hm)) hq

theorem live_after_all_append (xs ys : List Notification) (live : List Int) :
    live_after_all (xs ++ ys) live = live_after_all ys (live_after_all xs live) := by
  induction xs generalizing live with
  | nil => rfl
  | cons x xs ih => exact ih _

theorem notifications_ok_append (xs ys : List Notification) (live : List Int) :
    notifications_ok (xs ++ ys) live =
      (notifications_ok xs live && notifications_ok ys (live_after_all xs live)) := by
  induction xs generalizing live with
  | nil => simp [notifications_ok, live_after_all]
  | cons x xs ih =>
    show (notification_ok x live && notifications_ok (xs ++ ys) (live_after x live)) = _
    rw [ih]
    simp only [notifications_ok, live_after_all, Bool.and_assoc]

theorem add_pid_to_history_facts (c : Int) (p : Proc)
    (hs : p.my_process_type = PROCESS_TYPE_SHELL) (hh : p.halted = none) :
    (add_pid_to_history c p).my_process_type = PROCESS_TYPE_SHELL ∧
    (add_pid_to_history c p).halted = none ∧
    (add_pid_to_history c p).last_liner_exited = p.last_liner_exited ∧
    job_pids (add_pid_to_history c p) = job_pids p := by
  rw [add_pid_to_history_shell c p hs]
  exact ⟨hs, hh, rfl, rfl⟩

/-- The registration of the new liner `c` in `main`, when no handler runs between
the test of the head of the list and `add_liner_list_item`. -/
theorem main_register_facts (c : Int) (p : Proc)
    (hs : p.my_process_type = PROCESS_TYPE_SHELL) (hh : p.halted = none) :
    (if main_already_created c p = true then p
      else add_liner_list_item c p).my_process_type = PROCESS_TYPE_SHELL ∧
    (if main_already_created c p = true then p else add_liner_list_item c p).halted = none ∧
    (if main_already_created c p = true then p
      else add_liner_list_item c p).last_liner_exited = p.last_liner_exited ∧
    job_pids (if main_already_created c p = true then p else add_liner_list_item c p) =
      if (job_pids p).head? = some c then job_pids p else c :: job_pids p := by
  rcases p with ⟨ty, l, lle, lwe, lcp, mp, pg, ph, pf, ch, cf, tk, cl, o, ha⟩
  simp only at hs hh
  subst hs hh
  cases l with
  | nil => simp [main_already_created, add_liner_list_item, c_assert, job_pids]
  | cons a l =>
    by_cases hac : a.pid = c <;>
      simp [main_already_created, add_liner_list_item, c_assert, job_pids, hac]

/-- The branch of the shell after `fork()` returned the pid `c` of a new liner:
when the shell is back at the main loop, its job list holds the liners that are
alive after the notifications it handled. -/
theorem main_parent_live (env : LineEnv) (p : Proc) (live : List Int)
    (hs : p.my_process_type = PROCESS_TYPE_SHELL) (hh : p.halted = none)
    (hinv : job_pids p = live) (hc : env.fork_result ∉ live)
    (hb : notifications_ok (env.before ++ env.logged) (env.fork_result :: live) = true)
    (hnr : ∀ n ∈ env.before ++ env.logged, n.child_pid = env.fork_result →
      (reaped n || stopped_unexpectedly n) = false)
    (hw : env.within = [])
    (hbt : notifications_ok env.between
      (live_after_all (env.before ++ env.logged) (env.fork_result :: live)) = true)
    (hr : notifications_ok env.racing (live_after_all env.between
      (live_after_all (env.before ++ env.logged) (env.fork_result :: live))) = true)
    (hd : ∀ n, env.during = some n → notification_ok n (live_after_all env.racing
      (live_after_all env.between
        (live_after_all (env.before ++ env.logged) (env.fork_result :: live)))) = true)
    (hq : (main_parent env p).halted = none) :
    (main_parent env p).my_process_type = PROCESS_TYPE_SHELL ∧
    (job_pids (main_parent env p) = live_after_all env.between
        (live_after_all (env.before ++ env.logged) (env.fork_result :: live)) ∨
      ∃ n, env.during = some n ∧
        job_pids (main_parent env p) = live_after n (live_after_all env.racing
          (live_after_all env.between
            (live_after_all (env.before ++ env.logged) (env.fork_result :: live))))) ∧
    (p.last_liner_exited = false → env.before = [] → env.logged = [] → env.between = [] →
      ∃ n, env.during = some n ∧
        job_pids (main_parent env p) =
          live_after n (live_after_all env.racing (env.fork_result :: live))) := by
  rw [notifications_ok_append, Bool.and_eq_true] at hb
  rw [live_after_all_append] at hbt hr hd ⊢
  unfold main_parent at hq ⊢
  simp only [] at hq ⊢
  obtain ⟨h1, e1⟩ := andThen_running _ _ hq
  rw [e1] at hq ⊢
  clear e1
  have t1 := shell_signals_type env.before p hs hh h1
  obtain ⟨w1, w2⟩ := shell_signals_window env.before p env.fork_result
    (env.fork_result :: live) hs hh ⟨_, rfl⟩
    (Or.inr ⟨by rw [hinv], by rw [hinv]; exact hc⟩) hb.1
    (fun n hn => hnr n (List.mem_append_left _ hn)) h1
  have hflag : env.before = [] → (shell_signals env.before p).last_liner_exited =
      p.last_liner_exited := by
    intro hbe
    rw [hbe]
    rfl
  generalize shell_signals env.before p = s1 at hq h1 t1 w2 hflag ⊢
  obtain ⟨a1, a2, a3, a4⟩ := add_pid_to_history_facts env.fork_result s1 t1 h1
  rw [← a4] at w2
  rw [← a3] at hflag
  generalize add_pid_to_history env.fork_result s1 = a at hq a1 a2 w2 hflag ⊢
  rw [andThen_of_running _ _ a2] at hq ⊢
  obtain ⟨h2, e2⟩ := andThen_running _ _ hq
  rw [e2] at hq ⊢
  clear e2
  have t2 := shell_signals_type env.logged a a1 a2 h2
  obtain ⟨v1, v2⟩ := shell_signals_window env.logged a env.fork_result
    (live_after_all env.before (env.fork_result :: live)) a1 a2 w1 w2 hb.2
    (fun n hn => hnr n (List.mem_append_right _ hn)) h2
  have hflag1 : env.before = [] → env.logged = [] →
      (shell_signals env.logged a).last_liner_exited = p.last_liner_exited := by
    intro hbe hlo
    rw [hlo]
    exact hflag hbe
  generalize shell_signals env.logged a = s2 at hq h2 t2 v2 hflag1 ⊢
  simp only [c_assert, t2, beq_self_eq_true, if_true] at hq ⊢
  rw [hw] at hq ⊢
  have e0 : ∀ k : Proc → Proc, (shell_signals [] s2).andThen k = k s2 := by
    intro k
    exact andThen_of_running s2 k h2
  rw [e0] at hq ⊢
  obtain ⟨r1, r2, r3, r4⟩ := main_register_facts env.fork_result s2 t2 h2
  have r5 : job_pids (if main_already_created env.fork_result s2 = true then s2
      else add_liner_list_item env.fork_result s2) =
      live_after_all env.logged (live_after_all env.before (env.fork_result :: live)) := by
    rw [r4]
    obtain ⟨rest, hrest⟩ := v1
    rcases v2 with v2 | ⟨v2, v3⟩
    · rw [v2, hrest]
      simp
    · have hne : ¬ (job_pids s2).head? = some env.fork_result := by
        intro hhd
        exact v3 (List.mem_of_mem_head? hhd)
      rw [if_neg hne, v2]
  generalize (if main_already_created env.fork_result s2 = true then s2
    else add_liner_list_item env.fork_result s2) = s3 at hq r1 r2 r3 r5 ⊢
  rw [andThen_of_running _ (shell_signals env.between) r2] at hq ⊢
  obtain ⟨h3, e3⟩ := andThen_running _ _ hq
  rw [e3] at hq ⊢
  clear e3
  have t3 := shell_signals_type env.between s3 r1 r2 h3
  have r6 := shell_signals_live env.between s3 _ r1 r2 r5 hbt h3
  have hflag2 : env.between = [] → (shell_signals env.between s3).last_liner_exited =
      s3.last_liner_exited := by
    intro hbe
    rw [hbe]
    rfl
  generalize shell_signals env.between s3 = s4 at hq h3 t3 r6 hflag2 ⊢
  unfold main_pause at hq ⊢
  by_cases hl : s4.last_liner_exited = true
  · simp only [hl, Bool.not_true, Bool.false_eq_true, if_false]
    refine ⟨t3, Or.inl r6, ?_⟩
    intro hp hbe hlo hbt2
    rw [hflag2 hbt2, r3, hflag1 hbe hlo, hp] at hl
    cases hl
  · have hl : s4.last_liner_exited = false := by simpa using hl
    simp only [hl, Bool.not_false, if_true] at hq ⊢
    obtain ⟨h5, e5⟩ := andThen_running _ _ hq
    rw [e5] at hq ⊢
    clear e5
    have t5 := shell_signals_type env.racing s4 t3 h3 h5
    have r7 := shell_signals_live env.racing s4 _ t3 h3 r6 hr h5
    generalize shell_signals env.racing s4 = s5 at hq h5 t5 r7 ⊢
    cases hdu : env.during with
    | none =>
      rw [hdu] at hq
      simp at hq
    | some n =>
      rw [hdu] at hq
      simp only [] at hq ⊢
      have r8 := sigchld_handler_live n s5 _ t5 h5 r7 (hd n hdu) hq
      refine ⟨sigchld_handler_type n s5 t5 h5 hq, Or.inr ⟨n, rfl, r8⟩, ?_⟩
      intro _ hbe hlo hbt2
      refine ⟨n, rfl, ?_⟩
      rw [r8, hbe, hlo, hbt2]
      rfl

/-- C17 (amended): a round of the main loop spawns a liner for a line that is run
as typed; no notification handled between `fork()` and the test of the head of
the job list reaps the new liner or reports it stopped by a signal other than
`SIGTSTP` and `SIGCONT`, and none is handled from that test to the end of
`add_liner_list_item`. If the job list held exactly the liners that were
spawned, not reaped as exited or killed, and not killed by the shell after such
a stop, then it does so again when the shell is back at the top of the loop to
read the next line, for the notifications handled in the round (those handled
before and in `pause()` included when the shell paused). When no notification
comes between `fork()` and the test of `last_liner_exited`, the shell pauses and
the list is that of the liners alive after the notification that ends
`pause()`. -/
theorem job_list_holds_live_liners (env : LineEnv) (cmd_str : List Char) (p : Proc)
    (live : List Int)
    (hs : p.my_process_type = PROCESS_TYPE_SHELL) (hh : p.halted = none)
    (hinv : job_pids p = live) (hnd : live.Nodup)
    (ht : typed_line cmd_str = true) (hok : round_ok env live = true)
    (hq : (main_iteration env cmd_str p).halted = none) :
    (main_iteration env cmd_str p).my_process_type = PROCESS_TYPE_SHELL ∧
    (job_pids (main_iteration env cmd_str p)).Nodup ∧
    (job_pids (main_iteration env cmd_str p) = round_live env live ∨
      ∃ n, env.during = some n ∧
        job_pids (main_iteration env cmd_str p) = live_after n (round_paused env live)) ∧
    (env.before = [] → env.logged = [] → env.between = [] →
      ∃ n, env.during = some n ∧
        job_pids (main_iteration env cmd_str p) =
          live_after n (live_after_all env.racing (round_spawned env live))) := by
  have hlen : 0 < (main_normalize cmd_str).length := by
    simp only [typed_line, Bool.and_eq_true, decide_eq_true_eq] at ht
    exact ht.1.1
  simp only [round_ok, Bool.and_eq_true, decide_eq_true_eq, List.all_eq_true, Bool.or_eq_true,
    Bool.not_eq_true', List.isEmpty_iff] at hok
  obtain ⟨⟨⟨⟨⟨⟨⟨⟨hpos, hnew⟩, hidle⟩, hbefore⟩, hrace⟩, hwithin⟩, hbetween⟩, hracing⟩,
    hduring⟩ := hok
  have hf : env.fork_result ≠ 0 := by omega
  have hnew0 : env.fork_result ∉ live_after_all env.idle live :=
    fun hm => hnew (live_after_all_subset _ _ _ hm)
  have hnd1 : (round_spawned env live).Nodup :=
    List.nodup_cons.mpr ⟨hnew0, live_after_all_nodup _ _ hnd⟩
  have hnd2 : (round_live env live).Nodup :=
    live_after_all_nodup _ _ (live_after_all_nodup _ _ hnd1)
  have hnd3 : (round_paused env live).Nodup := live_after_all_nodup _ _ hnd2
  unfold main_iteration at hq ⊢
  obtain ⟨h1, e1⟩ := andThen_running _ _ hq
  rw [e1] at hq ⊢
  clear e1
  have t1 := shell_signals_type env.idle p hs hh h1
  have g1 := shell_signals_live env.idle p live hs hh hinv hidle h1
  generalize shell_signals env.idle p = s1 at hq h1 t1 g1 ⊢
  simp only [] at hq ⊢
  rw [main_recall_typed cmd_str _ ht rfl] at hq ⊢
  rw [andThen_of_running { s1 with cmd_line := main_normalize cmd_str } _ h1] at hq ⊢
  obtain ⟨h2, e2⟩ := andThen_running _ _ hq
  rw [e2]
  clear e2 hq
  unfold main_run_line at h2 ⊢
  simp only [hlen, if_true, if_neg hf, main_save_history, Proc.emit] at h2 ⊢
  obtain ⟨w1, w2, w3⟩ := main_parent_live env
    ⟨s1.my_process_type, s1.liner, false, s1.last_worker_exited, s1.liner_child_pid,
      s1.msh_pgid, s1.pgrp, s1.pids_history, s1.pids_history_finish,
      s1.command_history.set s1.command_history_finish (main_normalize cmd_str),
      (s1.command_history_finish + 1) % MAX_COMMANDS_HISTORY_SIZE, s1.tokens,
      main_normalize cmd_str,
      s1.out ++ [Effect.fork_liner (main_normalize cmd_str) env.fork_result], s1.halted⟩
    (live_after_all env.idle live) t1 h1 g1 hnew0
    hbefore
    (fun n hn hc => by
      rcases hrace n hn with h | h
      · exact absurd hc h
      · exact h)
    hwithin hbetween hracing
    (fun n hn => by
      rw [hn] at hduring
      exact hduring)
    h2
  refine ⟨w1, ?_, w2, w3 rfl⟩
  rcases w2 with w2 | ⟨n, -, w2⟩
  · show (job_pids _).Nodup
    unfold free_current_input_resources job_pids
    unfold job_pids at w2
    rw [w2]
    exact hnd2
  · show (job_pids _).Nodup
    unfold free_current_input_resources job_pids
    unfold job_pids at w2
    rw [w2]
    exact live_after_nodup _ _ hnd3

/-- C17 as stated fails: liner 7 is spawned from an empty job list and registered;
the notification that ends `pause()` reports it stopped by signal 21 (`SIGTTIN`),
so it is not reaped; the shell sends it `SIGKILL` and removes its job, and reads
the next line with an empty job list. -/
theorem main_drops_job_of_stopped_liner :
    job_pids fresh_shell = [] ∧
    reaped (sample_notification 7 (W_STOPCODE 21)) = false ∧
    WIFSTOPPED (sample_notification 7 (W_STOPCODE 21)).child_status = true ∧
    (main_iteration (shell_env 7 [] [] (some (sample_notification 7 (W_STOPCODE 21))))
      "sleep 100\n".toList fresh_shell).halted = none ∧
    kills_of (emitted fresh_shell
      (main_iteration (shell_env 7 [] [] (some (sample_notification 7 (W_STOPCODE 21))))
        "sleep 100\n".toList fresh_shell)) = [(7, SIGKILL)] ∧
    job_pids (main_iteration (shell_env 7 [] [] (some (sample_notification 7 (W_STOPCODE 21))))
      "sleep 100\n".toList fresh_shell) = [] := by
  decide

theorem job_list_holds_live_liners_witness :
    (fresh_shell.my_process_type = PROCESS_TYPE_SHELL ∧ fresh_shell.halted = none ∧
      job_pids fresh_shell = [] ∧ ([] : List Int).Nodup ∧ typed_line "ls\n".toList = true ∧
      round_ok (sample_round 7) [] = true ∧
      (main_iteration (sample_round 7) "ls\n".toList fresh_shell).halted = none) ∧
    ((main_iteration (sample_round 7) "ls\n".toList fresh_shell).my_process_type =
        PROCESS_TYPE_SHELL ∧
      (job_pids (main_iteration (sample_round 7) "ls\n".toList fresh_shell)).Nodup ∧
      (job_pids (main_iteration (sample_round 7) "ls\n".toList fresh_shell) =
          round_live (sample_round 7) [] ∨
        ∃ n, (sample_round 7).during = some n ∧
          job_pids (main_iteration (sample_round 7) "ls\n".toList fresh_shell) =
            live_after n (round_paused (sample_round 7) [])) ∧
      ((sample_round 7).before = [] → (sample_round 7).logged = [] →
        (sample_round 7).between = [] →
        ∃ n, (sample_round 7).during = some n ∧
          job_pids (main_iteration (sample_round 7) "ls\n".toList fresh_shell) =
            live_after n (live_after_all (sample_round 7).racing
              (round_spawned (sample_round 7) [])))) :=
  ⟨by decide,
    job_list_holds_live_liners (sample_round 7) "ls\n".toList fresh_shell [] (by decide)
      (by decide) (by decide) (by decide) (by decide) (by decide) (by decide)⟩

/-- A line with one command that succeeds, typed into a shell with an empty job
list: the job list is empty again when the shell reads the next line, as the
list of the liners alive after the exit of liner 7 is. -/
theorem main_single_command_empties_job_list :
    job_pids (main_iteration (sample_round 7) "ls\n".toList fresh_shell) = [] ∧
    live_after (sample_notification 7 (W_EXITCODE 0 0))
      (live_after_all (sample_round 7).racing (round_spawned (sample_round 7) [])) = [] := by
  decide

/-- A handler run between the test of the head of the job list and
`add_liner_list_item`: liner 7 is reported stopped by `SIGTSTP` there, the
handler adds a job for it and `main` adds another. When `pause()` ends with
liner 7 reported continued, the list holds two jobs of liner 7 as the next line
is read; when it ends with the exit of liner 7, a job of the reaped liner is
left in the list. Such a round is not one of those `round_ok` admits. -/
theorem main_registers_liner_twice :
    (main_iteration { race_round with during := some (sample_notification 7 W_CONTINUED) }
      "ls\n".toList fresh_shell).halted = none ∧
    (main_iteration { race_round with during := some (sample_notification 7 W_CONTINUED) }
      "ls\n".toList fresh_shell).liner =
      [⟨7, 1, WORKER_STATE_BACKGROUND⟩, ⟨7, 1, WORKER_STATE_SUSPENDED⟩] ∧
    (main_iteration race_round "ls\n".toList fresh_shell).halted = none ∧
    (main_iteration race_round "ls\n".toList fresh_shell).liner =
      [⟨7, 1, WORKER_STATE_SUSPENDED⟩] ∧
    round_ok race_round [] = false := by
  decide

/-! ## The normalized line and the token scan of the liner -/

theorem main_token_eq (l : List Char) : (main_token l).1 ++ (main_token l).2 = l := by
  induction l with
  | nil => rfl
  | cons c rest ih =>
    unfold main_token
    by_cases hc : (!isspace c && c ≠ ';') = true
    · rw [if_pos hc]
      simp only [List.cons_append, ih]
    · rw [if_neg hc]
      rfl

theorem main_token_chars (l : List Char) :
    ∀ c ∈ (main_token l).1, isspace c = false ∧ c ≠ ';' := by
  induction l with
  | nil =>
    intro c hc
    simp [main_token] at hc
  | cons a rest ih =>
    intro c hc
    unfold main_token at hc
    by_cases ha : (!isspace a && a ≠ ';') = true
    · rw [if_pos ha] at hc
      simp only [List.mem_cons] at hc
      rcases hc with hc | hc
      · subst hc
        simpa using ha
      · exact ih c hc
    · rw [if_neg ha] at hc
      simp at hc

theorem main_token_rest (l : List Char) :
    (main_token l).2 = [] ∨ ∃ c r, (main_token l).2 = c :: r ∧ (isspace c = true ∨ c = ';') := by
  induction l with
  | nil => exact Or.inl rfl
  | cons a rest ih =>
    unfold main_token
    by_cases ha : (!isspace a && a ≠ ';') = true
    · rw [if_pos ha]
      exact ih
    · rw [if_neg ha]
      refine Or.inr ⟨a, rest, rfl, ?_⟩
      by_cases hs : isspace a = true
      · exact Or.inl hs
      · right
        by_contra hne
        exact ha (by simp [hs, hne])

theorem main_token_length (l : List Char) : (main_token l).2.length ≤ l.length := by
  have h := congrArg List.length (main_token_eq l)
  rw [List.length_append] at h
  omega

theorem main_token_head (c : Char) (rest : List Char) (h1 : isspace c = false)
    (h2 : c ≠ ';') : (main_token (c :: rest)).1 = c :: (main_token rest).1 ∧
      (main_token (c :: rest)).2 = (main_token rest).2 := by
  have hc : (!isspace c && c ≠ ';') = true := by simp [h1, h2]
  constructor
  · conv => lhs; unfold main_token
    rw [if_pos hc]
  · conv => lhs; unfold main_token
    rw [if_pos hc]

theorem intercalate_append_singleton (sep x : List Char) (l : List (List Char)) :
    List.intercalate sep (l ++ [x]) =
      if l = [] then x else List.intercalate sep l ++ sep ++ x := by
  induction l with
  | nil => simp [List.intercalate]
  | cons a l ih =>
    cases l with
    | nil => simp [List.intercalate]
    | cons b l =>
      rw [List.cons_append, List.cons_append, intercalate_cons_cons, ← List.cons_append, ih]
      rw [intercalate_cons_cons]
      simp

/-- The normalization loop of `main` keeps `cmd_line` a sequence of tokens joined
by single spaces, whatever the number of rounds. -/
theorem main_normalize_loop_tokens (fuel : Nat) :
    ∀ (rest : List Char) (done : List (List Char)),
      (∀ t ∈ done, is_token t = true) →
      ∃ items, (∀ t ∈ items, is_token t = true) ∧
        main_normalize_loop fuel rest (decide (done = [])) (List.intercalate [' '] done) =
          List.intercalate [' '] items := by
  induction fuel with
  | zero =>
    intro rest done hd
    exact ⟨done, hd, rfl⟩
  | succ fuel ih =>
    intro rest done hd
    cases rest with
    | nil => exact ⟨done, hd, rfl⟩
    | cons c rest =>
      unfold main_normalize_loop
      by_cases hsp : isspace c = true
      · rw [if_pos hsp]
        exact ih rest done hd
      · rw [if_neg hsp]
        have hsp : isspace c = false := by simpa using hsp
        have hacc : ∀ x : List Char,
            (if decide (done = []) = true then List.intercalate [' '] done
              else List.intercalate [' '] done ++ [' ']) ++ x =
            List.intercalate [' '] (done ++ [x]) := by
          intro x
          rw [intercalate_append_singleton]
          by_cases hdn : done = []
          · simp [hdn, List.intercalate]
          · simp [hdn]
        by_cases hsc : c = ';'
        · simp only [hsc, if_true]
          rw [hacc]
          have hd2 : ∀ t ∈ done ++ [[';']], is_token t = true := by
            intro t ht
            rcases List.mem_append.mp ht with ht | ht
            · exact hd t ht
            · simp only [List.mem_singleton] at ht
              subst ht
              decide
          have hne : decide (done ++ [[';']] = []) = false := by simp
          have := ih rest (done ++ [[';']]) hd2
          rw [hne] at this
          exact this
        · simp only [hsc, if_false]
          rw [hacc]
          have htok : is_token (main_token (c :: rest)).1 = true := by
            have h1 := main_token_chars (c :: rest)
            have h2 := (main_token_head c rest hsp hsc).1
            unfold is_token
            rw [Bool.or_eq_true]
            right
            rw [Bool.and_eq_true]
            constructor
            · rw [h2]
              rfl
            · rw [List.all_eq_true]
              intro x hx
              have := h1 x hx
              simp [this.1, this.2]
          have hd1 : ∀ t ∈ done ++ [(main_token (c :: rest)).1], is_token t = true := by
            intro t ht
            rcases List.mem_append.mp ht with ht | ht
            · exact hd t ht
            · simp only [List.mem_singleton] at ht
              subst ht
              exact htok
          generalize (main_token (c :: rest)).1 = tk at hd1 ⊢
          generalize (main_token (c :: rest)).2 = tl
          cases tl with
          | nil =>
            have hne : decide (done ++ [tk] = []) = false := by simp
            have := ih ([] : List Char).tail (done ++ [tk]) hd1
            rw [hne] at this
            simpa using this
          | cons a tl =>
            by_cases ha : a = ';'
            · subst ha
              have hd2 : ∀ t ∈ (done ++ [tk]) ++ [[';']], is_token t = true := by
                intro t ht
                rcases List.mem_append.mp ht with ht | ht
                · exact hd1 t ht
                · simp only [List.mem_singleton] at ht
                  subst ht
                  decide
              have hne : decide ((done ++ [tk]) ++ [[';']] = []) = false := by simp
              have := ih tl ((done ++ [tk]) ++ [[';']]) hd2
              rw [hne, intercalate_append_singleton] at this
              simpa using this
            · have hne : decide (done ++ [tk] = []) = false := by simp
              have := ih tl (done ++ [tk]) hd1
              rw [hne] at this
              simp only [List.drop_succ_cons, List.drop_zero]
              split
              · rename_i heq
                cases heq
                exact absurd rfl ha
              · exact this

/-- The result of the normalization loop does not depend on the number of rounds
allowed, once that exceeds the number of characters left: `main_normalize` never
runs out of rounds. -/
theorem main_normalize_loop_fuel (n : Nat) :
    ∀ (rest : List Char), rest.length ≤ n →
      ∀ (f1 f2 : Nat) (is_first_token : Bool) (cmd_line : List Char),
        rest.length < f1 → rest.length < f2 →
        main_normalize_loop f1 rest is_first_token cmd_line =
          main_normalize_loop f2 rest is_first_token cmd_line := by
  induction n with
  | zero =>
    intro rest hn f1 f2 b acc h1 h2
    have hr : rest = [] := List.length_eq_zero.mp (Nat.le_zero.mp hn)
    subst hr
    cases f1 with
    | zero => cases h1
    | succ f1 =>
      cases f2 with
      | zero => cases h2
      | succ f2 => rfl
  | succ n ih =>
    intro rest hn f1 f2 b acc h1 h2
    cases f1 with
    | zero => cases h1
    | succ f1 =>
      cases f2 with
      | zero => cases h2
      | succ f2 =>
        cases rest with
        | nil => rfl
        | cons c rest =>
          simp only [List.length_cons] at hn h1 h2
          have hl := main_token_length (c :: rest)
          simp only [List.length_cons] at hl
          have hd : ((main_token (c :: rest)).2.drop 1).length ≤ rest.length := by
            rw [List.length_drop]
            omega
          unfold main_normalize_loop
          by_cases hsp : isspace c = true
          · rw [if_pos hsp, if_pos hsp]
            exact ih rest (by omega) f1 f2 _ _ (by omega) (by omega)
          · rw [if_neg hsp, if_neg hsp]
            by_cases hsc : c = ';'
            · simp only [hsc, if_true]
              exact ih rest (by omega) f1 f2 _ _ (by omega) (by omega)
            · simp only [hsc, if_false]
              exact ih _ (by omega) f1 f2 _ _ (by omega) (by omega)

/-- The line `main` hands to the liner is a sequence of tokens joined by single
spaces. -/
theorem main_normalize_tokens (cmd_str : List Char) :
    ∃ items, (∀ t ∈ items, is_token t = true) ∧
      main_normalize cmd_str = List.intercalate [' '] items := by
  have h := main_normalize_loop_tokens (cmd_str.length + 1) cmd_str [] (by simp)
  simpa [main_normalize, List.intercalate] using h

theorem is_token_word (t : List Char) (ht : is_token t = true) (hs : t ≠ [';']) :
    t ≠ [] ∧ ' ' ∉ t ∧ ';' ∉ t := by
  unfold is_token at ht
  simp only [Bool.or_eq_true, beq_iff_eq, Bool.and_eq_true, Bool.not_eq_true',
    List.all_eq_true, bne_iff_ne, ne_eq] at ht
  rcases ht with ht | ⟨h1, h2⟩
  · exact absurd ht hs
  · refine ⟨?_, ?_, ?_⟩
    · intro he
      rw [he] at h1
      simp at h1
    · intro hm
      have := (h2 _ hm).1
      simp [isspace] at this
    · intro hm
      exact (h2 _ hm).2 rfl

theorem intercalate_cons_tail (t : List Char) (post : List (List Char)) :
    ∃ tail, List.intercalate [' '] (t :: post) = t ++ tail ∧
      (tail = [] ∨ ∃ r, tail = ' ' :: r) ∧ tail.drop 1 = List.intercalate [' '] post := by
  cases post with
  | nil =>
    refine ⟨[], ?_, Or.inl rfl, ?_⟩
    · rw [intercalate_singleton, List.append_nil]
    · simp [List.intercalate]
  | cons b post =>
    refine ⟨' ' :: List.intercalate [' '] (b :: post), ?_, Or.inr ⟨_, rfl⟩, rfl⟩
    rw [intercalate_cons_cons]
    rfl

theorem free_and_exit_liner (retcode : Nat) (p : Proc) (hl : liner_safe p) :
    liner_safe (free_and_exit retcode p) := by
  unfold liner_safe at hl ⊢
  simp [free_and_exit, free_all_resources, free_current_input_resources, free_liner_list, hl.1]

theorem update_cwd_liner (a b : Bool) (p : Proc) (hl : liner_safe p) :
    liner_safe (update_cwd a b p) := by
  unfold liner_safe at hl ⊢
  unfold update_cwd Proc.andThen
  cases a <;> cases b <;> simp only [Bool.false_eq_true, if_true, if_false] <;>
    (repeat' split) <;>
    simp_all [Proc.emit, free_and_exit, free_all_resources, free_current_input_resources,
      free_liner_list] <;>
    (rename_i h; rw [← h]; simp)

theorem liner_signal_liner (s : LinerSignal) (p : Proc) (hl : liner_safe p) :
    liner_safe (liner_signal s p) := by
  cases s with
  | sigchld n =>
    have hu := update_cwd_liner n.fscanf_ok n.chdir_ok p hl
    unfold liner_safe at hl hu ⊢
    unfold liner_signal sigchld_handler_for_liner c_assert Proc.andThen
    simp only [beq_self_eq_true, if_true, hl.1]
    generalize update_cwd n.fscanf_ok n.chdir_ok p = u at hu ⊢
    (repeat' split) <;>
      simp_all [Proc.emit, free_and_exit, free_all_resources, free_current_input_resources,
        free_liner_list]
  | sigcont pgid ok =>
    unfold liner_safe at hl ⊢
    unfold liner_signal sigcont_handler c_assert
    simp only [beq_self_eq_true, if_true, hl.1]
    cases ok <;>
      simp [Proc.emit, free_and_exit, free_all_resources, free_current_input_resources,
        free_liner_list, hl.1, hl.2]

theorem liner_signals_liner (signals : List LinerSignal) (p : Proc) (hl : liner_safe p) :
    liner_safe (liner_signals signals p) := by
  induction signals generalizing p with
  | nil => exact hl
  | cons s signals ih =>
    unfold liner_signals Proc.andThen
    split
    · exact ih _ (liner_signal_liner s p hl)
    · exact liner_signal_liner s p hl

theorem wait_for_worker_liner (racing : Bool) (signals : List LinerSignal) (p : Proc)
    (hl : liner_safe p) : liner_safe (wait_for_worker racing signals p) := by
  have h := liner_signals_liner signals p hl
  unfold wait_for_worker Proc.andThen
  generalize liner_signals signals p = q at h ⊢
  cases hq : q.halted with
  | none =>
    simp only []
    split
    · exact h
    · exact ⟨h.1, by simp⟩
  | some x => exact h

theorem start_worker_liner (run : WorkerRun) (p : Proc) (hfork : run.fork_result ≠ 0)
    (hl : liner_safe p) : liner_safe (start_worker run p) := by
  rw [start_worker_in_liner run p hfork, if_pos hl.1]
  unfold Proc.andThen
  split
  · exact wait_for_worker_liner _ _ _ ⟨hl.1, hl.2⟩
  · exact ⟨hl.1, hl.2⟩

theorem run_liner_finish_liner (runs : Nat → WorkerRun) (k : Nat) (p : Proc)
    (hf : ∀ k, (runs k).fork_result ≠ 0) (hl : liner_safe p) :
    liner_safe (run_liner_finish runs k p) := by
  have h1 : liner_safe
      (if 0 < p.tokens.length then (start_worker (runs k) p).andThen free_tokens else p) := by
    split
    · have hsw := start_worker_liner (runs k) p (hf k) hl
      unfold Proc.andThen
      split
      · exact ⟨hsw.1, by unfold free_tokens; simp_all⟩
      · exact hsw
    · exact hl
  unfold run_liner_finish
  generalize (if 0 < p.tokens.length then (start_worker (runs k) p).andThen free_tokens
    else p) = u at h1 ⊢
  unfold Proc.andThen
  split
  · exact free_and_exit_liner _ _ h1
  · exact h1

/-- The `for` loop of `run_liner` on a sequence of tokens joined by single
spaces, in the liner: no assertion fails, whatever the number of rounds. -/
theorem run_liner_loop_liner (runs : Nat → WorkerRun) (hf : ∀ k, (runs k).fork_result ≠ 0)
    (items : List (List Char)) :
    (∀ t ∈ items, is_token t = true) →
    ∀ (fuel k : Nat) (p : Proc), liner_safe p →
      liner_safe (run_liner_loop runs fuel k (List.intercalate [' '] items) p) := by
  induction items with
  | nil =>
    intro _ fuel k p hl
    cases fuel with
    | zero => exact ⟨hl.1, by simp [run_liner_loop]⟩
    | succ fuel =>
      have he : List.intercalate [' '] ([] : List (List Char)) = [] := by
        simp [List.intercalate]
      rw [he, run_liner_loop_nil]
      exact run_liner_finish_liner runs k p hf hl
  | cons t post ih =>
    intro hit fuel k p hl
    have hpost : ∀ t ∈ post, is_token t = true := fun x hx => hit x (List.mem_cons_of_mem _ hx)
    obtain ⟨tail, hline, htail, hdrop⟩ := intercalate_cons_tail t post
    cases fuel with
    | zero => exact ⟨hl.1, by simp [run_liner_loop]⟩
    | succ fuel =>
      rw [hline]
      by_cases hsc : t = [';']
      · subst hsc
        rw [List.singleton_append, run_liner_loop_cons]
        rw [if_neg (by decide), if_pos rfl, hdrop]
        have hsw := start_worker_liner (runs k) p (hf k) hl
        unfold Proc.andThen
        split
        · exact ih hpost fuel (k + 1) _ ⟨hsw.1, by unfold free_tokens; simp_all⟩
        · exact hsw
      · obtain ⟨hne, hsp, hsm⟩ := is_token_word t (hit t (List.mem_cons_self _ _)) hsc
        have htok := run_liner_token_spec t tail hsp hsm htail
        cases t with
        | nil => exact absurd rfl hne
        | cons c t =>
          have hc1 : c ≠ ' ' := fun h => hsp (h ▸ List.mem_cons_self _ _)
          have hc2 : c ≠ ';' := fun h => hsm (h ▸ List.mem_cons_self _ _)
          rw [List.cons_append] at htok ⊢
          rw [run_liner_loop_cons, if_neg hc1, if_neg hc2, htok]
          simp only []
          split
          · exact free_and_exit_liner _ _ ⟨hl.1, hl.2⟩
          · rw [hdrop]
            exact ih hpost fuel k _ ⟨hl.1, hl.2⟩

/-- C18: the line `cmd_line` that `main` builds from an input line is a sequence
of tokens joined by single spaces, a token being either the one character `;`
or a non-empty string without white space and without `;`; at every token of
the second kind the inner `while` of `run_liner` ends with exactly that token,
without meeting a `;`; and in the liner that runs `run_liner` on this line no
assertion fails, whatever its workers do and whatever signals reach it. -/
theorem main_normalize_keeps_run_liner_assertions (cmd_str : List Char)
    (runs : Nat → WorkerRun) (p : Proc)
    (hl : p.my_process_type = PROCESS_TYPE_LINER) (hh : p.halted = none)
    (hc : p.cmd_line = main_normalize cmd_str) (hf : ∀ k, (runs k).fork_result ≠ 0) :
    ∃ items, (∀ t ∈ items, is_token t = true) ∧
      main_normalize cmd_str = List.intercalate [' '] items ∧
      (∀ pre t post, items = pre ++ t :: post → t ≠ [';'] →
        ∃ tail, List.intercalate [' '] (t :: post) = t ++ tail ∧
          run_liner_token (t ++ tail) = some (t, tail)) ∧
      (∀ fuel k, (run_liner_loop runs fuel k p.cmd_line p).halted ≠ some Halt.abort) ∧
      (run_liner runs p).halted ≠ some Halt.abort := by
  obtain ⟨items, hit, hn⟩ := main_normalize_tokens cmd_str
  refine ⟨items, hit, hn, ?_, ?_, ?_⟩
  · intro pre t post hsplit hsc
    obtain ⟨tail, hline, htail, -⟩ := intercalate_cons_tail t post
    have hmem : t ∈ items := by
      rw [hsplit]
      exact List.mem_append_right _ (List.mem_cons_self _ _)
    obtain ⟨-, hsp, hsm⟩ := is_token_word t (hit t hmem) hsc
    exact ⟨tail, hline, run_liner_token_spec t tail hsp hsm htail⟩
  · intro fuel k
    rw [hc, hn]
    exact (run_liner_loop_liner runs hf items hit fuel k p ⟨hl, by rw [hh]; simp⟩).2
  · unfold run_liner c_assert
    simp only [hl, beq_self_eq_true, if_true]
    rw [hc, hn]
    exact (run_liner_loop_liner runs hf items hit _ 0 p ⟨hl, by rw [hh]; simp⟩).2

theorem main_normalize_keeps_run_liner_assertions_witness :
    ((sample_liner (main_normalize " ls  -l;pwd ;\n".toList)).my_process_type =
        PROCESS_TYPE_LINER ∧
      (sample_liner (main_normalize " ls  -l;pwd ;\n".toList)).halted = none ∧
      (sample_liner (main_normalize " ls  -l;pwd ;\n".toList)).cmd_line =
        main_normalize " ls  -l;pwd ;\n".toList ∧
      ∀ k, (sample_runs (fun _ => 0) k).fork_result ≠ 0) ∧
    ∃ items, (∀ t ∈ items, is_token t = true) ∧
      main_normalize " ls  -l;pwd ;\n".toList = List.intercalate [' '] items ∧
      (∀ pre t post, items = pre ++ t :: post → t ≠ [';'] →
        ∃ tail, List.intercalate [' '] (t :: post) = t ++ tail ∧
          run_liner_token (t ++ tail) = some (t, tail)) ∧
      (∀ fuel k, (run_liner_loop (sample_runs (fun _ => 0)) fuel k
        (sample_liner (main_normalize " ls  -l;pwd ;\n".toList)).cmd_line
        (sample_liner (main_normalize " ls  -l;pwd ;\n".toList))).halted ≠ some Halt.abort) ∧
      (run_liner (sample_runs (fun _ => 0))
        (sample_liner (main_normalize " ls  -l;pwd ;\n".toList))).halted ≠ some Halt.abort :=
  ⟨⟨by decide, by decide, by decide, fun k => by simp [sample_runs]; omega⟩,
    main_normalize_keeps_run_liner_assertions " ls  -l;pwd ;\n".toList
      (sample_runs (fun _ => 0)) (sample_liner (main_normalize " ls  -l;pwd ;\n".toList))
      (by decide) (by decide) (by decide) (fun k => by simp [sample_runs]; omega)⟩

/-- The normalized form of the line ` ls  -l;pwd ;`, and the end of the liner
that runs it when both workers exit with status 0. -/
theorem main_normalize_sample :
    main_normalize " ls  -l;pwd ;\n".toList = "ls -l ; pwd ;".toList ∧
    (run_liner (sample_runs (fun _ => 0))
      (sample_liner (main_normalize " ls  -l;pwd ;\n".toList))).halted =
        some (Halt.exit EXIT_SUCCESS) := by
  decide

end Msh
